import Mathlib

/-! FileSync: record loaders and archive bucket selection.

A shallow embedding of `src/fserver/compressor.go`.

* A Go `[]byte` / `string` is a list of byte values (`Bytes`).
* Go `int` values that hold dates are `Int`; lengths and offsets are `Nat`.
* A `for ... range` loop whose body may `continue` or `return` is a fold
  (`forRange`) over a body returning `Flow.next` or `Flow.ret`.
-/

namespace FileSync

/-- A Go byte slice or string, one list element per byte. -/
abbrev Bytes := List Nat

/-- The bytes of an ASCII string literal. -/
def ascii (s : String) : Bytes := s.toList.map Char.toNat

/-- Outcome of one iteration of a loop body: go on with a new state, or leave
the enclosing function with a result. -/
inductive Flow (σ ρ : Type) where
  | next (s : σ)
  | ret (r : ρ)
  deriving DecidableEq

/-- A `for _, x := range xs` loop with state `σ` whose body may return early. -/
def forRange {α σ ρ : Type} (body : σ → α → Flow σ ρ) : List α → σ → Flow σ ρ
  | [], s => Flow.next s
  | x :: xs, s =>
    match body s x with
    | Flow.next s1 => forRange body xs s1
    | Flow.ret r => Flow.ret r

/-- Go `bytes.Split(s, sep)` / `strings.Split(s, sep)` for a one-byte separator:
the pieces between separators; one more piece than there are separators. -/
def splitOn (sep : Nat) : Bytes → List Bytes
  | [] => [[]]
  | c :: cs =>
    if c = sep then [] :: splitOn sep cs
    else
      match splitOn sep cs with
      | [] => [[c]]
      | p :: ps => (c :: p) :: ps

/-- Result of Go `strconv.ParseUint(s, 10, 64)`. -/
inductive UintResult where
  | ok (n : Nat)
  | syntaxErr
  | rangeErr
  deriving DecidableEq

/-- The digit loop of Go `strconv.ParseUint` in base 10 with 64 bits: a byte that
is not a digit is a syntax error; a value that leaves the 64-bit range is a
range error, reported as soon as it is seen. -/
def parseUintLoop : Bytes → Nat → UintResult
  | [], n => UintResult.ok n
  | c :: cs, n =>
    if c < 48 ∨ 57 < c then UintResult.syntaxErr
    else if n ≥ 2 ^ 64 / 10 + 1 then UintResult.rangeErr
    else if n * 10 + (c - 48) ≥ 2 ^ 64 then UintResult.rangeErr
    else parseUintLoop cs (n * 10 + (c - 48))

/-- Go `strconv.ParseUint(s, 10, 64)`. -/
def ParseUint (s : Bytes) : UintResult :=
  if s = [] then UintResult.syntaxErr else parseUintLoop s 0

/-- Go `strconv.ParseInt(s, 10, 64)`: the value and whether `err == nil`.
On a syntax error the value is 0, on a range error it is the nearest bound. -/
def ParseInt (s : Bytes) : Int × Bool :=
  match s with
  | [] => (0, false)
  | c :: rest =>
    let neg : Bool := c = 45
    let digits : Bytes := if c = 43 ∨ c = 45 then rest else s
    match ParseUint digits with
    | UintResult.syntaxErr => (0, false)
    | UintResult.rangeErr => if neg then (-(2 ^ 63 : Int), false) else ((2 ^ 63 : Int) - 1, false)
    | UintResult.ok un =>
      if neg = false ∧ un ≥ 2 ^ 63 then ((2 ^ 63 : Int) - 1, false)
      else if neg = true ∧ un > 2 ^ 63 then (-(2 ^ 63 : Int), false)
      else (if neg then -(un : Int) else (un : Int), true)

/-- Go `strconv.Atoi(s)` on a 64-bit platform: the value and whether
`err == nil`. Its fast path for short inputs agrees with `ParseInt`. -/
def Atoi (s : Bytes) : Int × Bool := ParseInt s

/-- The first comma-separated field, `strings.Split(string(bLine), ",")[0]`. -/
def firstField (bLine : Bytes) : Bytes := (splitOn 44 bLine).headD []

/-! ## Day1RecordIO.LoadFromFile -/

/-- Local variables of `Day1RecordIO.LoadFromFile` that live across iterations. -/
structure Day1State where
  rstr : Bytes
  nReturnDate : Int
  nOffset : Nat
  deriving DecidableEq

/-- Body of the loop of `Day1RecordIO.LoadFromFile` (compressor.go 733-751). -/
def Day1RecordIO.body (s : Day1State) (bLine : Bytes) : Flow Day1State (Bytes × Int × Nat) :=
  let nOffset := s.nOffset + (bLine.length + 1)
  let sFirstFields := firstField bLine
  if sFirstFields.length ≤ 0 then Flow.next { s with nOffset := nOffset }
  else
    match Atoi sFirstFields with
    | (_, false) => Flow.next { s with nOffset := nOffset }
    | (nDate, true) =>
      let nReturnDate := if -100 = s.nReturnDate then nDate else s.nReturnDate
      if nReturnDate ≠ nDate then Flow.ret (s.rstr, nReturnDate, nOffset)
      else Flow.next { rstr := s.rstr ++ (bLine ++ [10]), nReturnDate := nReturnDate, nOffset := nOffset }

/-- State of `Day1RecordIO.LoadFromFile` before the loop. -/
def Day1RecordIO.init : Day1State := { rstr := [], nReturnDate := -100, nOffset := 0 }

/-- `Day1RecordIO.LoadFromFile` (compressor.go 727-755): the chunk, its date and
the number of bytes consumed. -/
def Day1RecordIO.LoadFromFile (bytesData : Bytes) : Bytes × Int × Nat :=
  match forRange Day1RecordIO.body (splitOn 10 bytesData) Day1RecordIO.init with
  | Flow.ret r => r
  | Flow.next s => (s.rstr, s.nReturnDate, bytesData.length)

/-- Lines each followed by a line break, concatenated into one buffer. -/
def joinLines : List Bytes → Bytes
  | [] => []
  | l :: ls => l ++ 10 :: joinLines ls

/-- The newline-terminated lines of a chunk. -/
def chunkLines (b : Bytes) : List Bytes := (splitOn 10 b).dropLast

/-! ## compressFile -/

/-- How a run of the chunk loop of `compressFile` ends: it returns `true`, it
returns `false`, the slice `bytesData[nIndex:]` is out of range, or the fuel
given to the model ran out. -/
inductive Run (ω : Type) where
  | ok (w : ω)
  | fail (w : ω)
  | panic
  | outOfFuel
  deriving DecidableEq

/-- The chunk loop of `compressFile` (compressor.go 232-256) for the loader
`LoadFromFile`. `emit` stands for obtaining the writer with `GrapWriter` and
writing one entry; its flag is false when the writer is nil or the header
cannot be written. -/
def compressFile.loop {ω : Type} (LoadFromFile : Bytes → Bytes × Int × Nat)
    (emit : ω → Bytes → Int → ω × Bool) (bytesData : Bytes) : Nat → Nat → ω → Run ω
  | 0, _, _ => Run.outOfFuel
  | fuel + 1, nIndex, w =>
    if bytesData.length < nIndex then Run.panic
    else
      match LoadFromFile (bytesData.drop nIndex) with
      | (bData, nDate, nOffset) =>
        if bData.length ≤ 0 then Run.ok w
        else
          match emit w bData nDate with
          | (w1, false) => Run.fail w1
          | (w1, true) => compressFile.loop LoadFromFile emit bytesData fuel (nIndex + nOffset) w1

/-- An `emit` that always succeeds and records the entries written. -/
def recordEntry (w : List (Bytes × Int)) (bData : Bytes) (nDate : Int) : List (Bytes × Int) × Bool :=
  (w ++ [(bData, nDate)], true)

/-- The chunk `rstr` is made of whole lines whose date is `d` or the value -100
that stands for "no date yet". -/
def Day1RecordIO.Good (rstr : Bytes) (d : Int) : Prop :=
  ∃ acc : List Bytes, rstr = joinLines acc ∧
    ∀ l ∈ acc, 10 ∉ l ∧ (Atoi (firstField l) = (d, true) ∨ Atoi (firstField l) = (-100, true))

/-- What `Good` says of the outcome of a loop. -/
def Day1RecordIO.GoodFlow : Flow Day1State (Bytes × Int × Nat) → Prop
  | Flow.next s => Day1RecordIO.Good s.rstr s.nReturnDate
  | Flow.ret r => Day1RecordIO.Good r.1 r.2.1

/-- The chunk and date a loop outcome leads to, leaving the byte count aside. -/
def Day1RecordIO.chunkAndDate : Flow Day1State (Bytes × Int × Nat) → Bytes × Int
  | Flow.next s => (s.rstr, s.nReturnDate)
  | Flow.ret r => (r.1, r.2.1)

/-- Whether a loop outcome is an early return. -/
def Flow.isRet {σ ρ : Type} : Flow σ ρ → Bool
  | Flow.next _ => false
  | Flow.ret _ => true

/-! ## Time and bucket file names

A wall-clock reading is a civil date and time of the proleptic Gregorian calendar
as the number of nanoseconds since 0001-01-01 00:00:00. An instant is the
wall-clock reading that UTC shows at that moment. The zone `time.Local` takes one
to the other; the difference of two instants is the elapsed time. -/

/-- What the zone `time.Local` and the 64-bit arithmetic of package `time` add to
the calendar arithmetic. `offsetOfWall w` is the UTC offset, in nanoseconds, that
`time.Date(..., time.Local)` subtracts from the wall-clock reading `w`; it is looked
up in the zone from `w`. `offsetAt t` is the UTC offset in force at the instant `t`,
with which the date and the clock of `t` are shown. `beyond nDate` is the instant
that the code's call of `time.Date` gives for a date `nDate` whose year is outside
the range in which the arithmetic of `time.Date` does not wrap around. -/
structure Location where
  offsetOfWall : Int → Int
  offsetAt : Int → Int
  beyond : Int → Int

/-- A Go `time.Time` as `time.Now()` returns it: the instant and the zone
`time.Local` it carries. -/
structure Time where
  instant : Int
  loc : Location

/-- The zone UTC: no offset. No date beyond the range of `time.Date` is used with
it. -/
def Location.utc : Location :=
  { offsetOfWall := fun _ => 0, offsetAt := fun _ => 0, beyond := fun _ => 0 }

/-- The value of `time.Now()` at the wall-clock reading `w` of UTC when `time.Local`
is UTC. -/
def Time.utc (w : Int) : Time := { instant := w, loc := Location.utc }

/-- The wall-clock reading that `time.Local` shows at the instant of `t`. -/
def Time.wall (t : Time) : Int := t.instant + t.loc.offsetAt t.instant

/-- Nanoseconds in a day. -/
def nsPerDay : Int := 86400000000000

/-- Go `isLeap`. -/
def isLeap (year : Int) : Bool := year % 4 = 0 ∧ (year % 100 ≠ 0 ∨ year % 400 = 0)

/-- Go `daysBefore[month-1]`: days of a non-leap year before the month. -/
def daysBefore (month : Int) : Int :=
  [0, 31, 59, 90, 120, 151, 181, 212, 243, 273, 304, 334].getD (month - 1).toNat 0

/-- Day number of a calendar day as Go `time.Date` computes it: the month is
first normalised into the year, the day of the month is added as it is. -/
def daysSinceEpoch (year month day : Int) : Int :=
  let m := month - 1
  let year := year + m / 12
  let month := m % 12 + 1
  let y := year - 1
  365 * y + y / 4 - y / 100 + y / 400 + daysBefore month
    + (if isLeap year = true ∧ 3 ≤ month then 1 else 0) + (day - 1)

/-- The wall-clock reading of `time.Date(year, month, day, hour, min, sec, nsec, loc)`
before the offset of the zone is taken off. -/
def timeDate (year month day hour min sec nsec : Int) : Int :=
  daysSinceEpoch year month day * nsPerDay + (hour * 3600 + min * 60 + sec) * 1000000000 + nsec

/-- Go `t.Sub(u)`: the duration in nanoseconds, saturated to the 64-bit range. -/
def timeSub (t u : Int) : Int :=
  if t - u < -(2 ^ 63 : Int) then -(2 ^ 63 : Int)
  else if t - u > (2 ^ 63 : Int) - 1 then (2 ^ 63 : Int) - 1
  else t - u

/-- The wall-clock reading 21:06:09 on the day of a record dated `nDate`, from the
date fields the code gives to `time.Date` (compressor.go 147 and 687). -/
def recordWall (nDate : Int) : Int :=
  timeDate (nDate.tdiv 10000) ((nDate.tmod 10000).tdiv 100) (nDate.tmod 100) 21 6 9 0

/-- The years for which `time.Date` computes without wrap-around in its 64-bit
arithmetic; a margin is left to the first year that wraps, near 292 277 022 399
years before and after year 1. -/
def yearInRange (year : Int) : Bool := -100000000000 ≤ year ∧ year ≤ 100000000000

/-- The instant `objRecordDate` the code gives to a record dated `nDate`:
`time.Date(nDate/10000, nDate%10000/100, nDate%100, 21, 6, 9, 0, time.Local)`
(compressor.go 147 and 687), in the zone `loc`. -/
def objRecordDate (loc : Location) (nDate : Int) : Int :=
  if yearInRange (nDate.tdiv 10000) = true then
    recordWall nDate - loc.offsetOfWall (recordWall nDate)
  else loc.beyond nDate

/-- The test `nDays <= 16` on `nDays := subHours.Hours() / 24`. `Hours()` and the
division are in float64; they are monotone in the duration, exact at 16 days
(384 hours) and one nanosecond more already gives a value above 16, so the test
is the comparison of the duration with 16 days. -/
def nDaysAtMost16 (subHours : Int) : Bool := subHours ≤ 16 * nsPerDay

/-- The digits of `n`, most significant first; `fuel` bounds the number of digits. -/
def natDigits : Nat → Nat → Bytes
  | 0, _ => []
  | fuel + 1, n => if n < 10 then [48 + n] else natDigits fuel (n / 10) ++ [48 + n % 10]

/-- Go `fmt.Sprintf("%d", n)`. -/
def fmtInt (n : Int) : Bytes :=
  if n < 0 then 45 :: natDigits (n.natAbs + 1) n.natAbs else natDigits (n.natAbs + 1) n.natAbs

/-- The bucket file name `sFile` computed by `BaseRecordIO.GrapWriter`
(compressor.go 144-161) when `time.Now()` is `objToday`. -/
def BaseRecordIO.GrapWriter_sFile (objToday : Time) (sFilePath : Bytes) (nDate : Int) : Bytes :=
  let subHours := timeSub objToday.instant (objRecordDate objToday.loc nDate)
  if nDaysAtMost16 subHours = true then sFilePath ++ fmtInt nDate
  else
    let nDD := nDate.tmod 100
    let nDD : Int := if nDD ≤ 15 then 0 else 15
    sFilePath ++ fmtInt ((nDate.tdiv 100) * 100 + nDD)

/-- The bucket file name `sFile` computed by `Day1RecordIO.GrapWriter`
(compressor.go 684-695) when `time.Now()` is `objToday`. -/
def Day1RecordIO.GrapWriter_sFile (objToday : Time) (sFilePath : Bytes) (nDate : Int) : Bytes :=
  let subHours := timeSub objToday.instant (objRecordDate objToday.loc nDate)
  if nDaysAtMost16 subHours = true then sFilePath ++ fmtInt nDate
  else sFilePath ++ fmtInt ((nDate.tdiv 10000) * 10000)

/-- Days in a month of the Gregorian calendar. -/
def daysIn (year month : Int) : Int :=
  if month = 2 then (if isLeap year = true then 29 else 28)
  else if month = 4 ∨ month = 6 ∨ month = 9 ∨ month = 11 then 30
  else 31

/-- `nDate` is `YYYYMMDD` for a day of the calendar, years 1 to 9999. -/
def validDate (nDate : Int) : Bool :=
  1 ≤ nDate / 10000 ∧ nDate / 10000 ≤ 9999 ∧
    1 ≤ nDate % 10000 / 100 ∧ nDate % 10000 / 100 ≤ 12 ∧
    1 ≤ nDate % 100 ∧ nDate % 100 ≤ daysIn (nDate / 10000) (nDate % 10000 / 100)

/-- Day number of the day a record dated `nDate` belongs to. -/
def recordDay (nDate : Int) : Int :=
  daysSinceEpoch (nDate.tdiv 10000) ((nDate.tmod 10000).tdiv 100) (nDate.tmod 100)

/-- Day number of the day of a wall-clock reading. -/
def localDay (w : Int) : Int := w / nsPerDay

/-- Nanoseconds since midnight of a wall-clock reading. -/
def timeOfDay (w : Int) : Int := w % nsPerDay

/-- The time of day 21:06:09 in nanoseconds. -/
def anchorTimeOfDay : Int := (21 * 3600 + 6 * 60 + 9) * 1000000000

/-- Reading a decimal numeral back. -/
def readDigits (s : Bytes) : Nat := s.foldl (fun acc c => acc * 10 + (c - 48)) 0

/-! ## Minutes5RecordIO.LoadFromFile and Minutes60RecordIO.LoadFromFile -/

/-- The float64 operations the minute loaders use, over a type `F` standing for
float64: `strconv.ParseFloat` with its error dropped, `+`, `>` and the `%f`
rendering of `fmt.Sprintf`. -/
structure FloatOps (F : Type) where
  zero : F
  parseFloat : Bytes → F
  add : F → F → F
  gt : F → F → Bool
  fmt : F → Bytes

/-- The k-line accumulator `objMin5` / `objMin60` (compressor.go 368-381, 508-521). -/
structure Bar (F : Type) where
  Date : Int
  Time : Int
  Open : F
  High : F
  Low : F
  Close : F
  Settle : F
  Amount : F
  Volume : Int
  OpenInterest : Int
  NumTrades : Int
  Voip : F

/-- Wrap-around of Go `int64` addition. -/
def wrap64 (x : Int) : Int := (x + 2 ^ 63) % 2 ^ 64 - 2 ^ 63

/-- Local variables of the minute loaders that live across iterations. `rstr` is
kept as the list of bars written so far; the string is their rendering in order. -/
structure MinState (F : Type) where
  objMin : Bar F
  rstr : List (Bar F)
  nReturnDate : Int
  nOffset : Nat

/-- A list with the index of each element, as `for i, x := range xs` sees it. -/
def indexed {α : Type} : Nat → List α → List (Nat × α)
  | _, [] => []
  | i, x :: xs => (i, x) :: indexed (i + 1) xs

/-- Body of the loop of `Minutes5RecordIO.LoadFromFile` (compressor.go 526-604) and
of `Minutes60RecordIO.LoadFromFile` (386-464), which differ in three constants:
the divisor `unit` of the time field, the `width` added to the bucket index and
the factor `scale` of the time code. `tooOld nDate` is the test `nDays > 366` for a
record dated `nDate`. A result `none` is the run-time panic of an index out of
range on `lstRecords`. -/
def minutesBody {F : Type} (fl : FloatOps F) (tooOld : Int → Bool) (unit width scale : Int)
    (nCount : Nat) (s : MinState F) (ib : Nat × Bytes) :
    Flow (MinState F) (Option (List (Bar F) × Int × Nat)) :=
  let i := ib.1
  let bLine := ib.2
  let nOffset := s.nOffset + (bLine.length + 1)
  let lstRecords := splitOn 44 bLine
  if (lstRecords.headD []).length ≤ 0 then Flow.next { s with nOffset := nOffset }
  else
    let date := Atoi (lstRecords.headD [])
    let acc : Bar F := { s.objMin with Date := date.1 }
    if date.2 = false then Flow.next { s with objMin := acc, nOffset := nOffset }
    else if tooOld acc.Date = true then Flow.next { s with objMin := acc, nOffset := nOffset }
    else
      let nReturnDate := if -100 = s.nReturnDate then acc.Date else s.nReturnDate
      if nReturnDate ≠ acc.Date then Flow.ret (some (s.rstr, nReturnDate, nOffset))
      else if lstRecords.length < 12 then Flow.ret none
      else
        let field := fun k => lstRecords.getD k []
        let nCurTime := (Atoi (field 1)).1.tdiv unit
        let acc : Bar F := { acc with Close := fl.parseFloat (field 5),
                                      Settle := fl.parseFloat (field 6),
                                      Voip := fl.parseFloat (field 11) }
        let seeded : Bar F → Bar F := fun a =>
          { a with Time := (nCurTime + width) * scale,
                   Open := fl.parseFloat (field 2),
                   High := fl.parseFloat (field 3),
                   Low := fl.parseFloat (field 4),
                   Amount := fl.parseFloat (field 7),
                   Volume := (ParseInt (field 8)).1,
                   OpenInterest := (ParseInt (field 9)).1,
                   NumTrades := (ParseInt (field 10)).1 }
        let rstr := if acc.Time = 0 then s.rstr ++ [seeded acc] else s.rstr
        let acc := if acc.Time = 0 then seeded acc else acc
        let rstr := if acc.Time ≤ nCurTime * scale then rstr ++ [acc] else rstr
        let acc : Bar F :=
          if acc.Time ≤ nCurTime * scale then seeded acc
          else
            { acc with
                High := if fl.gt (fl.parseFloat (field 3)) acc.High = true
                          then fl.parseFloat (field 3) else acc.High,
                Low := if fl.gt (fl.parseFloat (field 4)) acc.Low = true
                          then fl.parseFloat (field 4) else acc.Low,
                Amount := fl.add acc.Amount (fl.parseFloat (field 7)),
                Volume := wrap64 (acc.Volume + (ParseInt (field 8)).1),
                OpenInterest := wrap64 (acc.OpenInterest + (ParseInt (field 9)).1),
                NumTrades := wrap64 (acc.NumTrades + (ParseInt (field 10)).1) }
        let rstr := if i = nCount - 1 then rstr ++ [acc] else rstr
        Flow.next { objMin := acc, rstr := rstr, nReturnDate := nReturnDate, nOffset := nOffset }

/-- State of the minute loaders before the loop: a zero accumulator. -/
def MinState.init {F : Type} (fl : FloatOps F) : MinState F :=
  { objMin := { Date := 0, Time := 0, Open := fl.zero, High := fl.zero, Low := fl.zero,
                Close := fl.zero, Settle := fl.zero, Amount := fl.zero, Volume := 0,
                OpenInterest := 0, NumTrades := 0, Voip := fl.zero },
    rstr := [], nReturnDate := -100, nOffset := 0 }

/-- The loop of a minute loader over the lines of `bytesData`. -/
def minutesLoop {F : Type} (fl : FloatOps F) (tooOld : Int → Bool) (unit width scale : Int)
    (bytesData : Bytes) : Flow (MinState F) (Option (List (Bar F) × Int × Nat)) :=
  forRange (minutesBody fl tooOld unit width scale (splitOn 10 bytesData).length)
    (indexed 0 (splitOn 10 bytesData)) (MinState.init fl)

/-- A minute loader with the chunk kept as the list of its bars: the bars, the date
and the number of bytes consumed, or `none` when the loader panics. -/
def minutesLoad {F : Type} (fl : FloatOps F) (tooOld : Int → Bool) (unit width scale : Int)
    (bytesData : Bytes) : Option (List (Bar F) × Int × Nat) :=
  match minutesLoop fl tooOld unit width scale bytesData with
  | Flow.ret r => r
  | Flow.next s => some (s.rstr, s.nReturnDate, bytesData.length)

/-- The line `fmt.Sprintf("%d,%d,%f,%f,%f,%f,%f,%f,%d,%d,%d,%f\n", ...)` of a bar. -/
def Bar.render {F : Type} (fl : FloatOps F) (b : Bar F) : Bytes :=
  fmtInt b.Date ++ 44 :: fmtInt b.Time ++ 44 :: fl.fmt b.Open ++ 44 :: fl.fmt b.High
    ++ 44 :: fl.fmt b.Low ++ 44 :: fl.fmt b.Close ++ 44 :: fl.fmt b.Settle
    ++ 44 :: fl.fmt b.Amount ++ 44 :: fmtInt b.Volume ++ 44 :: fmtInt b.OpenInterest
    ++ 44 :: fmtInt b.NumTrades ++ 44 :: fl.fmt b.Voip ++ [10]

/-- The bytes of a chunk of bars. -/
def renderBars {F : Type} (fl : FloatOps F) : List (Bar F) → Bytes
  | [] => []
  | b :: bs => Bar.render fl b ++ renderBars fl bs

/-- The loop of `Minutes5RecordIO.LoadFromFile` (compressor.go 523-605). -/
def Minutes5RecordIO.loop {F : Type} (fl : FloatOps F) (tooOld : Int → Bool)
    (bytesData : Bytes) : Flow (MinState F) (Option (List (Bar F) × Int × Nat)) :=
  minutesLoop fl tooOld 100000 5 100 bytesData

/-- The bars, date and consumed count of `Minutes5RecordIO.LoadFromFile`. -/
def Minutes5RecordIO.LoadBars {F : Type} (fl : FloatOps F) (tooOld : Int → Bool)
    (bytesData : Bytes) : Option (List (Bar F) × Int × Nat) :=
  minutesLoad fl tooOld 100000 5 100 bytesData

/-- `Minutes5RecordIO.LoadFromFile` (compressor.go 500-608). -/
def Minutes5RecordIO.LoadFromFile {F : Type} (fl : FloatOps F) (tooOld : Int → Bool)
    (bytesData : Bytes) : Option (Bytes × Int × Nat) :=
  ( Minutes5RecordIO.LoadBars fl tooOld bytesData).map (fun r => (renderBars fl r.1, r.2.1, r.2.2))

/-- The loop of `Minutes60RecordIO.LoadFromFile` (compressor.go 383-465). -/
def Minutes60RecordIO.loop {F : Type} (fl : FloatOps F) (tooOld : Int → Bool)
    (bytesData : Bytes) : Flow (MinState F) (Option (List (Bar F) × Int × Nat)) :=
  minutesLoop fl tooOld 10000000 1 10000 bytesData

/-- The bars, date and consumed count of `Minutes60RecordIO.LoadFromFile`. -/
def Minutes60RecordIO.LoadBars {F : Type} (fl : FloatOps F) (tooOld : Int → Bool)
    (bytesData : Bytes) : Option (List (Bar F) × Int × Nat) :=
  minutesLoad fl tooOld 10000000 1 10000 bytesData

/-- `Minutes60RecordIO.LoadFromFile` (compressor.go 360-468). -/
def Minutes60RecordIO.LoadFromFile {F : Type} (fl : FloatOps F) (tooOld : Int → Bool)
    (bytesData : Bytes) : Option (Bytes × Int × Nat) :=
  ( Minutes60RecordIO.LoadBars fl tooOld bytesData).map (fun r => (renderBars fl r.1, r.2.1, r.2.2))

/-- The three integer sums of a bar: volume, open interest, trade count. -/
def Bar.sums {F : Type} (b : Bar F) : Int × Int × Int := (b.Volume, b.OpenInterest, b.NumTrades)

/-- Float operations on whole numbers, where float64 is exact: a field is read as
a decimal integer. -/
def wholeFloats : FloatOps Int :=
  { zero := 0, parseFloat := fun s => (ParseInt s).1, add := fun a b => a + b,
    gt := fun a b => decide (a > b), fmt := fmtInt }

/-- One minute record: date 20240101, time 09:31:00.000, open 1, high 2, low 3,
close 4, settle 5, amount 6, volume 7, open interest 8, trade count 9, voip 10. -/
def sampleRecord : Bytes := ascii "20240101,93100000,1,2,3,4,5,6,7,8,9,10"

/-! ## The bucket registry and GrapWriter -/

/-- `CompressHandles` (compressor.go 32-36): the file, gzip writer and tar writer
of a bucket; an object is a number that identifies it and a nil pointer is `none`. -/
structure CompressHandles where
  TarFile : Option Nat
  GZipWriter : Option Nat
  TarWriter : Option Nat
  deriving DecidableEq

/-- What the code does to the file system: the paths `os.Create` created, in
order, the objects closed by `CloseFile`, in order, the next free object
number, and for every file created the compression level given to
`gzip.NewWriterLevel` for it. -/
structure Disk where
  created : List Bytes
  closed : List Nat
  nextId : Nat
  levels : List (Bytes × Int) := []
  deriving DecidableEq

/-- `CompressHandles.OpenFile` (compressor.go 38-61). `canCreate sFilePath` tells
whether `os.Create` succeeds; `gzip.NewWriterLevel` fails for a level outside -2..9.
The result is the file system, the handles as the call leaves them and the
returned flag. -/
def CompressHandles.OpenFile (canCreate : Bytes → Bool) (d : Disk) (sFilePath : Bytes)
    (nGZipCompressLevel : Int) : Disk × CompressHandles × Bool :=
  if canCreate sFilePath = false then
    (d, { TarFile := none, GZipWriter := none, TarWriter := none }, false)
  else if nGZipCompressLevel < -2 ∨ 9 < nGZipCompressLevel then
    ({ d with created := d.created ++ [sFilePath], nextId := d.nextId + 1,
              levels := d.levels ++ [(sFilePath, nGZipCompressLevel)] },
      { TarFile := some d.nextId, GZipWriter := none, TarWriter := none }, false)
  else
    ({ d with created := d.created ++ [sFilePath], nextId := d.nextId + 3,
              levels := d.levels ++ [(sFilePath, nGZipCompressLevel)] },
      { TarFile := some d.nextId, GZipWriter := some (d.nextId + 1),
        TarWriter := some (d.nextId + 2) }, true)

/-- `CompressHandles.CloseFile` (compressor.go 63-74): the gzip writer, the tar
writer and the file are closed, in this order, when they are not nil. -/
def CompressHandles.CloseFile (h : CompressHandles) (d : Disk) : Disk :=
  { d with closed := d.closed ++ h.GZipWriter.toList ++ h.TarWriter.toList ++ h.TarFile.toList }

/-- The map `mapFileHandle` of `BaseRecordIO`, as the list of its entries. -/
abbrev Registry := List (Bytes × CompressHandles)

/-- The map lookup `mapFileHandle[sFile]` with its `ok` flag. -/
def Registry.find? : Registry → Bytes → Option CompressHandles
  | [], _ => none
  | (k, h) :: rest, sFile => if k = sFile then some h else Registry.find? rest sFile

/-- The map assignment `mapFileHandle[sFile] = h`. -/
def Registry.set : Registry → Bytes → CompressHandles → Registry
  | [], sFile, h => [(sFile, h)]
  | (k, h0) :: rest, sFile, h =>
    if k = sFile then (k, h) :: rest else (k, h0) :: Registry.set rest sFile h

/-- The keys of the registry. -/
def Registry.keys (reg : Registry) : List Bytes := reg.map Prod.fst

/-- `gzip.DefaultCompression`, the result of `BaseRecordIO.GetCompressLevel`
(compressor.go 92-94). -/
def BaseRecordIO.GetCompressLevel : Int := -1

/-- `gzip.BestSpeed`, the result of `Day1RecordIO.GetCompressLevel`
(compressor.go 679-681). -/
def Day1RecordIO.GetCompressLevel : Int := 1

/-- The part that `BaseRecordIO.GrapWriter` (compressor.go 163-179) and
`Day1RecordIO.GrapWriter` (697-713) have in common, for the file name `sFile` and
the compression level of the receiver: the registry and file system after the
call and the returned `*tar.Writer`, `none` for nil. -/
def grapWriterLookup (canCreate : Bytes → Bool) (level : Int) (reg : Registry) (d : Disk)
    (sFile : Bytes) : Registry × Disk × Option Nat :=
  match Registry.find? reg sFile with
  | some objHandles => (reg, d, objHandles.TarWriter)
  | none =>
    match CompressHandles.OpenFile canCreate d sFile level with
    | (d1, objCompressHandles, true) =>
      (Registry.set reg sFile objCompressHandles, d1,
        match Registry.find? (Registry.set reg sFile objCompressHandles) sFile with
        | some h => h.TarWriter
        | none => none)
    | (d1, _, false) => (reg, d1, none)

/-- `BaseRecordIO.GrapWriter` (compressor.go 143-179) when `time.Now()` is
`objToday`. -/
def BaseRecordIO.GrapWriter (canCreate : Bytes → Bool) (objToday : Time) (reg : Registry)
    (d : Disk) (sFilePath : Bytes) (nDate : Int) : Registry × Disk × Option Nat :=
  grapWriterLookup canCreate BaseRecordIO.GetCompressLevel reg d
    ( BaseRecordIO.GrapWriter_sFile objToday sFilePath nDate)

/-- `Day1RecordIO.GrapWriter` (compressor.go 683-713) when `time.Now()` is
`objToday`. -/
def Day1RecordIO.GrapWriter (canCreate : Bytes → Bool) (objToday : Time) (reg : Registry)
    (d : Disk) (sFilePath : Bytes) (nDate : Int) : Registry × Disk × Option Nat :=
  grapWriterLookup canCreate Day1RecordIO.GetCompressLevel reg d
    ( Day1RecordIO.GrapWriter_sFile objToday sFilePath nDate)

/-! ## BaseRecordIO.Release -/

/-- Go `<` on strings: the lexical order of the bytes. -/
def bytesLt : Bytes → Bytes → Bool
  | [], [] => false
  | [], _ :: _ => true
  | _ :: _, [] => false
  | a :: as, b :: bs => decide (a < b) || (decide (a = b) && bytesLt as bs)

/-- Go `sort.Strings`: the keys in ascending lexical order. -/
def sortStrings (keys : List Bytes) : List Bytes :=
  keys.insertionSort (fun a b => bytesLt b a = false)

/-- An entry `ResDownload` of the manifest, with the fields `Release` fills. -/
structure ResDownload where
  TYPE : Bytes
  URI : Bytes
  MD5 : Bytes
  UPDATE : Bytes
  deriving DecidableEq

/-- The first loop of `BaseRecordIO.Release` (compressor.go 111-114): every handle
of the registry is closed, in the order the map is iterated. -/
def BaseRecordIO.Release_close : Registry → Disk → Disk
  | [], d => d
  | (_, objHandles) :: rest, d => BaseRecordIO.Release_close rest ( CompressHandles.CloseFile objHandles d)

/-- Body of the second loop of `BaseRecordIO.Release` (compressor.go 117-134).
`md5Of sVal` is the lowercase hex digest of the file `sVal`, or `none` when
`os.Open` or `io.Copy` fails on it; `stamp sVal` is the formatted `time.Now()` of
its entry. -/
def BaseRecordIO.Release_body (DataType : Bytes) (md5Of : Bytes → Option Bytes)
    (stamp : Bytes → Bytes) (lstRes : List ResDownload) (sVal : Bytes) :
    Flow (List ResDownload) (List ResDownload) :=
  match md5Of sVal with
  | none => Flow.ret lstRes
  | some sMD5 =>
    Flow.next (lstRes ++ [{ TYPE := DataType, URI := sVal, MD5 := sMD5, UPDATE := stamp sVal }])

/-- The manifest returned by `BaseRecordIO.Release` (compressor.go 105-137). -/
def BaseRecordIO.Release (DataType : Bytes) (md5Of : Bytes → Option Bytes)
    (stamp : Bytes → Bytes) (mapFileHandle : Registry) : List ResDownload :=
  match forRange ( BaseRecordIO.Release_body DataType md5Of stamp)
      (sortStrings (Registry.keys mapFileHandle)) [] with
  | Flow.ret r => r
  | Flow.next lstRes => lstRes

/-! ## CodeInWhiteTable -/

/-- The scan of Go `strings.LastIndexAny(s, chars)` for ASCII `chars`, from index
`i` on: the index of the last byte met that is in `chars`, or `found`. -/
def lastIndexAnyFrom (chars : Bytes) : Bytes → Int → Int → Int
  | [], _, found => found
  | c :: cs, i, found => lastIndexAnyFrom chars cs (i + 1) (if c ∈ chars then i else found)

/-- Go `strings.LastIndexAny(s, chars)` for ASCII `chars`: the index of the last
byte of `s` that is one of `chars`, or -1. -/
def lastIndexAny (s chars : Bytes) : Int := lastIndexAnyFrom chars s 0 (-1)

/-- The Go slice expression `s[lo:hi]` on a string; `none` is the run-time panic
of a bound out of range. -/
def sliceStr (s : Bytes) (lo hi : Int) : Option Bytes :=
  if 0 ≤ lo ∧ lo ≤ hi ∧ hi ≤ (s.length : Int) then some ((s.drop lo.toNat).take (hi - lo).toNat)
  else none

/-- The body that `Minutes1RecordIO.CodeInWhiteTable` (compressor.go 615-634),
`Minutes5RecordIO.CodeInWhiteTable` (475-494) and `Minutes60RecordIO.CodeInWhiteTable`
(335-354) have word for word in common. `CodeRangeFilter` is `none` for a nil
filter and otherwise the method `CodeInRange` of the filter; `nowYear` is
`time.Now().Year()`; the result `none` is a run-time panic. -/
def minutesCodeInWhiteTable (CodeRangeFilter : Option (Bytes → Bool)) (nowYear : Int)
    (sFileName : Bytes) : Option Bool :=
  match CodeRangeFilter with
  | none => some true
  | some CodeInRange =>
    let nEnd := lastIndexAny sFileName [46]
    match sliceStr sFileName (nEnd - 4) nEnd with
    | none => none
    | some sYear =>
      match Atoi sYear with
      | (_, false) => some false
      | (nFileYear, true) =>
        if nowYear - nFileYear ≥ 2 then some false
        else
          let nBegin := lastIndexAny sFileName [77, 73, 78]
          let nEnd := nEnd - 5
          match sliceStr sFileName (nBegin + 1) nEnd with
          | none => none
          | some sCodeNum => some (CodeInRange sCodeNum)

/-- `Minutes1RecordIO.CodeInWhiteTable` (compressor.go 615-634). -/
def Minutes1RecordIO.CodeInWhiteTable (CodeRangeFilter : Option (Bytes → Bool)) (nowYear : Int)
    (sFileName : Bytes) : Option Bool :=
  minutesCodeInWhiteTable CodeRangeFilter nowYear sFileName

/-- `Minutes5RecordIO.CodeInWhiteTable` (compressor.go 475-494). -/
def Minutes5RecordIO.CodeInWhiteTable (CodeRangeFilter : Option (Bytes → Bool)) (nowYear : Int)
    (sFileName : Bytes) : Option Bool :=
  minutesCodeInWhiteTable CodeRangeFilter nowYear sFileName

/-- `Minutes60RecordIO.CodeInWhiteTable` (compressor.go 335-354). -/
def Minutes60RecordIO.CodeInWhiteTable (CodeRangeFilter : Option (Bytes → Bool)) (nowYear : Int)
    (sFileName : Bytes) : Option Bool :=
  minutesCodeInWhiteTable CodeRangeFilter nowYear sFileName

/-- A file name `<path>MIN<code><sep><year>.<ext>`. -/
def minuteFileName (path code : Bytes) (sep : Nat) (year ext : Bytes) : Bytes :=
  path ++ ([77, 73, 78] ++ (code ++ (sep :: (year ++ (46 :: ext)))))

/-- None of the letters M, I, N occurs in `s`. -/
def noMIN (s : Bytes) : Prop := ∀ x ∈ s, x ∉ ([77, 73, 78] : Bytes)

instance (s : Bytes) : Decidable (noMIN s) := by
  unfold noMIN
  infer_instance

/-! ## Minutes1RecordIO.LoadFromFile -/

/-- The test `nDays > 14` on `nDays := subHours.Hours() / 24`. As for 16 days, the
float64 computation is exact at 14 days (336 hours) and one nanosecond more already
gives a value above 14, so the test is the comparison of the duration with 14
days. -/
def nDaysMoreThan14 (subHours : Int) : Bool := decide (14 * nsPerDay < subHours)

/-- Body of the loop of `Minutes1RecordIO.LoadFromFile` (compressor.go 643-668) when
`time.Now()` is `objToday`. -/
def Minutes1RecordIO.body (objToday : Time) (s : Day1State) (bLine : Bytes) :
    Flow Day1State (Bytes × Int × Nat) :=
  let nOffset := s.nOffset + (bLine.length + 1)
  let sFirstFields := firstField bLine
  if sFirstFields.length ≤ 0 then Flow.next { s with nOffset := nOffset }
  else
    match Atoi sFirstFields with
    | (_, false) => Flow.next { s with nOffset := nOffset }
    | (nDate, true) =>
      if nDaysMoreThan14 (timeSub objToday.instant (objRecordDate objToday.loc nDate)) = true then
        Flow.next { s with nOffset := nOffset }
      else
        let nReturnDate := if -100 = s.nReturnDate then nDate else s.nReturnDate
        if nReturnDate ≠ nDate then Flow.ret (s.rstr, nReturnDate, nOffset)
        else Flow.next { rstr := s.rstr ++ (bLine ++ [10]), nReturnDate := nReturnDate,
                         nOffset := nOffset }

/-- `Minutes1RecordIO.LoadFromFile` (compressor.go 636-672) when `time.Now()` is
`objToday`: the chunk, its date and the number of bytes consumed. -/
def Minutes1RecordIO.LoadFromFile (objToday : Time) (bytesData : Bytes) : Bytes × Int × Nat :=
  match forRange ( Minutes1RecordIO.body objToday) (splitOn 10 bytesData) Day1RecordIO.init with
  | Flow.ret r => r
  | Flow.next s => (s.rstr, s.nReturnDate, bytesData.length)

/-- The chunk `rstr` is made of whole lines whose date is not more than 14 days
before `objToday`. -/
def Minutes1RecordIO.Fresh (objToday : Time) (rstr : Bytes) : Prop :=
  ∃ acc : List Bytes, rstr = joinLines acc ∧
    ∀ l ∈ acc, 10 ∉ l ∧
      ∃ d, Atoi (firstField l) = (d, true) ∧
        objToday.instant - objRecordDate objToday.loc d ≤ 14 * nsPerDay

/-! ## Folder traversal: compressFile, compressFolder, translateFolder -/

/-- `BaseRecordIO.CodeInWhiteTable` (compressor.go 96-98). -/
def BaseRecordIO.CodeInWhiteTable (_sFileName : Bytes) : Option Bool := some true

/-- `BaseRecordIO.GenFilePath` (compressor.go 139-141). -/
def BaseRecordIO.GenFilePath (sFileName : Bytes) : Bytes := sFileName

/-- `Day1RecordIO.CodeInWhiteTable` (compressor.go 715-725); `none` is a run-time
panic. -/
def Day1RecordIO.CodeInWhiteTable (CodeRangeFilter : Option (Bytes → Bool)) (sFileName : Bytes) :
    Option Bool :=
  match CodeRangeFilter with
  | none => some true
  | some CodeInRange =>
    let nBegin := lastIndexAny sFileName [68, 65, 89]
    let nEnd := lastIndexAny sFileName [46]
    match sliceStr sFileName (nBegin + 1) nEnd with
    | none => none
    | some sCodeNum => some (CodeInRange sCodeNum)

/-- An entry of a source folder: a file with its content (`none` when `os.Open` or
`ioutil.ReadAll` fails on it), permission bits and modification time, or a
sub-folder with its entries; `readable` is false when `os.Open` or `Readdir` fails
on the folder. -/
inductive Node where
  | file (name : Bytes) (data : Option Bytes) (mode : Nat) (modTime : Int)
  | dir (name : Bytes) (readable : Bool) (entries : List Node)

/-- The name of an entry, `oFileInfo.Name()`. -/
def Node.name : Node → Bytes
  | Node.file name _ _ _ => name
  | Node.dir name _ _ => name

/-- Go `path.Join(a, b)` for a clean folder path `a` and a plain name `b`. -/
def pathJoin (a b : Bytes) : Bytes := if a = [] then b else a ++ 47 :: b

/-- Go `path.Base(s)` for a clean path: what follows the last slash. -/
def pathBase (s : Bytes) : Bytes := (splitOn 47 s).getLastD []

/-- One entry written to an archive: the writer, the header fields and the body. -/
structure TarEntry where
  writer : Nat
  Name : Bytes
  Size : Nat
  Mode : Nat
  ModTime : Int
  data : Bytes
  deriving DecidableEq

/-- What a traversal changes: the registry of the policy, the file system and the
entries written so far. -/
structure Archive where
  mapFileHandle : Registry
  disk : Disk
  entries : List TarEntry
  deriving DecidableEq

/-- The methods of `I_Record_IO` (compressor.go 76-84) of one policy. `none` from
`CodeInWhiteTable` or `LoadFromFile` is a run-time panic. -/
structure Policy where
  Initialize : Bool
  Release : Registry → Disk → List ResDownload × Disk
  LoadFromFile : Bytes → Option (Bytes × Int × Nat)
  CodeInWhiteTable : Bytes → Option Bool
  GenFilePath : Bytes → Bytes
  GrapWriter : Registry → Disk → Bytes → Int → Registry × Disk × Option Nat

/-- The chunk loop of `compressFile` (compressor.go 232-256) for a policy.
`headerOk w name` tells whether `WriteHeader` succeeds on the writer `w`. -/
def compressFile.forLoop (P : Policy) (headerOk : Nat → Bytes → Bool)
    (sDestFile sRecursivePath : Bytes) (mode : Nat) (modTime : Int) (bytesData : Bytes) :
    Nat → Nat → Archive → Run Archive
  | 0, _, _ => Run.outOfFuel
  | fuel + 1, nIndex, a =>
    if bytesData.length < nIndex then Run.panic
    else
      match P.LoadFromFile (bytesData.drop nIndex) with
      | none => Run.panic
      | some (bData, nDate, nOffset) =>
        if bData.length ≤ 0 then Run.ok a
        else
          match P.GrapWriter a.mapFileHandle a.disk (P.GenFilePath sDestFile) nDate with
          | (reg, disk, none) => Run.fail { a with mapFileHandle := reg, disk := disk }
          | (reg, disk, some pTarWriter) =>
            if headerOk pTarWriter (P.GenFilePath sRecursivePath) = false then
              Run.fail { a with mapFileHandle := reg, disk := disk }
            else
              compressFile.forLoop P headerOk sDestFile sRecursivePath mode modTime bytesData fuel
                (nIndex + nOffset)
                { mapFileHandle := reg, disk := disk,
                  entries := a.entries ++ [TarEntry.mk pTarWriter (P.GenFilePath sRecursivePath)
                    bData.length mode modTime bData] }

/-- `compressFile` (compressor.go 213-260): `Run.ok` when it returns true,
`Run.fail` when it returns false. The loop is given more iterations than the file
has bytes. -/
def compressFile (P : Policy) (headerOk : Nat → Bytes → Bool)
    (sDestFile sSrcFile sRecursivePath : Bytes) (oFileInfo : Node) (a : Archive) : Run Archive :=
  match oFileInfo with
  | Node.dir _ _ _ => Run.ok a
  | Node.file _ data mode modTime =>
    match P.CodeInWhiteTable sSrcFile with
    | none => Run.panic
    | some false => Run.ok a
    | some true =>
      match data with
      | none => Run.fail a
      | some bytesData =>
        compressFile.forLoop P headerOk sDestFile sRecursivePath mode modTime bytesData
          (bytesData.length + 2) 0 a

mutual
/-- One iteration of the loop of `compressFolder` (compressor.go 200-207) on the
entry `oFileInfo`: the recursive call for a folder, then `compressFile`. The flags
both calls return are dropped by the code; only a panic stops the loop. -/
def compressFolder.entry (P : Policy) (headerOk : Nat → Bytes → Bool)
    (sDestFile sSrcFolder sRecursivePath : Bytes) : Node → Archive → Run Archive
  | Node.file name data mode modTime, a =>
    match compressFile P headerOk sDestFile (pathJoin sSrcFolder name)
        (pathJoin sRecursivePath name) (Node.file name data mode modTime) a with
    | Run.ok a1 => Run.ok a1
    | Run.fail a1 => Run.ok a1
    | Run.panic => Run.panic
    | Run.outOfFuel => Run.outOfFuel
  | Node.dir name readable entries, a =>
    match (if readable = true then
        compressFolder.entries P headerOk sDestFile (pathJoin sSrcFolder name)
          (pathJoin sRecursivePath name) entries a
      else Run.fail a) with
    | Run.ok a1 => Run.ok a1
    | Run.fail a1 => Run.ok a1
    | Run.panic => Run.panic
    | Run.outOfFuel => Run.outOfFuel
/-- The loop of `compressFolder` (compressor.go 200-207) over the entries of a
folder that could be listed. -/
def compressFolder.entries (P : Policy) (headerOk : Nat → Bytes → Bool)
    (sDestFile sSrcFolder sRecursivePath : Bytes) : List Node → Archive → Run Archive
  | [], a => Run.ok a
  | oFileInfo :: rest, a =>
    match compressFolder.entry P headerOk sDestFile sSrcFolder sRecursivePath oFileInfo a with
    | Run.ok a1 => compressFolder.entries P headerOk sDestFile sSrcFolder sRecursivePath rest a1
    | Run.fail a1 => compressFolder.entries P headerOk sDestFile sSrcFolder sRecursivePath rest a1
    | Run.panic => Run.panic
    | Run.outOfFuel => Run.outOfFuel
end

/-- `Compressor.compressFolder` (compressor.go 188-210) on a folder: false when the
folder cannot be opened or listed, true after the loop over its entries. -/
def compressFolder (P : Policy) (headerOk : Nat → Bytes → Bool)
    (sDestFile sSrcFolder sRecursivePath : Bytes) (readable : Bool) (entries : List Node)
    (a : Archive) : Run Archive :=
  if readable = true then
    compressFolder.entries P headerOk sDestFile sSrcFolder sRecursivePath entries a
  else Run.fail a

/-- What `translateFolder` leaves behind: the manifest it returns, how many times
it called `Release`, and the registry, file system and entries at its end. -/
structure TranslateResult where
  lstRes : List ResDownload
  releaseCalls : Nat
  archive : Archive
  deriving DecidableEq

/-- `Compressor.translateFolder` (compressor.go 296-328) on a system other than
Windows, started on the file system `disk`: `Run.ok` when the returned flag is true,
`Run.fail` when it is false. `mkdirOk` tells whether `os.MkdirAll` succeeds;
`readable` and `entries` describe the source folder. -/
def translateFolder (P : Policy) (headerOk : Nat → Bytes → Bool) (mkdirOk : Bool)
    (sDestFile sSrcFolder : Bytes) (readable : Bool) (entries : List Node) (disk : Disk) :
    Run TranslateResult :=
  if mkdirOk = false then
    Run.fail { lstRes := [], releaseCalls := 0,
               archive := { mapFileHandle := [], disk := disk, entries := [] } }
  else if P.Initialize = false then
    Run.fail { lstRes := [], releaseCalls := 0,
               archive := { mapFileHandle := [], disk := disk, entries := [] } }
  else
    match compressFolder P headerOk (P.GenFilePath sDestFile) sSrcFolder (pathBase sSrcFolder)
        readable entries { mapFileHandle := [], disk := disk, entries := [] } with
    | Run.fail a => Run.fail { lstRes := [], releaseCalls := 0, archive := a }
    | Run.ok a =>
      Run.ok { lstRes := (P.Release a.mapFileHandle a.disk).1, releaseCalls := 1,
               archive := { a with disk := (P.Release a.mapFileHandle a.disk).2 } }
    | Run.panic => Run.panic
    | Run.outOfFuel => Run.outOfFuel

/-- What the file system and the clock answer during a run: whether `os.Create`
succeeds on a path, `time.Now()`, the digest of a file (`none` when it cannot be
opened or read) and the time stamp of a manifest entry. -/
structure World where
  canCreate : Bytes → Bool
  objToday : Time
  md5Of : Bytes → Option Bytes
  stamp : Bytes → Bytes

/-- The policy `Day1RecordIO` as `XCompress` builds it (compressor.go 277), with the
methods it overrides and those it takes from `BaseRecordIO`. -/
def Day1RecordIO.policy (w : World) (DataType : Bytes) (CodeRangeFilter : Option (Bytes → Bool)) :
    Policy :=
  { Initialize := true,
    Release := fun reg d =>
      ( BaseRecordIO.Release DataType w.md5Of w.stamp reg, BaseRecordIO.Release_close reg d),
    LoadFromFile := fun bytesData => some ( Day1RecordIO.LoadFromFile bytesData),
    CodeInWhiteTable := Day1RecordIO.CodeInWhiteTable CodeRangeFilter,
    GenFilePath := BaseRecordIO.GenFilePath,
    GrapWriter := Day1RecordIO.GrapWriter w.canCreate w.objToday }

/-- A world in which no file can be created, at noon of 2024-01-17. -/
def readOnlyWorld : World :=
  { canCreate := fun _ => false, objToday := Time.utc (timeDate 2024 1 17 12 0 0 0),
    md5Of := fun _ => none, stamp := fun _ => [] }

/-- A file system on which nothing has happened yet. -/
def Disk.empty : Disk := { created := [], closed := [], nextId := 0 }

/-- The run returned the flag true. -/
def Run.returnedTrue {ω : Type} : Run ω → Bool
  | Run.ok _ => true
  | _ => false

/-- The run returned the flag false. -/
def Run.returnedFalse {ω : Type} : Run ω → Bool
  | Run.fail _ => true
  | _ => false

/-- A world in which every file can be created and read, at noon of 2024-01-17. -/
def writableWorld : World :=
  { canCreate := fun _ => true, objToday := Time.utc (timeDate 2024 1 17 12 0 0 0),
    md5Of := fun _ => some (ascii "00"), stamp := fun _ => [] }

/-! ## GenFilePath of the minute policies -/

/-- The scan of Go `strings.Replace(s, old, new, -1)` for a non-empty `old`: `skip`
bytes of an occurrence just replaced are passed over, then every position is
tried in turn. -/
def stringsReplaceFrom (old new : Bytes) : Nat → Bytes → Bytes
  | _, [] => []
  | skip + 1, _ :: cs => stringsReplaceFrom old new skip cs
  | 0, c :: cs =>
    if old.isPrefixOf (c :: cs) = true then new ++ stringsReplaceFrom old new (old.length - 1) cs
    else c :: stringsReplaceFrom old new 0 cs

/-- Go `strings.Replace(s, old, new, -1)` for a non-empty `old`: every occurrence of
`old`, found from left to right without overlap, is replaced by `new`. -/
def stringsReplace (s old new : Bytes) : Bytes := stringsReplaceFrom old new 0 s

/-- `Minutes5RecordIO.GenFilePath` (compressor.go 496-498). -/
def Minutes5RecordIO.GenFilePath (sFileName : Bytes) : Bytes :=
  stringsReplace sFileName (ascii "MIN/") (ascii "MIN5/")

/-- `Minutes60RecordIO.GenFilePath` (compressor.go 356-358). -/
def Minutes60RecordIO.GenFilePath (sFileName : Bytes) : Bytes :=
  stringsReplace sFileName (ascii "MIN/") (ascii "MIN60/")

/-! ## The policies XCompress selects -/

/-- `WeightRecordIO.LoadFromFile` (compressor.go 762-764). -/
def WeightRecordIO.LoadFromFile (bytesData : Bytes) : Bytes × Int × Nat :=
  (bytesData, 0, bytesData.length)

/-- The policy `WeightRecordIO` as `XCompress` builds it (compressor.go 274): it
overrides `LoadFromFile` only. -/
def WeightRecordIO.policy (w : World) (DataType : Bytes) : Policy :=
  { Initialize := true,
    Release := fun reg d =>
      ( BaseRecordIO.Release DataType w.md5Of w.stamp reg, BaseRecordIO.Release_close reg d),
    LoadFromFile := fun bytesData => some ( WeightRecordIO.LoadFromFile bytesData),
    CodeInWhiteTable := BaseRecordIO.CodeInWhiteTable,
    GenFilePath := BaseRecordIO.GenFilePath,
    GrapWriter := BaseRecordIO.GrapWriter w.canCreate w.objToday }

/-- The policy `Minutes1RecordIO` as `XCompress` builds it (compressor.go 280): it
overrides `CodeInWhiteTable` and `LoadFromFile`. -/
def Minutes1RecordIO.policy (w : World) (DataType : Bytes)
    (CodeRangeFilter : Option (Bytes → Bool)) (nowYear : Int) : Policy :=
  { Initialize := true,
    Release := fun reg d =>
      ( BaseRecordIO.Release DataType w.md5Of w.stamp reg, BaseRecordIO.Release_close reg d),
    LoadFromFile := fun bytesData => some ( Minutes1RecordIO.LoadFromFile w.objToday bytesData),
    CodeInWhiteTable := Minutes1RecordIO.CodeInWhiteTable CodeRangeFilter nowYear,
    GenFilePath := BaseRecordIO.GenFilePath,
    GrapWriter := BaseRecordIO.GrapWriter w.canCreate w.objToday }

/-- The policy `Minutes5RecordIO` as `XCompress` builds it (compressor.go 283): it
overrides `CodeInWhiteTable`, `GenFilePath` and `LoadFromFile`. -/
def Minutes5RecordIO.policy {F : Type} (fl : FloatOps F) (tooOld : Int → Bool) (w : World)
    (DataType : Bytes) (CodeRangeFilter : Option (Bytes → Bool)) (nowYear : Int) : Policy :=
  { Initialize := true,
    Release := fun reg d =>
      ( BaseRecordIO.Release DataType w.md5Of w.stamp reg, BaseRecordIO.Release_close reg d),
    LoadFromFile := Minutes5RecordIO.LoadFromFile fl tooOld,
    CodeInWhiteTable := Minutes5RecordIO.CodeInWhiteTable CodeRangeFilter nowYear,
    GenFilePath := Minutes5RecordIO.GenFilePath,
    GrapWriter := BaseRecordIO.GrapWriter w.canCreate w.objToday }

/-- The policy `Minutes60RecordIO` as `XCompress` builds it (compressor.go 286): it
overrides `CodeInWhiteTable`, `GenFilePath` and `LoadFromFile`. -/
def Minutes60RecordIO.policy {F : Type} (fl : FloatOps F) (tooOld : Int → Bool) (w : World)
    (DataType : Bytes) (CodeRangeFilter : Option (Bytes → Bool)) (nowYear : Int) : Policy :=
  { Initialize := true,
    Release := fun reg d =>
      ( BaseRecordIO.Release DataType w.md5Of w.stamp reg, BaseRecordIO.Release_close reg d),
    LoadFromFile := Minutes60RecordIO.LoadFromFile fl tooOld,
    CodeInWhiteTable := Minutes60RecordIO.CodeInWhiteTable CodeRangeFilter nowYear,
    GenFilePath := Minutes60RecordIO.GenFilePath,
    GrapWriter := BaseRecordIO.GrapWriter w.canCreate w.objToday }

/-- The state of a minute loader after a record of 2024-01-01 has seeded the
accumulator with the time code 93600, high 2 and low 3. -/
def sampleAccumulator : MinState Int :=
  { objMin := { Date := 20240101, Time := 93600, Open := 1, High := 2, Low := 3, Close := 4,
                Settle := 5, Amount := 6, Volume := 7, OpenInterest := 8, NumTrades := 9,
                Voip := 10 },
    rstr := [], nReturnDate := 20240101, nOffset := 39 }

/-- A second record of 2024-01-01, at 09:32:00.000, with high 5 and low 1. -/
def sampleRecord2 : Bytes := ascii "20240101,93200000,1,5,1,4,5,6,7,8,9,10"

/-! ## Reading a chunk of bars again -/

/-- The line of a bar without its line break. -/
def Bar.line {F : Type} (fl : FloatOps F) (b : Bar F) : Bytes :=
  fmtInt b.Date ++ 44 :: (fmtInt b.Time ++ 44 :: (fl.fmt b.Open ++ 44 :: (fl.fmt b.High
    ++ 44 :: (fl.fmt b.Low ++ 44 :: (fl.fmt b.Close ++ 44 :: (fl.fmt b.Settle
    ++ 44 :: (fl.fmt b.Amount ++ 44 :: (fmtInt b.Volume ++ 44 :: (fmtInt b.OpenInterest
    ++ 44 :: (fmtInt b.NumTrades ++ 44 :: fl.fmt b.Voip))))))))))

/-- Float operations on whole numbers with the `%f` rendering of a whole number,
six zero decimals; a field is read by its integer part, which is exact on such a
rendering. -/
def sixDecimalFloats : FloatOps Int :=
  { zero := 0, parseFloat := fun s => (ParseInt (s.takeWhile (fun c => c ≠ 46))).1,
    add := fun a b => a + b, gt := fun a b => decide (a > b),
    fmt := fun x => fmtInt x ++ ascii ".000000" }

/-- The outcome of a minute loader's loop has the bars `pre` at the front of its
chunk, and is not a panic. -/
def keepsPrefix {F : Type} (pre : List (Bar F)) :
    Flow (MinState F) (Option (List (Bar F) × Int × Nat)) → Prop
  | Flow.next s => List.IsPrefix pre s.rstr
  | Flow.ret (some r) => List.IsPrefix pre r.1
  | Flow.ret none => False

/-- The loader of the policy consumes at least one byte whenever the chunk it
returns is not empty, so the chunk loop of `compressFile` ends. -/
def Policy.Progresses (P : Policy) : Prop :=
  ∀ (bytesData bData : Bytes) (nDate : Int) (nOffset : Nat),
    P.LoadFromFile bytesData = some (bData, nDate, nOffset) → 0 < bData.length → 0 < nOffset

/-! ## Floats with NaN -/

/-- The float64 comparison `>` is the comparison of the values that `val` reads
from the floats, `none` for NaN: `a > b` holds when neither is NaN and the value
of `a` is above the value of `b`. It is so for float64 with the extended real
numbers as values, +0 and -0 both read as 0. -/
def FloatOps.ComparesBy {F V : Type} [LinearOrder V] (fl : FloatOps F) (val : F → Option V) :
    Prop :=
  ∀ a b, fl.gt a b = true ↔ ∃ x y, val a = some x ∧ val b = some y ∧ y < x

/-- What the code `if incoming > old { old = incoming }` leaves in `new`, in values:
the maximum of the two values when neither is NaN; `old` when the incoming float is
NaN; `old`, a NaN, when the old float is NaN. -/
def FoldsToMax {F V : Type} [LinearOrder V] (val : F → Option V) (old incoming new : F) : Prop :=
  (∀ x y, val old = some x → val incoming = some y → val new = some (max x y)) ∧
    (val incoming = none → new = old) ∧ (val old = none → new = old)

/-- Float operations on whole numbers and NaN (`none`): the field "NaN" is read as
NaN, any other field by its integer part; `>` is false when an operand is NaN. -/
def nanFloats : FloatOps (Option Int) :=
  { zero := some 0,
    parseFloat := fun s =>
      if s = ascii "NaN" then none else some (ParseInt (s.takeWhile (fun c => c ≠ 46))).1,
    add := fun a b =>
      match a, b with
      | some x, some y => some (x + y)
      | _, _ => none,
    gt := fun a b =>
      match a, b with
      | some x, some y => decide (x > y)
      | _, _ => false,
    fmt := fun x =>
      match x with
      | some v => fmtInt v ++ ascii ".000000"
      | none => ascii "NaN" }

/-- The state in which the loop of a minute loader ends on `bytesData`, when it
does not return early. -/
def minutesStateAfter {F : Type} (fl : FloatOps F) (tooOld : Int → Bool)
    (unit width scale : Int) (bytesData : Bytes) : MinState F :=
  match minutesLoop fl tooOld unit width scale bytesData with
  | Flow.next s => s
  | Flow.ret _ => MinState.init fl

/-- A record of 2024-01-01, at 09:32:00.000, whose high and low are NaN. -/
def sampleRecordNaN : Bytes := ascii "20240101,93200000,1,NaN,NaN,4,5,6,7,8,9,10"

/-- A record of 2024-01-01, at 09:31:00.000, whose high and low are NaN. -/
def sampleRecordNaN1 : Bytes := ascii "20240101,93100000,1,NaN,NaN,4,5,6,7,8,9,10"

/-! ## Splitting lemmas -/

theorem splitOn_ne_nil (sep : Nat) (s : Bytes) : splitOn sep s ≠ [] := by
  induction s with
  | nil => simp [splitOn]
  | cons c cs ih =>
    unfold splitOn
    split_ifs
    · simp
    · cases h : splitOn sep cs <;> simp

theorem splitOn_cons_sep (sep : Nat) (cs : Bytes) :
    splitOn sep (sep :: cs) = [] :: splitOn sep cs := by
  simp [splitOn]

theorem splitOn_cons_ne (sep c : Nat) (cs : Bytes) (h : c ≠ sep) :
    splitOn sep (c :: cs) = (c :: (splitOn sep cs).headD []) :: (splitOn sep cs).tail := by
  have hne := splitOn_ne_nil sep cs
  cases hs : splitOn sep cs with
  | nil => exact absurd hs hne
  | cons p ps => simp [splitOn, h, hs]

theorem splitOn_append_sep (sep : Nat) (l rest : Bytes) (h : sep ∉ l) :
    splitOn sep (l ++ sep :: rest) = l :: splitOn sep rest := by
  induction l with
  | nil => simp [splitOn]
  | cons c cs ih =>
    have hc : c ≠ sep := fun e => h (by simp [e])
    have hcs : sep ∉ cs := fun e => h (by simp [e])
    rw [List.cons_append, splitOn_cons_ne sep c _ hc, ih hcs]
    simp

theorem splitOn_no_sep (sep : Nat) (l : Bytes) (h : sep ∉ l) : splitOn sep l = [l] := by
  induction l with
  | nil => simp [splitOn]
  | cons c cs ih =>
    have hc : c ≠ sep := fun e => h (by simp [e])
    have hcs : sep ∉ cs := fun e => h (by simp [e])
    rw [splitOn_cons_ne sep c _ hc, ih hcs]
    simp

theorem not_sep_of_mem_splitOn (sep : Nat) (s p : Bytes) (hp : p ∈ splitOn sep s) : sep ∉ p := by
  induction s generalizing p with
  | nil =>
    simp [splitOn] at hp
    simp [hp]
  | cons c cs ih =>
    by_cases hc : c = sep
    · subst hc
      rw [splitOn_cons_sep] at hp
      rcases List.mem_cons.mp hp with h | h
      · simp [h]
      · exact ih p h
    · rw [splitOn_cons_ne sep c cs hc] at hp
      have hne := splitOn_ne_nil sep cs
      cases hs : splitOn sep cs with
      | nil => exact absurd hs hne
      | cons q qs =>
        rw [hs] at hp
        simp at hp
        rcases hp with h | h
        · subst h
          have hq := ih q (by simp [hs])
          intro hm
          rcases List.mem_cons.mp hm with e | e
          · exact hc e.symm
          · exact hq e
        · exact ih p (by simp [hs, h])

theorem splitOn_joinLines (ls : List Bytes) (rest : Bytes) (h : ∀ l ∈ ls, 10 ∉ l) :
    splitOn 10 (joinLines ls ++ rest) = ls ++ splitOn 10 rest := by
  induction ls with
  | nil => simp [joinLines]
  | cons l ls ih =>
    have hl : 10 ∉ l := h l (by simp)
    have hls : ∀ l ∈ ls, 10 ∉ l := fun x hx => h x (by simp [hx])
    simp only [joinLines, List.append_assoc, List.cons_append]
    rw [splitOn_append_sep 10 l _ hl, ih hls]

theorem chunkLines_joinLines (ls : List Bytes) (h : ∀ l ∈ ls, 10 ∉ l) :
    chunkLines (joinLines ls) = ls := by
  have := splitOn_joinLines ls [] h
  simp only [List.append_nil] at this
  simp [chunkLines, this, splitOn]

theorem length_joinLines (ls : List Bytes) :
    (joinLines ls).length = (ls.map (fun l => l.length + 1)).sum := by
  induction ls with
  | nil => simp [joinLines]
  | cons l ls ih =>
    simp only [joinLines, List.length_append, List.length_cons, ih, List.map_cons, List.sum_cons]
    omega

theorem joinLines_append (xs ys : List Bytes) :
    joinLines (xs ++ ys) = joinLines xs ++ joinLines ys := by
  induction xs with
  | nil => simp [joinLines]
  | cons l ls ih => simp [joinLines, ih]

/-! ## Day1RecordIO.LoadFromFile: the loop body case by case -/

theorem Atoi_nil : Atoi [] = (0, false) := rfl

theorem Day1RecordIO.body_skip (s : Day1State) (l : Bytes)
    (h : firstField l = [] ∨ (Atoi (firstField l)).2 = false) :
    Day1RecordIO.body s l = Flow.next { s with nOffset := s.nOffset + (l.length + 1) } := by
  unfold Day1RecordIO.body
  rcases h with h | h
  · simp [h]
  · by_cases h0 : (firstField l).length ≤ 0
    · simp [h0]
    · simp only [h0, if_false]
      rcases hA : Atoi (firstField l) with ⟨d, b⟩
      rw [hA] at h
      simp only at h
      subst h
      rfl

theorem Day1RecordIO.body_date (s : Day1State) (l : Bytes) (d : Int)
    (h : Atoi (firstField l) = (d, true)) :
    Day1RecordIO.body s l =
      if (if -100 = s.nReturnDate then d else s.nReturnDate) ≠ d then
        Flow.ret (s.rstr, (if -100 = s.nReturnDate then d else s.nReturnDate),
          s.nOffset + (l.length + 1))
      else
        Flow.next { rstr := s.rstr ++ (l ++ [10]),
                    nReturnDate := (if -100 = s.nReturnDate then d else s.nReturnDate),
                    nOffset := s.nOffset + (l.length + 1) } := by
  have h0 : ¬ (firstField l).length ≤ 0 := by
    intro h0
    have : firstField l = [] := List.length_eq_zero.mp (Nat.le_zero.mp h0)
    rw [this, Atoi_nil] at h
    simp at h
  unfold Day1RecordIO.body
  simp only [h0, if_false, h]

theorem forRange_append {α σ ρ : Type} (body : σ → α → Flow σ ρ) (xs ys : List α) (s s1 : σ)
    (h : forRange body xs s = Flow.next s1) :
    forRange body (xs ++ ys) s = forRange body ys s1 := by
  induction xs generalizing s with
  | nil =>
    simp only [forRange, Flow.next.injEq] at h
    simp [h]
  | cons x xs ih =>
    simp only [List.cons_append, forRange] at h ⊢
    cases hb : body s x with
    | next s2 =>
      rw [hb] at h
      simpa using ih s2 h
    | ret r =>
      rw [hb] at h
      cases h

/-- A run of lines that all carry the date `D`, started on a state whose date is
unset or `D`, is appended whole. -/
theorem Day1RecordIO.forRange_same_date (D : Int) (ls : List Bytes) (s : Day1State)
    (hs : s.nReturnDate = -100 ∨ s.nReturnDate = D)
    (h : ∀ l ∈ ls, Atoi (firstField l) = (D, true)) :
    forRange Day1RecordIO.body ls s =
      Flow.next { rstr := s.rstr ++ joinLines ls,
                  nReturnDate := if ls = [] then s.nReturnDate else D,
                  nOffset := s.nOffset + (joinLines ls).length } := by
  induction ls generalizing s with
  | nil => simp [forRange, joinLines]
  | cons l ls ih =>
    have hl := h l (by simp)
    have hls : ∀ x ∈ ls, Atoi (firstField x) = (D, true) := fun x hx => h x (by simp [hx])
    have hd : (if -100 = s.nReturnDate then D else s.nReturnDate) = D := by
      rcases hs with e | e <;> simp [e]
    simp only [forRange, Day1RecordIO.body_date s l D hl, hd, ne_eq, not_true_eq_false, if_false]
    rw [ih _ (Or.inr rfl) hls]
    simp only [joinLines, List.append_assoc, List.length_append, List.length_cons,
      List.singleton_append, reduceCtorEq, if_false]
    congr 2
    · split_ifs <;> rfl
    · omega

theorem forRange_append_ret {α σ ρ : Type} (body : σ → α → Flow σ ρ) (xs ys : List α) (s : σ)
    (r : ρ) (h : forRange body xs s = Flow.ret r) :
    forRange body (xs ++ ys) s = Flow.ret r := by
  induction xs generalizing s with
  | nil => simp [forRange] at h
  | cons x xs ih =>
    simp only [List.cons_append, forRange] at h ⊢
    cases hb : body s x with
    | next s2 =>
      rw [hb] at h
      simpa using ih s2 h
    | ret r2 =>
      rw [hb] at h
      simpa using h

/-- While the loop goes on, `nOffset` grows by the length of each line plus one. -/
theorem Day1RecordIO.forRange_nOffset (ls : List Bytes) (s s1 : Day1State)
    (h : forRange Day1RecordIO.body ls s = Flow.next s1) :
    s1.nOffset = s.nOffset + (joinLines ls).length := by
  induction ls generalizing s with
  | nil =>
    simp only [forRange, Flow.next.injEq] at h
    simp [← h, joinLines]
  | cons l ls ih =>
    simp only [forRange] at h
    cases hb : Day1RecordIO.body s l with
    | ret r =>
      rw [hb] at h
      cases h
    | next s2 =>
      rw [hb] at h
      have h2 := ih s2 h
      have hoff : s2.nOffset = s.nOffset + (l.length + 1) := by
        by_cases hk : firstField l = [] ∨ (Atoi (firstField l)).2 = false
        · rw [ Day1RecordIO.body_skip s l hk] at hb
          cases hb
          rfl
        · have hA : Atoi (firstField l) = ((Atoi (firstField l)).1, true) := by
            rcases hx : Atoi (firstField l) with ⟨d, b⟩
            cases b
            · exact absurd (Or.inr (by rw [hx])) hk
            · rfl
          rw [ Day1RecordIO.body_date s l _ hA] at hb
          generalize (if -100 = s.nReturnDate then (Atoi (firstField l)).1 else s.nReturnDate) = n
            at hb
          split_ifs at hb
          cases hb
          rfl
      simp only [joinLines, List.length_append, List.length_cons]
      omega

theorem Day1RecordIO.Good_set (rstr : Bytes) (nrd d : Int) (h : Day1RecordIO.Good rstr nrd) :
    Day1RecordIO.Good rstr (if -100 = nrd then d else nrd) := by
  by_cases e : -100 = nrd
  · obtain ⟨acc, hr, hacc⟩ := h
    refine ⟨acc, hr, fun l hl => ⟨(hacc l hl).1, Or.inr ?_⟩⟩
    rcases (hacc l hl).2 with h1 | h1
    · rw [h1, ← e]
    · exact h1
  · simpa [e] using h

theorem Day1RecordIO.Good_body (s : Day1State) (l : Bytes) (hl : 10 ∉ l)
    (h : Day1RecordIO.Good s.rstr s.nReturnDate) :
    Day1RecordIO.GoodFlow ( Day1RecordIO.body s l) := by
  by_cases hk : firstField l = [] ∨ (Atoi (firstField l)).2 = false
  · rw [ Day1RecordIO.body_skip s l hk]
    exact h
  · have hA : Atoi (firstField l) = ((Atoi (firstField l)).1, true) := by
      rcases hx : Atoi (firstField l) with ⟨d, b⟩
      cases b
      · exact absurd (Or.inr (by rw [hx])) hk
      · rfl
    rw [ Day1RecordIO.body_date s l _ hA]
    have hg := Day1RecordIO.Good_set s.rstr s.nReturnDate (Atoi (firstField l)).1 h
    generalize (if -100 = s.nReturnDate then (Atoi (firstField l)).1 else s.nReturnDate) = n
      at hg ⊢
    split_ifs with hne
    · exact hg
    · obtain ⟨acc, hr, hacc⟩ := hg
      refine ⟨acc ++ [l], ?_, ?_⟩
      · simp [joinLines_append, joinLines, hr]
      · intro x hx
        rcases List.mem_append.mp hx with hx | hx
        · exact hacc x hx
        · simp only [List.mem_singleton] at hx
          subst hx
          refine ⟨hl, Or.inl ?_⟩
          simp only [ne_eq, not_not] at hne
          rw [hA, hne]

theorem Day1RecordIO.Good_forRange (ls : List Bytes) (s : Day1State) (hls : ∀ l ∈ ls, 10 ∉ l)
    (h : Day1RecordIO.Good s.rstr s.nReturnDate) :
    Day1RecordIO.GoodFlow (forRange Day1RecordIO.body ls s) := by
  induction ls generalizing s with
  | nil => exact h
  | cons l ls ih =>
    have hb := Day1RecordIO.Good_body s l (hls l (by simp)) h
    simp only [forRange]
    cases hx : Day1RecordIO.body s l with
    | next s2 =>
      rw [hx] at hb
      exact ih s2 (fun x hm => hls x (by simp [hm])) hb
    | ret r =>
      rw [hx] at hb
      exact hb

theorem Day1RecordIO.Good_LoadFromFile (bytesData : Bytes) :
    Day1RecordIO.Good ( Day1RecordIO.LoadFromFile bytesData).1
      ( Day1RecordIO.LoadFromFile bytesData).2.1 := by
  have h := Day1RecordIO.Good_forRange (splitOn 10 bytesData) Day1RecordIO.init
    (fun l hl => not_sep_of_mem_splitOn 10 bytesData l hl)
    ⟨[], rfl, fun l hl => absurd hl (List.not_mem_nil l)⟩
  unfold Day1RecordIO.LoadFromFile
  cases hx : forRange Day1RecordIO.body (splitOn 10 bytesData) Day1RecordIO.init with
  | next s2 =>
    rw [hx] at h
    exact h
  | ret r =>
    rw [hx] at h
    exact h

/-- Two states that differ at most in `nOffset` lead the loop body to outcomes
with the same chunk and date, and to an early return together. -/
theorem Day1RecordIO.body_offset_irrelevant (s t : Day1State) (l : Bytes)
    (hr : s.rstr = t.rstr) (hd : s.nReturnDate = t.nReturnDate) :
    Day1RecordIO.chunkAndDate ( Day1RecordIO.body s l)
        = Day1RecordIO.chunkAndDate ( Day1RecordIO.body t l) ∧
      ( Day1RecordIO.body s l).isRet = ( Day1RecordIO.body t l).isRet := by
  by_cases hk : firstField l = [] ∨ (Atoi (firstField l)).2 = false
  · rw [ Day1RecordIO.body_skip s l hk, Day1RecordIO.body_skip t l hk]
    simp [ Day1RecordIO.chunkAndDate, Flow.isRet, hr, hd]
  · have hA : Atoi (firstField l) = ((Atoi (firstField l)).1, true) := by
      rcases hx : Atoi (firstField l) with ⟨d, b⟩
      cases b
      · exact absurd (Or.inr (by rw [hx])) hk
      · rfl
    rw [ Day1RecordIO.body_date s l _ hA, Day1RecordIO.body_date t l _ hA, hr, hd]
    generalize (if -100 = t.nReturnDate then (Atoi (firstField l)).1 else t.nReturnDate) = n
    split_ifs <;> simp [ Day1RecordIO.chunkAndDate, Flow.isRet]

theorem Day1RecordIO.forRange_offset_irrelevant (ls : List Bytes) (s t : Day1State)
    (hr : s.rstr = t.rstr) (hd : s.nReturnDate = t.nReturnDate) :
    Day1RecordIO.chunkAndDate (forRange Day1RecordIO.body ls s)
        = Day1RecordIO.chunkAndDate (forRange Day1RecordIO.body ls t) := by
  induction ls generalizing s t with
  | nil => simp [forRange, Day1RecordIO.chunkAndDate, hr, hd]
  | cons l ls ih =>
    have hb := Day1RecordIO.body_offset_irrelevant s t l hr hd
    simp only [forRange]
    cases hs : Day1RecordIO.body s l with
    | next s2 =>
      cases ht : Day1RecordIO.body t l with
      | next t2 =>
        rw [hs, ht] at hb
        simp only [ Day1RecordIO.chunkAndDate, Prod.mk.injEq] at hb
        exact ih s2 t2 hb.1.1 hb.1.2
      | ret r =>
        rw [hs, ht] at hb
        simp [Flow.isRet] at hb
    | ret r =>
      cases ht : Day1RecordIO.body t l with
      | next t2 =>
        rw [hs, ht] at hb
        simp [Flow.isRet] at hb
      | ret r2 =>
        rw [hs, ht] at hb
        exact hb.1

theorem Day1RecordIO.LoadFromFile_chunkAndDate (bytesData : Bytes) :
    (( Day1RecordIO.LoadFromFile bytesData).1, ( Day1RecordIO.LoadFromFile bytesData).2.1)
      = Day1RecordIO.chunkAndDate
          (forRange Day1RecordIO.body (splitOn 10 bytesData) Day1RecordIO.init) := by
  unfold Day1RecordIO.LoadFromFile
  cases forRange Day1RecordIO.body (splitOn 10 bytesData) Day1RecordIO.init <;> rfl

/-! ## Time and decimal rendering lemmas -/

theorem nDaysAtMost16_timeSub (t u : Int) :
    nDaysAtMost16 (timeSub t u) = true ↔ t - u ≤ 16 * nsPerDay := by
  unfold nDaysAtMost16 timeSub nsPerDay
  norm_num
  split_ifs <;> omega

theorem recordWall_eq (nDate : Int) :
    recordWall nDate = recordDay nDate * nsPerDay + anchorTimeOfDay := by
  simp [recordWall, timeDate, recordDay, anchorTimeOfDay]

/-- The elapsed time the code measures is the difference of the wall-clock
readings when the year is in the range of `time.Date` and `time.Local` has the same
offset at `objToday` as at 21:06:09 of the record's day. -/
theorem objRecordDate_same_offset (objToday : Time) (nDate : Int)
    (hyear : yearInRange (nDate.tdiv 10000) = true)
    (hzone : objToday.loc.offsetOfWall (recordWall nDate)
      = objToday.loc.offsetAt objToday.instant) :
    objToday.instant - objRecordDate objToday.loc nDate = objToday.wall - recordWall nDate := by
  simp only [objRecordDate, hyear, if_true, hzone, Time.wall]
  ring

/-- In days: a record is within the 16 days when its day lies fewer than 16 days
before the local day of `objToday`, or exactly 16 days before it and the time of
day of `objToday` is not after 21:06:09. -/
theorem recent_iff_days (objToday : Time) (nDate : Int)
    (hyear : yearInRange (nDate.tdiv 10000) = true)
    (hzone : objToday.loc.offsetOfWall (recordWall nDate)
      = objToday.loc.offsetAt objToday.instant) :
    nDaysAtMost16 (timeSub objToday.instant (objRecordDate objToday.loc nDate)) = true ↔
      (localDay objToday.wall - recordDay nDate < 16 ∨
        (localDay objToday.wall - recordDay nDate = 16 ∧
          timeOfDay objToday.wall ≤ anchorTimeOfDay)) := by
  rw [nDaysAtMost16_timeSub, objRecordDate_same_offset objToday nDate hyear hzone,
    recordWall_eq]
  generalize recordDay nDate = r
  generalize objToday.wall = w
  unfold localDay timeOfDay anchorTimeOfDay nsPerDay
  omega

theorem readDigits_natDigits (fuel n : Nat) (h : n < fuel) :
    readDigits (natDigits fuel n) = n := by
  induction fuel generalizing n with
  | zero => omega
  | succ fuel ih =>
    unfold natDigits
    split_ifs with h10
    · simp [readDigits]
    · have hlt : n / 10 < fuel := by omega
      have := ih (n / 10) hlt
      unfold readDigits at this ⊢
      rw [List.foldl_append, this]
      simp only [List.foldl_cons, List.foldl_nil]
      omega

theorem natDigits_ne_nil (fuel n : Nat) : natDigits (fuel + 1) n ≠ [] := by
  unfold natDigits
  split_ifs <;> simp

theorem natDigits_ge (fuel n : Nat) : ∀ c ∈ natDigits fuel n, 48 ≤ c := by
  induction fuel generalizing n with
  | zero => simp [natDigits]
  | succ fuel ih =>
    unfold natDigits
    split_ifs
    · simp
    · intro c hc
      rcases List.mem_append.mp hc with h | h
      · exact ih _ c h
      · simp only [List.mem_singleton] at h
        omega

theorem fmtInt_injective (a b : Int) (h : fmtInt a = fmtInt b) : a = b := by
  have key : ∀ n : Nat, natDigits (n + 1) n ≠ [] ∧ (∀ c ∈ natDigits (n + 1) n, 48 ≤ c) ∧
      readDigits (natDigits (n + 1) n) = n :=
    fun n => ⟨natDigits_ne_nil n n, natDigits_ge (n + 1) n, readDigits_natDigits (n + 1) n (by omega)⟩
  have hhead : ∀ n : Nat, ∀ t : Bytes, natDigits (n + 1) n ≠ 45 :: t := by
    intro n t e
    have := (key n).2.1 45 (by rw [e]; simp)
    omega
  unfold fmtInt at h
  by_cases ha : a < 0 <;> by_cases hb : b < 0
  · simp only [ha, hb, if_true, List.cons.injEq, true_and] at h
    have := congrArg readDigits h
    rw [(key _).2.2, (key _).2.2] at this
    omega
  · simp only [ha, hb, if_true, if_false] at h
    exact absurd h.symm (hhead _ _)
  · simp only [ha, hb, if_true, if_false] at h
    exact absurd h (hhead _ _)
  · simp only [ha, hb, if_false] at h
    have := congrArg readDigits h
    rw [(key _).2.2, (key _).2.2] at this
    omega

theorem validDate_bounds (nDate : Int) (h : validDate nDate = true) :
    10101 ≤ nDate ∧ nDate ≤ 99991231 ∧ 1 ≤ nDate % 100 ∧ nDate % 100 ≤ 31 := by
  unfold validDate at h
  simp only [decide_eq_true_eq] at h
  obtain ⟨h1, h2, h3, h4, h5, h6⟩ := h
  have hd : daysIn (nDate / 10000) (nDate % 10000 / 100) ≤ 31 := by
    unfold daysIn
    split_ifs <;> omega
  omega

/-! ## The daily-bar loader: claims -/

/-- C1: on the three daily-bar lines dated 20240101, 20240101, 20240102 the first
call of `Day1RecordIO.LoadFromFile` returns the two 20240101 lines and the date
20240101, but its consumed count is 33, the length of all three lines, not 22;
so the chunk loop of `compressFile` resumes at the end of the buffer, gets an empty
chunk there and writes one entry only: the 20240102 line is never emitted. -/
theorem compressFile_day1_drops_date_change_line :
    Day1RecordIO.LoadFromFile (ascii "20240101,1\n20240101,2\n20240102,3\n")
        = (ascii "20240101,1\n20240101,2\n", 20240101, 33) ∧
      (ascii "20240101,1\n20240101,2\n").length = 22 ∧
      Day1RecordIO.LoadFromFile ((ascii "20240101,1\n20240101,2\n20240102,3\n").drop 33)
        = ([], -100, 0) ∧
      compressFile.loop Day1RecordIO.LoadFromFile recordEntry
          (ascii "20240101,1\n20240101,2\n20240102,3\n") 34 0 []
        = Run.ok [(ascii "20240101,1\n20240101,2\n", 20240101)] := by
  decide

/-- C2: a buffer made of one or more newline-terminated lines whose leading
fields all parse to the date `D` is returned whole by
`Day1RecordIO.LoadFromFile`, with the date `D` and a consumed count equal to the
length of the buffer. -/
theorem Day1RecordIO.LoadFromFile_single_date (D : Int) (ls : List Bytes) (hne : ls ≠ [])
    (hnl : ∀ l ∈ ls, 10 ∉ l) (hD : ∀ l ∈ ls, Atoi (firstField l) = (D, true)) :
    Day1RecordIO.LoadFromFile (joinLines ls) = (joinLines ls, D, (joinLines ls).length) := by
  have hsplit : splitOn 10 (joinLines ls) = ls ++ [[]] := by
    have := splitOn_joinLines ls [] hnl
    simpa [splitOn] using this
  have hrun := Day1RecordIO.forRange_same_date D ls Day1RecordIO.init (Or.inl rfl) hD
  have hlast : firstField [] = [] ∨ (Atoi (firstField [])).2 = false := Or.inl rfl
  unfold Day1RecordIO.LoadFromFile
  rw [hsplit, forRange_append _ _ _ _ _ hrun]
  simp only [forRange, Day1RecordIO.body_skip _ [] hlast, hne, if_false]
  simp [ Day1RecordIO.init]

/-- Witness of C2: two lines dated 20240101. -/
theorem Day1RecordIO.LoadFromFile_single_date_witness :
    Day1RecordIO.LoadFromFile (joinLines [ascii "20240101,1", ascii "20240101,2"])
      = (joinLines [ascii "20240101,1", ascii "20240101,2"], 20240101,
          (joinLines [ascii "20240101,1", ascii "20240101,2"]).length) :=
  Day1RecordIO.LoadFromFile_single_date 20240101 [ascii "20240101,1", ascii "20240101,2"]
    (by decide) (by decide) (by decide)

/-- C3 as stated fails: for the buffer "-100,x", "5,y" the returned chunk holds both
lines and the returned date is 5, yet the first line of the chunk is dated -100. -/
theorem Day1RecordIO.LoadFromFile_chunk_mixes_dates :
    ¬ (∀ l ∈ chunkLines ( Day1RecordIO.LoadFromFile (ascii "-100,x\n5,y\n")).1,
        Atoi (firstField l) = (( Day1RecordIO.LoadFromFile (ascii "-100,x\n5,y\n")).2.1, true)) := by
  decide

/-- C3, amended: for every input buffer, every line of the chunk returned by
`Day1RecordIO.LoadFromFile` has a leading field that parses to the returned date
or to -100, the value the loader keeps for "no date yet". -/
theorem Day1RecordIO.LoadFromFile_chunk_dates (bytesData : Bytes) (l : Bytes)
    (hl : l ∈ chunkLines ( Day1RecordIO.LoadFromFile bytesData).1) :
    Atoi (firstField l) = (( Day1RecordIO.LoadFromFile bytesData).2.1, true) ∨
      Atoi (firstField l) = (-100, true) := by
  obtain ⟨acc, hr, hacc⟩ := Day1RecordIO.Good_LoadFromFile bytesData
  rw [hr, chunkLines_joinLines acc (fun x hx => (hacc x hx).1)] at hl
  exact (hacc l hl).2

/-- Witness of C3, amended: the second line of the chunk of the buffer "-100,x", "5,y". -/
theorem Day1RecordIO.LoadFromFile_chunk_dates_witness :
    ascii "5,y" ∈ chunkLines ( Day1RecordIO.LoadFromFile (ascii "-100,x\n5,y\n")).1 ∧
      (Atoi (firstField (ascii "5,y"))
          = (( Day1RecordIO.LoadFromFile (ascii "-100,x\n5,y\n")).2.1, true) ∨
        Atoi (firstField (ascii "5,y")) = (-100, true)) :=
  ⟨by decide,
   Day1RecordIO.LoadFromFile_chunk_dates (ascii "-100,x\n5,y\n") (ascii "5,y") (by decide)⟩

/-- C4 as stated fails: in the buffer "-100,x", "5,y", "5,z" the run being
collected when the second line is met is dated -100 and the line is dated 5, yet the
loader does not return there: it returns the whole buffer with the date 5 and the
count 15, not the 11 bytes of the first two lines. -/
theorem Day1RecordIO.LoadFromFile_no_return_after_marker_date :
    forRange Day1RecordIO.body [ascii "-100,x"] Day1RecordIO.init
        = Flow.next { rstr := ascii "-100,x\n", nReturnDate := -100, nOffset := 7 } ∧
      Atoi (firstField (ascii "-100,x")) = (-100, true) ∧
      Atoi (firstField (ascii "5,y")) = (5, true) ∧
      splitOn 10 (ascii "-100,x\n5,y\n5,z\n")
        = [ascii "-100,x"] ++ ascii "5,y" :: [ascii "5,z", []] ∧
      Day1RecordIO.LoadFromFile (ascii "-100,x\n5,y\n5,z\n")
        = (ascii "-100,x\n5,y\n5,z\n", 5, 15) ∧
      (joinLines ([ascii "-100,x"] ++ [ascii "5,y"])).length = 11 := by
  decide

/-- C4, amended: when the loop of `Day1RecordIO.LoadFromFile` has gone through the
lines `pre` collecting a run whose date `s.nReturnDate` is not -100 and meets a line
`trig` whose leading field parses to another date, it returns the run and its date,
and the consumed count is the length of all lines up to and including `trig`, each
counted with one byte for its line break. -/
theorem Day1RecordIO.LoadFromFile_consumed_on_date_change (bytesData : Bytes)
    (pre post : List Bytes) (trig : Bytes) (s : Day1State) (d : Int)
    (hsplit : splitOn 10 bytesData = pre ++ trig :: post)
    (hpre : forRange Day1RecordIO.body pre Day1RecordIO.init = Flow.next s)
    (hrun : s.nReturnDate ≠ -100)
    (htrig : Atoi (firstField trig) = (d, true)) (hd : d ≠ s.nReturnDate) :
    Day1RecordIO.LoadFromFile bytesData
      = (s.rstr, s.nReturnDate, (joinLines (pre ++ [trig])).length) := by
  have hoff := Day1RecordIO.forRange_nOffset pre _ s hpre
  have h100 : ¬ (-100 = s.nReturnDate) := fun e => hrun e.symm
  unfold Day1RecordIO.LoadFromFile
  rw [hsplit, forRange_append _ _ _ _ _ hpre]
  simp only [forRange, Day1RecordIO.body_date s trig d htrig, h100, if_false, ne_eq,
    Ne.symm hd, not_false_eq_true, if_true]
  simp only [hoff, Day1RecordIO.init, joinLines_append, joinLines, List.length_append,
    List.length_cons, List.length_nil, zero_add]

/-- Witness of C4: the buffer "1,a", "2,b" with the date change at its second line. -/
theorem Day1RecordIO.LoadFromFile_consumed_on_date_change_witness :
    Day1RecordIO.LoadFromFile (ascii "1,a\n2,b\n")
      = (ascii "1,a\n", 1, (joinLines ([ascii "1,a"] ++ [ascii "2,b"])).length) :=
  Day1RecordIO.LoadFromFile_consumed_on_date_change (ascii "1,a\n2,b\n")
    [ascii "1,a"] [[]] (ascii "2,b") { rstr := ascii "1,a\n", nReturnDate := 1, nOffset := 4 } 2
    (by decide) (by decide) (by decide) (by decide) (by decide)

/-- C5: inserting a whole line, with its line break, whose leading field is empty
or does not parse as an integer, at a line boundary of a buffer changes neither
the chunk nor the date that `Day1RecordIO.LoadFromFile` returns. -/
theorem Day1RecordIO.LoadFromFile_skips_malformed (pre : List Bytes) (bad rest : Bytes)
    (hpre : ∀ l ∈ pre, 10 ∉ l) (hbad : 10 ∉ bad)
    (hmal : firstField bad = [] ∨ (Atoi (firstField bad)).2 = false) :
    ( Day1RecordIO.LoadFromFile (joinLines pre ++ (bad ++ 10 :: rest))).1
        = ( Day1RecordIO.LoadFromFile (joinLines pre ++ rest)).1 ∧
      ( Day1RecordIO.LoadFromFile (joinLines pre ++ (bad ++ 10 :: rest))).2.1
        = ( Day1RecordIO.LoadFromFile (joinLines pre ++ rest)).2.1 := by
  have h1 : splitOn 10 (joinLines pre ++ (bad ++ 10 :: rest)) = pre ++ bad :: splitOn 10 rest := by
    rw [splitOn_joinLines pre _ hpre, splitOn_append_sep 10 bad rest hbad]
  have h2 : splitOn 10 (joinLines pre ++ rest) = pre ++ splitOn 10 rest :=
    splitOn_joinLines pre _ hpre
  have key : Day1RecordIO.chunkAndDate
        (forRange Day1RecordIO.body (pre ++ bad :: splitOn 10 rest) Day1RecordIO.init)
      = Day1RecordIO.chunkAndDate
        (forRange Day1RecordIO.body (pre ++ splitOn 10 rest) Day1RecordIO.init) := by
    cases hp : forRange Day1RecordIO.body pre Day1RecordIO.init with
    | ret r =>
      rw [forRange_append_ret _ _ _ _ _ hp, forRange_append_ret _ _ _ _ _ hp]
    | next s =>
      rw [forRange_append _ _ _ _ _ hp, forRange_append _ _ _ _ _ hp]
      simp only [forRange, Day1RecordIO.body_skip s bad hmal]
      exact Day1RecordIO.forRange_offset_irrelevant _ _ _ rfl rfl
  have e1 := Day1RecordIO.LoadFromFile_chunkAndDate (joinLines pre ++ (bad ++ 10 :: rest))
  have e2 := Day1RecordIO.LoadFromFile_chunkAndDate (joinLines pre ++ rest)
  rw [h1] at e1
  rw [h2] at e2
  have e := e1.trans (key.trans e2.symm)
  exact ⟨(Prod.mk.inj e).1, (Prod.mk.inj e).2⟩

/-- Witness of C5: the line "abc,9" inserted between two lines dated 20240101. -/
theorem Day1RecordIO.LoadFromFile_skips_malformed_witness :
    ( Day1RecordIO.LoadFromFile
        (joinLines [ascii "20240101,1"] ++ (ascii "abc,9" ++ 10 :: ascii "20240101,2\n"))).1
        = ( Day1RecordIO.LoadFromFile (joinLines [ascii "20240101,1"] ++ ascii "20240101,2\n")).1 ∧
      ( Day1RecordIO.LoadFromFile
        (joinLines [ascii "20240101,1"] ++ (ascii "abc,9" ++ 10 :: ascii "20240101,2\n"))).2.1
        = ( Day1RecordIO.LoadFromFile (joinLines [ascii "20240101,1"] ++ ascii "20240101,2\n")).2.1 :=
  Day1RecordIO.LoadFromFile_skips_malformed [ascii "20240101,1"] (ascii "abc,9")
    (ascii "20240101,2\n") (by decide) (by decide) (by decide)

/-! ## Bucket file names: claims -/

/-- C8 as stated fails: at 22:00 on 2024-01-17 a record dated 20240101, 16 calendar
days before, does not get the exact-date file name but the collapsed one. -/
theorem BaseRecordIO.GrapWriter_sFile_day16_late_evening :
    validDate 20240101 = true ∧
      recordDay 20240101 + 16 = localDay (Time.utc (timeDate 2024 1 17 22 0 0 0)).wall ∧
      BaseRecordIO.GrapWriter_sFile (Time.utc (timeDate 2024 1 17 22 0 0 0)) (ascii "MIN.") 20240101
        ≠ ascii "MIN." ++ fmtInt 20240101 ∧
      BaseRecordIO.GrapWriter_sFile (Time.utc (timeDate 2024 1 17 22 0 0 0)) (ascii "MIN.") 20240101
        = ascii "MIN." ++ fmtInt 20240100 := by
  decide

/-- C8, amended: when `time.Local` has the same UTC offset at `objToday` as at
21:06:09 of the record's day, a record dated exactly 16 calendar days before the
local day of `objToday` gets the exact-date file name when the local time of day of
`objToday` is not after 21:06:09, and the collapsed (half-month) file name when it
is after; a record dated 17 calendar days before gets the collapsed file name at
every time of day. -/
theorem BaseRecordIO.GrapWriter_sFile_day16_day17 (objToday : Time) (sFilePath : Bytes)
    (nDate : Int) (hv : validDate nDate = true)
    (hzone : objToday.loc.offsetOfWall (recordWall nDate)
      = objToday.loc.offsetAt objToday.instant) :
    (recordDay nDate + 16 = localDay objToday.wall → timeOfDay objToday.wall ≤ anchorTimeOfDay →
        BaseRecordIO.GrapWriter_sFile objToday sFilePath nDate = sFilePath ++ fmtInt nDate) ∧
      (recordDay nDate + 16 = localDay objToday.wall → anchorTimeOfDay < timeOfDay objToday.wall →
        BaseRecordIO.GrapWriter_sFile objToday sFilePath nDate
          = sFilePath ++ fmtInt (nDate / 100 * 100 + (if nDate % 100 ≤ 15 then 0 else 15))) ∧
      (recordDay nDate + 17 = localDay objToday.wall →
        BaseRecordIO.GrapWriter_sFile objToday sFilePath nDate
          = sFilePath ++ fmtInt (nDate / 100 * 100 + (if nDate % 100 ≤ 15 then 0 else 15))) := by
  have hb := validDate_bounds nDate hv
  have h0 : (0 : Int) ≤ nDate := by omega
  have hdiv : nDate.tdiv 100 = nDate / 100 := Int.tdiv_eq_ediv h0 (by norm_num)
  have hmod : nDate.tmod 100 = nDate % 100 := Int.tmod_eq_emod h0 (by norm_num)
  have hyear : yearInRange (nDate.tdiv 10000) = true := by
    rw [Int.tdiv_eq_ediv h0 (by norm_num)]
    simp only [yearInRange, decide_eq_true_eq]
    omega
  have hr := recent_iff_days objToday nDate hyear hzone
  refine ⟨fun h16 ht => ?_, fun h16 ht => ?_, fun h17 => ?_⟩
  · have : nDaysAtMost16 (timeSub objToday.instant (objRecordDate objToday.loc nDate)) = true :=
      hr.mpr (Or.inr ⟨by omega, ht⟩)
    simp [ BaseRecordIO.GrapWriter_sFile, this]
  · have : ¬ nDaysAtMost16 (timeSub objToday.instant (objRecordDate objToday.loc nDate)) = true := by
      rw [hr]
      omega
    simp [ BaseRecordIO.GrapWriter_sFile, this, hdiv, hmod]
  · have : ¬ nDaysAtMost16 (timeSub objToday.instant (objRecordDate objToday.loc nDate)) = true := by
      rw [hr]
      omega
    simp [ BaseRecordIO.GrapWriter_sFile, this, hdiv, hmod]

/-- Witness of C8, amended: the record dated 20240101 at noon of 2024-01-17 (exact
date) and at midnight of 2024-01-18 (collapsed), in UTC. -/
theorem BaseRecordIO.GrapWriter_sFile_day16_day17_witness :
    (validDate 20240101 = true ∧
      recordDay 20240101 + 16 = localDay (Time.utc (timeDate 2024 1 17 12 0 0 0)).wall ∧
      timeOfDay (Time.utc (timeDate 2024 1 17 12 0 0 0)).wall ≤ anchorTimeOfDay ∧
      BaseRecordIO.GrapWriter_sFile (Time.utc (timeDate 2024 1 17 12 0 0 0)) (ascii "MIN.") 20240101
        = ascii "MIN." ++ fmtInt 20240101) ∧
    (recordDay 20240101 + 17 = localDay (Time.utc (timeDate 2024 1 18 0 0 0 0)).wall ∧
      BaseRecordIO.GrapWriter_sFile (Time.utc (timeDate 2024 1 18 0 0 0 0)) (ascii "MIN.") 20240101
        = ascii "MIN." ++ fmtInt (20240101 / 100 * 100 + (if (20240101 : Int) % 100 ≤ 15 then 0 else 15))) :=
  ⟨⟨by decide, by decide, by decide,
    ( BaseRecordIO.GrapWriter_sFile_day16_day17 (Time.utc (timeDate 2024 1 17 12 0 0 0))
      (ascii "MIN.") 20240101 (by decide) rfl).1 (by decide) (by decide)⟩,
   ⟨by decide,
    ( BaseRecordIO.GrapWriter_sFile_day16_day17 (Time.utc (timeDate 2024 1 18 0 0 0 0))
      (ascii "MIN.") 20240101 (by decide) rfl).2.2 (by decide)⟩⟩

/-- C9 as stated fails: on 2024-06-01 the records dated 20240105 and 20240120 are
not recent and get the file names ending in 20240100 and 20240115, not in 20240101
and 20240116. -/
theorem BaseRecordIO.GrapWriter_sFile_not_first_nor_sixteenth :
    validDate 20240105 = true ∧ validDate 20240120 = true ∧
      nDaysAtMost16 (timeSub (timeDate 2024 6 1 12 0 0 0) (objRecordDate Location.utc 20240105)) = false ∧
      nDaysAtMost16 (timeSub (timeDate 2024 6 1 12 0 0 0) (objRecordDate Location.utc 20240120)) = false ∧
      BaseRecordIO.GrapWriter_sFile (Time.utc (timeDate 2024 6 1 12 0 0 0)) (ascii "MIN.") 20240105
        ≠ ascii "MIN." ++ fmtInt 20240101 ∧
      BaseRecordIO.GrapWriter_sFile (Time.utc (timeDate 2024 6 1 12 0 0 0)) (ascii "MIN.") 20240120
        ≠ ascii "MIN." ++ fmtInt 20240116 := by
  decide

/-- C9, amended: for a valid date of year `Y`, month `M` and day `D` that is more
than 16 days before `objToday`, the file name computed by `BaseRecordIO.GrapWriter`
is the prefix followed by `YYYYMM00` when `D` is 1 to 15 and by `YYYYMM15` when `D`
is 16 or more. -/
theorem BaseRecordIO.GrapWriter_sFile_half_month (objToday : Time) (sFilePath : Bytes)
    (Y M D : Int) (hY : 1 ≤ Y ∧ Y ≤ 9999) (hM : 1 ≤ M ∧ M ≤ 12) (hD : 1 ≤ D ∧ D ≤ daysIn Y M)
    (hold : 16 * nsPerDay < objToday.instant - objRecordDate objToday.loc (Y * 10000 + M * 100 + D)) :
    BaseRecordIO.GrapWriter_sFile objToday sFilePath (Y * 10000 + M * 100 + D)
      = sFilePath ++ fmtInt (Y * 10000 + M * 100 + (if D ≤ 15 then 0 else 15)) := by
  have hd31 : daysIn Y M ≤ 31 := by
    unfold daysIn
    split_ifs <;> omega
  have h0 : (0 : Int) ≤ Y * 10000 + M * 100 + D := by omega
  have hdiv : (Y * 10000 + M * 100 + D).tdiv 100 = Y * 100 + M := by
    rw [Int.tdiv_eq_ediv h0 (by norm_num)]
    omega
  have hmod : (Y * 10000 + M * 100 + D).tmod 100 = D := by
    rw [Int.tmod_eq_emod h0 (by norm_num)]
    omega
  have hnot : ¬ nDaysAtMost16 (timeSub objToday.instant (objRecordDate objToday.loc (Y * 10000 + M * 100 + D))) = true := by
    rw [nDaysAtMost16_timeSub]
    omega
  simp only [ BaseRecordIO.GrapWriter_sFile, hnot, if_false, hdiv, hmod, Bool.false_eq_true]
  congr 2
  ring

/-- Witness of C9, amended: the record dated 20240120 on 2024-06-01. -/
theorem BaseRecordIO.GrapWriter_sFile_half_month_witness :
    BaseRecordIO.GrapWriter_sFile (Time.utc (timeDate 2024 6 1 12 0 0 0)) (ascii "MIN.")
        (2024 * 10000 + 1 * 100 + 20)
      = ascii "MIN." ++ fmtInt (2024 * 10000 + 1 * 100 + (if (20 : Int) ≤ 15 then 0 else 15)) :=
  BaseRecordIO.GrapWriter_sFile_half_month (Time.utc (timeDate 2024 6 1 12 0 0 0)) (ascii "MIN.")
    2024 1 20 (by decide) (by decide) (by decide) (by decide)

/-- C10 as stated fails: on 2024-06-01 the daily-bar records dated 20200115 and
20200620, both not recent, get the same file name although their months differ. -/
theorem Day1RecordIO.GrapWriter_sFile_same_across_months :
    validDate 20200115 = true ∧ validDate 20200620 = true ∧
      nDaysAtMost16 (timeSub (timeDate 2024 6 1 12 0 0 0) (objRecordDate Location.utc 20200115)) = false ∧
      nDaysAtMost16 (timeSub (timeDate 2024 6 1 12 0 0 0) (objRecordDate Location.utc 20200620)) = false ∧
      ¬ ( Day1RecordIO.GrapWriter_sFile (Time.utc (timeDate 2024 6 1 12 0 0 0)) (ascii "DAY.") 20200115
            = Day1RecordIO.GrapWriter_sFile (Time.utc (timeDate 2024 6 1 12 0 0 0)) (ascii "DAY.") 20200620 ↔
          ((20200115 : Int) / 10000 = 20200620 / 10000 ∧
            (20200115 : Int) % 10000 / 100 = 20200620 % 10000 / 100)) := by
  decide

/-- C10, amended: for the daily-bar policy the non-recent bucket collapses to the
whole year: for every prefix and every two valid dates both more than 16 days
before `objToday`, `Day1RecordIO.GrapWriter` computes the same file name for both
if and only if they lie in the same year. -/
theorem Day1RecordIO.GrapWriter_sFile_same_iff_year (objToday : Time) (sFilePath : Bytes)
    (d1 d2 : Int) (hv1 : validDate d1 = true) (hv2 : validDate d2 = true)
    (hold1 : 16 * nsPerDay < objToday.instant - objRecordDate objToday.loc d1)
    (hold2 : 16 * nsPerDay < objToday.instant - objRecordDate objToday.loc d2) :
    Day1RecordIO.GrapWriter_sFile objToday sFilePath d1
        = Day1RecordIO.GrapWriter_sFile objToday sFilePath d2 ↔
      d1 / 10000 = d2 / 10000 := by
  have hb1 := validDate_bounds d1 hv1
  have hb2 := validDate_bounds d2 hv2
  have e1 : d1.tdiv 10000 = d1 / 10000 := Int.tdiv_eq_ediv (by omega) (by norm_num)
  have e2 : d2.tdiv 10000 = d2 / 10000 := Int.tdiv_eq_ediv (by omega) (by norm_num)
  have n1 : ¬ nDaysAtMost16 (timeSub objToday.instant (objRecordDate objToday.loc d1)) = true := by
    rw [nDaysAtMost16_timeSub]
    omega
  have n2 : ¬ nDaysAtMost16 (timeSub objToday.instant (objRecordDate objToday.loc d2)) = true := by
    rw [nDaysAtMost16_timeSub]
    omega
  simp only [ Day1RecordIO.GrapWriter_sFile, n1, n2, if_false, e1, e2, Bool.false_eq_true]
  constructor
  · intro h
    have := fmtInt_injective _ _ (List.append_cancel_left h)
    omega
  · intro h
    rw [h]

/-- Witness of C10, amended: the dates 20200115 and 20200620 on 2024-06-01. -/
theorem Day1RecordIO.GrapWriter_sFile_same_iff_year_witness :
    Day1RecordIO.GrapWriter_sFile (Time.utc (timeDate 2024 6 1 12 0 0 0)) (ascii "DAY.") 20200115
        = Day1RecordIO.GrapWriter_sFile (Time.utc (timeDate 2024 6 1 12 0 0 0)) (ascii "DAY.") 20200620 ↔
      (20200115 : Int) / 10000 = 20200620 / 10000 :=
  Day1RecordIO.GrapWriter_sFile_same_iff_year (Time.utc (timeDate 2024 6 1 12 0 0 0)) (ascii "DAY.")
    20200115 20200620 (by decide) (by decide) (by decide) (by decide)

/-! ## The minute loaders on one record -/

theorem sampleRecord_facts :
    splitOn 10 sampleRecord = [sampleRecord] ∧
      splitOn 10 (sampleRecord ++ [10]) = [sampleRecord, []] ∧
      ¬ ((splitOn 44 sampleRecord).headD []).length ≤ 0 ∧
      Atoi ((splitOn 44 sampleRecord).headD []) = (20240101, true) ∧
      ¬ (splitOn 44 sampleRecord).length < 12 ∧
      (Atoi ((splitOn 44 sampleRecord).getD 1 [])).1 = 93100000 ∧
      (ParseInt ((splitOn 44 sampleRecord).getD 8 [])).1 = 7 ∧
      (ParseInt ((splitOn 44 sampleRecord).getD 9 [])).1 = 8 ∧
      (ParseInt ((splitOn 44 sampleRecord).getD 10 [])).1 = 9 ∧
      sampleRecord.length = 38 ∧
      ((splitOn 44 []).headD []).length ≤ 0 := by
  decide

/-- A buffer that is the one record without a line break: the bar written when the
accumulator is seeded, then the bar of the final flush, in which the record has
been added a second time. -/
theorem minutesLoad_sampleRecord {F : Type} (fl : FloatOps F) (tooOld : Int → Bool)
    (unit width scale c : Int) (h : tooOld 20240101 = false)
    (hc : (93100000 : Int).tdiv unit = c) (hgt : ¬ (c + width) * scale ≤ c * scale) :
    (minutesLoad fl tooOld unit width scale sampleRecord).map
        (fun r => (r.1.map Bar.sums, r.2))
      = some ([(7, 8, 9), (14, 16, 18)], 20240101, 38) := by
  obtain ⟨hs, _, h0, hd, hl, ht, h8, h9, h10, hlen, _⟩ := sampleRecord_facts
  generalize sampleRecord = L at hs h0 hd hl ht h8 h9 h10 hlen ⊢
  simp only [minutesLoad, minutesLoop, hs, indexed, forRange, minutesBody, h0, hd, hl, ht, hc,
    hgt, h8, h9, h10, h, hlen, MinState.init, if_false, if_true, Bool.false_eq_true,
    List.length_singleton]
  simp [Bar.sums, wrap64]

/-- A buffer that is the one record followed by a line break: the loop ends on the
empty last piece, so the final flush is not reached; the chunk holds the seed bar
only and the accumulator is left with the record added twice. -/
theorem minutesLoop_sampleRecord_newline {F : Type} (fl : FloatOps F) (tooOld : Int → Bool)
    (unit width scale c : Int) (h : tooOld 20240101 = false)
    (hc : (93100000 : Int).tdiv unit = c) (hgt : ¬ (c + width) * scale ≤ c * scale) :
    ∃ s : MinState F,
      minutesLoop fl tooOld unit width scale (sampleRecord ++ [10]) = Flow.next s ∧
      minutesLoad fl tooOld unit width scale (sampleRecord ++ [10])
        = some (s.rstr, 20240101, 39) ∧
      s.rstr.map Bar.sums = [(7, 8, 9)] ∧
      s.objMin.sums = (14, 16, 18) := by
  obtain ⟨_, hs, h0, hd, hl, ht, h8, h9, h10, hlen, hE⟩ := sampleRecord_facts
  generalize sampleRecord = L at hs h0 hd hl ht h8 h9 h10 hlen ⊢
  have key : ∃ s : MinState F,
      minutesLoop fl tooOld unit width scale (L ++ [10]) = Flow.next s ∧
      s.rstr.map Bar.sums = [(7, 8, 9)] ∧ s.objMin.sums = (14, 16, 18) ∧
      s.nReturnDate = 20240101 := by
    simp only [minutesLoop, hs, indexed, forRange, minutesBody, h0, hd, hl, ht, hc,
      hgt, h8, h9, h10, h, hlen, hE, MinState.init, if_false, if_true, Bool.false_eq_true,
      List.length_cons, List.length_nil]
    refine ⟨_, rfl, ?_, ?_, ?_⟩ <;> simp [Bar.sums, wrap64]
  obtain ⟨s, hloop, h1, h2, h3⟩ := key
  refine ⟨s, hloop, ?_, h1, h2⟩
  simp [minutesLoad, hloop, h3, hlen]

/-! ## The minute loaders: claims -/

/-- C6: on a buffer holding the single in-horizon record `sampleRecord` (volume 7,
open interest 8, trade count 9) and no line break, `Minutes5RecordIO.LoadFromFile`
and `Minutes60RecordIO.LoadFromFile` write two bars: the seed bar with the sums
7, 8, 9 and, at end of input, a bar with the sums 14, 16, 18. The bar emitted at
end of input counts the record that seeded the accumulator twice. -/
theorem Minutes5RecordIO.LoadBars_counts_seed_record_twice {F : Type} (fl : FloatOps F)
    (tooOld : Int → Bool) (h : tooOld 20240101 = false) :
    (( Minutes5RecordIO.LoadBars fl tooOld sampleRecord).map
        (fun r => (r.1.map Bar.sums, r.2)))
      = some ([(7, 8, 9), (14, 16, 18)], 20240101, 38) ∧
    (( Minutes60RecordIO.LoadBars fl tooOld sampleRecord).map
        (fun r => (r.1.map Bar.sums, r.2)))
      = some ([(7, 8, 9), (14, 16, 18)], 20240101, 38) :=
  ⟨minutesLoad_sampleRecord fl tooOld 100000 5 100 931 h (by decide) (by decide),
   minutesLoad_sampleRecord fl tooOld 10000000 1 10000 9 h (by decide) (by decide)⟩

/-- Witness of C6: whole-number floats and a horizon that starts at 20230101. -/
theorem Minutes5RecordIO.LoadBars_counts_seed_record_twice_witness :
    (( Minutes5RecordIO.LoadBars wholeFloats (fun d => decide (d < 20230101)) sampleRecord).map
        (fun r => (r.1.map Bar.sums, r.2)))
      = some ([(7, 8, 9), (14, 16, 18)], 20240101, 38) ∧
    (( Minutes60RecordIO.LoadBars wholeFloats (fun d => decide (d < 20230101)) sampleRecord).map
        (fun r => (r.1.map Bar.sums, r.2)))
      = some ([(7, 8, 9), (14, 16, 18)], 20240101, 38) :=
  Minutes5RecordIO.LoadBars_counts_seed_record_twice wholeFloats
    (fun d => decide (d < 20230101)) (by decide)

/-- C7: on a buffer holding the single in-horizon record `sampleRecord` followed by a
line break, the loops of `Minutes5RecordIO.LoadFromFile` and
`Minutes60RecordIO.LoadFromFile` end with an accumulator whose sums are 14, 16, 18,
but the returned chunk holds one bar only, with the sums 7, 8, 9: the final
in-progress accumulator is not flushed. -/
theorem Minutes5RecordIO.LoadBars_no_final_flush_after_newline {F : Type} (fl : FloatOps F)
    (tooOld : Int → Bool) (h : tooOld 20240101 = false) :
    (∃ s : MinState F,
      Minutes5RecordIO.loop fl tooOld (sampleRecord ++ [10]) = Flow.next s ∧
      Minutes5RecordIO.LoadBars fl tooOld (sampleRecord ++ [10]) = some (s.rstr, 20240101, 39) ∧
      s.rstr.map Bar.sums = [(7, 8, 9)] ∧ s.objMin.sums = (14, 16, 18)) ∧
    (∃ s : MinState F,
      Minutes60RecordIO.loop fl tooOld (sampleRecord ++ [10]) = Flow.next s ∧
      Minutes60RecordIO.LoadBars fl tooOld (sampleRecord ++ [10]) = some (s.rstr, 20240101, 39) ∧
      s.rstr.map Bar.sums = [(7, 8, 9)] ∧ s.objMin.sums = (14, 16, 18)) :=
  ⟨minutesLoop_sampleRecord_newline fl tooOld 100000 5 100 931 h (by decide) (by decide),
   minutesLoop_sampleRecord_newline fl tooOld 10000000 1 10000 9 h (by decide) (by decide)⟩

/-- Witness of C7: whole-number floats and a horizon that starts at 20230101. -/
theorem Minutes5RecordIO.LoadBars_no_final_flush_after_newline_witness :
    (∃ s : MinState Int,
      Minutes5RecordIO.loop wholeFloats (fun d => decide (d < 20230101)) (sampleRecord ++ [10])
        = Flow.next s ∧
      Minutes5RecordIO.LoadBars wholeFloats (fun d => decide (d < 20230101)) (sampleRecord ++ [10])
        = some (s.rstr, 20240101, 39) ∧
      s.rstr.map Bar.sums = [(7, 8, 9)] ∧ s.objMin.sums = (14, 16, 18)) ∧
    (∃ s : MinState Int,
      Minutes60RecordIO.loop wholeFloats (fun d => decide (d < 20230101)) (sampleRecord ++ [10])
        = Flow.next s ∧
      Minutes60RecordIO.LoadBars wholeFloats (fun d => decide (d < 20230101)) (sampleRecord ++ [10])
        = some (s.rstr, 20240101, 39) ∧
      s.rstr.map Bar.sums = [(7, 8, 9)] ∧ s.objMin.sums = (14, 16, 18)) :=
  Minutes5RecordIO.LoadBars_no_final_flush_after_newline wholeFloats
    (fun d => decide (d < 20230101)) (by decide)

/-! ## The bucket registry -/

theorem Registry.find?_set_self (reg : Registry) (sFile : Bytes) (h : CompressHandles) :
    Registry.find? (Registry.set reg sFile h) sFile = some h := by
  induction reg with
  | nil => simp [Registry.set, Registry.find?]
  | cons p rest ih =>
    obtain ⟨k, h0⟩ := p
    by_cases e : k = sFile
    · simp [Registry.set, Registry.find?, e]
    · simp [Registry.set, Registry.find?, e, ih]

theorem Registry.keys_set_of_find?_none (reg : Registry) (sFile : Bytes) (h : CompressHandles)
    (hn : Registry.find? reg sFile = none) :
    Registry.keys (Registry.set reg sFile h) = Registry.keys reg ++ [sFile] ∧
      sFile ∉ Registry.keys reg := by
  induction reg with
  | nil => simp [Registry.set, Registry.keys]
  | cons p rest ih =>
    obtain ⟨k, h0⟩ := p
    by_cases e : k = sFile
    · simp [Registry.find?, e] at hn
    · simp only [Registry.find?, e, if_false] at hn
      obtain ⟨h1, h2⟩ := ih hn
      simp only [Registry.keys] at h1 h2 ⊢
      simp only [Registry.set, e, if_false, List.map_cons, List.cons_append, h1, List.mem_cons,
        not_or, true_and]
      exact ⟨fun x => e x.symm, h2⟩

/-- What a call of the common part of `GrapWriter` does in each case: a hit, a
miss with a failing `OpenFile`, a miss with a bucket opened. -/
theorem grapWriterLookup_cases (canCreate : Bytes → Bool) (level : Int) (reg : Registry)
    (d : Disk) (sFile : Bytes) :
    (∃ h, Registry.find? reg sFile = some h ∧
        grapWriterLookup canCreate level reg d sFile = (reg, d, h.TarWriter)) ∨
      (Registry.find? reg sFile = none ∧
        ( CompressHandles.OpenFile canCreate d sFile level).2.2 = false ∧
        grapWriterLookup canCreate level reg d sFile
          = (reg, ( CompressHandles.OpenFile canCreate d sFile level).1, none)) ∨
      (Registry.find? reg sFile = none ∧
        ( CompressHandles.OpenFile canCreate d sFile level).2.2 = true ∧
        grapWriterLookup canCreate level reg d sFile
          = (Registry.set reg sFile ( CompressHandles.OpenFile canCreate d sFile level).2.1,
              ( CompressHandles.OpenFile canCreate d sFile level).1,
              ( CompressHandles.OpenFile canCreate d sFile level).2.1.TarWriter)) := by
  unfold grapWriterLookup
  cases hf : Registry.find? reg sFile with
  | some h => exact Or.inl ⟨h, rfl, rfl⟩
  | none =>
    right
    rcases ho : CompressHandles.OpenFile canCreate d sFile level with ⟨d1, h1, b⟩
    cases b
    · exact Or.inl ⟨rfl, rfl, rfl⟩
    · refine Or.inr ⟨rfl, rfl, ?_⟩
      simp [Registry.find?_set_self]

theorem grapWriterLookup_again (canCreate : Bytes → Bool) (level : Int)
    (hlevel : -2 ≤ level ∧ level ≤ 9) (reg : Registry) (d : Disk) (sFile : Bytes) :
    grapWriterLookup canCreate level (grapWriterLookup canCreate level reg d sFile).1
        (grapWriterLookup canCreate level reg d sFile).2.1 sFile
      = grapWriterLookup canCreate level reg d sFile := by
  rcases grapWriterLookup_cases canCreate level reg d sFile with
    ⟨h, hf, hr⟩ | ⟨hf, ho, hr⟩ | ⟨hf, ho, hr⟩
  · rw [hr]
    exact hr
  · have hd : ( CompressHandles.OpenFile canCreate d sFile level).1 = d := by
      unfold CompressHandles.OpenFile at ho ⊢
      have h1 : ¬ (level < -2 ∨ 9 < level) := by omega
      by_cases hc : canCreate sFile = false
      · simp [hc]
      · simp [hc, h1] at ho
    rw [hr, hd]
    rw [hd] at hr
    exact hr
  · rw [hr]
    rcases grapWriterLookup_cases canCreate level
        (Registry.set reg sFile ( CompressHandles.OpenFile canCreate d sFile level).2.1)
        ( CompressHandles.OpenFile canCreate d sFile level).1 sFile with
      ⟨h, hf2, hr2⟩ | ⟨hf2, _, _⟩ | ⟨hf2, _, _⟩
    · rw [Registry.find?_set_self] at hf2
      cases hf2
      exact hr2
    · rw [Registry.find?_set_self] at hf2
      cases hf2
    · rw [Registry.find?_set_self] at hf2
      cases hf2

theorem grapWriterLookup_keys_nodup (canCreate : Bytes → Bool) (level : Int) (reg : Registry)
    (d : Disk) (sFile : Bytes) (hnd : (Registry.keys reg).Nodup) :
    (Registry.keys (grapWriterLookup canCreate level reg d sFile).1).Nodup := by
  rcases grapWriterLookup_cases canCreate level reg d sFile with
    ⟨h, hf, hr⟩ | ⟨hf, ho, hr⟩ | ⟨hf, ho, hr⟩
  · rw [hr]
    exact hnd
  · rw [hr]
    exact hnd
  · rw [hr]
    obtain ⟨hk, hnot⟩ := Registry.keys_set_of_find?_none reg sFile
      ( CompressHandles.OpenFile canCreate d sFile level).2.1 hf
    simp only [hk]
    exact List.Nodup.append hnd (List.nodup_singleton sFile)
      (List.disjoint_singleton.mpr hnot)

/-! ## GrapWriter: claims -/

/-- C11: when the registry already holds a handle for the file name computed from
the prefix, the date and `objToday`, `BaseRecordIO.GrapWriter` and
`Day1RecordIO.GrapWriter` return the writer of that handle and leave the registry
and the file system as they were (no file is created); a second call with the same
arguments returns what the first returned and changes nothing; and a registry with
one handle per key still has one handle per key after a call. -/
theorem GrapWriter_returns_cached_writer (canCreate : Bytes → Bool) (objToday : Time)
    (reg : Registry) (d : Disk) (sFilePath : Bytes) (nDate : Int)
    (hnd : (Registry.keys reg).Nodup) :
    (∀ h, Registry.find? reg ( BaseRecordIO.GrapWriter_sFile objToday sFilePath nDate) = some h →
        BaseRecordIO.GrapWriter canCreate objToday reg d sFilePath nDate = (reg, d, h.TarWriter)) ∧
      BaseRecordIO.GrapWriter canCreate objToday
          ( BaseRecordIO.GrapWriter canCreate objToday reg d sFilePath nDate).1
          ( BaseRecordIO.GrapWriter canCreate objToday reg d sFilePath nDate).2.1 sFilePath nDate
        = BaseRecordIO.GrapWriter canCreate objToday reg d sFilePath nDate ∧
      (Registry.keys ( BaseRecordIO.GrapWriter canCreate objToday reg d sFilePath nDate).1).Nodup ∧
      (∀ h, Registry.find? reg ( Day1RecordIO.GrapWriter_sFile objToday sFilePath nDate) = some h →
        Day1RecordIO.GrapWriter canCreate objToday reg d sFilePath nDate = (reg, d, h.TarWriter)) ∧
      Day1RecordIO.GrapWriter canCreate objToday
          ( Day1RecordIO.GrapWriter canCreate objToday reg d sFilePath nDate).1
          ( Day1RecordIO.GrapWriter canCreate objToday reg d sFilePath nDate).2.1 sFilePath nDate
        = Day1RecordIO.GrapWriter canCreate objToday reg d sFilePath nDate ∧
      (Registry.keys ( Day1RecordIO.GrapWriter canCreate objToday reg d sFilePath nDate).1).Nodup := by
  refine ⟨fun h hf => ?_, ?_, ?_, fun h hf => ?_, ?_, ?_⟩
  · simp [ BaseRecordIO.GrapWriter, grapWriterLookup, hf]
  · exact grapWriterLookup_again canCreate _ (by decide) reg d _
  · exact grapWriterLookup_keys_nodup canCreate _ reg d _ hnd
  · simp [ Day1RecordIO.GrapWriter, grapWriterLookup, hf]
  · exact grapWriterLookup_again canCreate _ (by decide) reg d _
  · exact grapWriterLookup_keys_nodup canCreate _ reg d _ hnd

/-- Witness of C11: a registry that holds the bucket "MIN.20240101" at noon of
2024-01-17; the call for the date 20240101 returns its writer 7. -/
theorem GrapWriter_returns_cached_writer_witness :
    BaseRecordIO.GrapWriter (fun _ => true) (Time.utc (timeDate 2024 1 17 12 0 0 0))
        [(ascii "MIN.20240101", { TarFile := some 5, GZipWriter := some 6, TarWriter := some 7 })]
        { created := [ascii "MIN.20240101"], closed := [], nextId := 8 } (ascii "MIN.") 20240101
      = ([(ascii "MIN.20240101", { TarFile := some 5, GZipWriter := some 6, TarWriter := some 7 })],
          { created := [ascii "MIN.20240101"], closed := [], nextId := 8 }, some 7) :=
  (GrapWriter_returns_cached_writer (fun _ => true) (Time.utc (timeDate 2024 1 17 12 0 0 0))
    [(ascii "MIN.20240101", { TarFile := some 5, GZipWriter := some 6, TarWriter := some 7 })]
    { created := [ascii "MIN.20240101"], closed := [], nextId := 8 } (ascii "MIN.") 20240101
    (by decide)).1 { TarFile := some 5, GZipWriter := some 6, TarWriter := some 7 } (by decide)

/-- C12: when the registry holds no handle for the computed file name and
`CompressHandles.OpenFile` returns false, `BaseRecordIO.GrapWriter` and
`Day1RecordIO.GrapWriter` return nil and leave the registry as it was. -/
theorem GrapWriter_open_failure (canCreate : Bytes → Bool) (objToday : Time)
    (reg : Registry) (d : Disk) (sFilePath : Bytes) (nDate : Int) :
    ( Registry.find? reg ( BaseRecordIO.GrapWriter_sFile objToday sFilePath nDate) = none →
      ( CompressHandles.OpenFile canCreate d ( BaseRecordIO.GrapWriter_sFile objToday sFilePath nDate)
          BaseRecordIO.GetCompressLevel).2.2 = false →
      ( BaseRecordIO.GrapWriter canCreate objToday reg d sFilePath nDate).1 = reg ∧
        ( BaseRecordIO.GrapWriter canCreate objToday reg d sFilePath nDate).2.2 = none) ∧
    ( Registry.find? reg ( Day1RecordIO.GrapWriter_sFile objToday sFilePath nDate) = none →
      ( CompressHandles.OpenFile canCreate d ( Day1RecordIO.GrapWriter_sFile objToday sFilePath nDate)
          Day1RecordIO.GetCompressLevel).2.2 = false →
      ( Day1RecordIO.GrapWriter canCreate objToday reg d sFilePath nDate).1 = reg ∧
        ( Day1RecordIO.GrapWriter canCreate objToday reg d sFilePath nDate).2.2 = none) := by
  constructor
  · intro hf ho
    rcases grapWriterLookup_cases canCreate BaseRecordIO.GetCompressLevel reg d
        ( BaseRecordIO.GrapWriter_sFile objToday sFilePath nDate) with
      ⟨h, hf2, _⟩ | ⟨_, _, hr⟩ | ⟨_, ho2, _⟩
    · rw [hf] at hf2
      cases hf2
    · unfold BaseRecordIO.GrapWriter
      rw [hr]
      exact ⟨rfl, rfl⟩
    · rw [ho] at ho2
      cases ho2
  · intro hf ho
    rcases grapWriterLookup_cases canCreate Day1RecordIO.GetCompressLevel reg d
        ( Day1RecordIO.GrapWriter_sFile objToday sFilePath nDate) with
      ⟨h, hf2, _⟩ | ⟨_, _, hr⟩ | ⟨_, ho2, _⟩
    · rw [hf] at hf2
      cases hf2
    · unfold Day1RecordIO.GrapWriter
      rw [hr]
      exact ⟨rfl, rfl⟩
    · rw [ho] at ho2
      cases ho2

/-- Witness of C12: an empty registry and a file system on which no file can be
created. -/
theorem GrapWriter_open_failure_witness :
    ( BaseRecordIO.GrapWriter (fun _ => false) (Time.utc (timeDate 2024 1 17 12 0 0 0)) []
        { created := [], closed := [], nextId := 0 } (ascii "MIN.") 20240101).1 = [] ∧
      ( BaseRecordIO.GrapWriter (fun _ => false) (Time.utc (timeDate 2024 1 17 12 0 0 0)) []
        { created := [], closed := [], nextId := 0 } (ascii "MIN.") 20240101).2.2 = none :=
  (GrapWriter_open_failure (fun _ => false) (Time.utc (timeDate 2024 1 17 12 0 0 0)) []
    { created := [], closed := [], nextId := 0 } (ascii "MIN.") 20240101).1 (by decide) (by decide)

/-! ## The order of strings and BaseRecordIO.Release -/

theorem bytesLt_irrefl (a : Bytes) : bytesLt a a = false := by
  induction a with
  | nil => rfl
  | cons x xs ih => simp [bytesLt, ih]

theorem bytesLt_trichotomy (a b : Bytes) :
    bytesLt a b = true ∨ a = b ∨ bytesLt b a = true := by
  induction a generalizing b with
  | nil => cases b <;> simp [bytesLt]
  | cons x xs ih =>
    cases b with
    | nil => simp [bytesLt]
    | cons y ys =>
      simp only [bytesLt, Bool.or_eq_true, Bool.and_eq_true, decide_eq_true_eq, List.cons.injEq]
      rcases Nat.lt_trichotomy x y with h | h | h
      · exact Or.inl (Or.inl h)
      · rcases ih ys with h1 | h1 | h1
        · exact Or.inl (Or.inr ⟨h, h1⟩)
        · exact Or.inr (Or.inl ⟨h, h1⟩)
        · exact Or.inr (Or.inr (Or.inr ⟨h.symm, h1⟩))
      · exact Or.inr (Or.inr (Or.inl h))

theorem bytesLt_trans (a b c : Bytes) (hab : bytesLt a b = true) (hbc : bytesLt b c = true) :
    bytesLt a c = true := by
  induction a generalizing b c with
  | nil =>
    cases b with
    | nil => simp [bytesLt] at hab
    | cons y ys =>
      cases c with
      | nil => simp [bytesLt] at hbc
      | cons z zs => simp [bytesLt]
  | cons x xs ih =>
    cases b with
    | nil => simp [bytesLt] at hab
    | cons y ys =>
      cases c with
      | nil => simp [bytesLt] at hbc
      | cons z zs =>
        simp only [bytesLt, Bool.or_eq_true, Bool.and_eq_true, decide_eq_true_eq] at hab hbc ⊢
        rcases hab with h1 | ⟨h1, h2⟩ <;> rcases hbc with h3 | ⟨h3, h4⟩
        · exact Or.inl (by omega)
        · exact Or.inl (by omega)
        · exact Or.inl (by omega)
        · exact Or.inr ⟨by omega, ih ys zs h2 h4⟩

theorem bytesLt_asymm (a b : Bytes) (hab : bytesLt a b = true) : bytesLt b a = false := by
  cases h : bytesLt b a with
  | false => rfl
  | true =>
    have := bytesLt_trans a b a hab h
    rw [bytesLt_irrefl] at this
    cases this

theorem bytesLE_total : IsTotal Bytes (fun a b => bytesLt b a = false) :=
  ⟨fun a b => by
    cases h : bytesLt b a with
    | false => exact Or.inl rfl
    | true => exact Or.inr (bytesLt_asymm b a h)⟩

theorem bytesLE_trans : IsTrans Bytes (fun a b => bytesLt b a = false) :=
  ⟨fun a b c hab hbc => by
    cases h : bytesLt c a with
    | false => rfl
    | true =>
      rcases bytesLt_trichotomy a b with h1 | h1 | h1
      · have := bytesLt_trans c a b h h1
        rw [hbc] at this
        cases this
      · subst h1
        rw [hbc] at h
        cases h
      · rw [hab] at h1
        cases h1⟩

theorem bytesLE_antisymm : IsAntisymm Bytes (fun a b => bytesLt b a = false) :=
  ⟨fun a b hab hba => by
    rcases bytesLt_trichotomy a b with h1 | h1 | h1
    · rw [hba] at h1
      cases h1
    · exact h1
    · rw [hab] at h1
      cases h1⟩

theorem sortStrings_perm (keys : List Bytes) : (sortStrings keys).Perm keys :=
  List.perm_insertionSort _ keys

theorem sortStrings_sorted (keys : List Bytes) :
    (sortStrings keys).Sorted (fun a b => bytesLt b a = false) :=
  haveI := bytesLE_total
  haveI := bytesLE_trans
  List.sorted_insertionSort _ keys

theorem sortStrings_eq_of_perm (k1 k2 : List Bytes) (h : k1.Perm k2) :
    sortStrings k1 = sortStrings k2 :=
  haveI := bytesLE_antisymm
  List.eq_of_perm_of_sorted
    (((sortStrings_perm k1).trans h).trans (sortStrings_perm k2).symm)
    (sortStrings_sorted k1) (sortStrings_sorted k2)

/-- Distinct keys come out of `sort.Strings` strictly ascending. -/
theorem sortStrings_strict (keys : List Bytes) (hnd : keys.Nodup) :
    (sortStrings keys).Pairwise (fun a b => bytesLt a b = true) := by
  have hs : (sortStrings keys).Pairwise (fun a b => bytesLt b a = false) := sortStrings_sorted keys
  have hn : (sortStrings keys).Pairwise (fun a b => a ≠ b) :=
    ((sortStrings_perm keys).nodup_iff).mpr hnd
  refine (hs.and hn).imp ?_
  intro a b h
  rcases bytesLt_trichotomy a b with h1 | h1 | h1
  · exact h1
  · exact absurd h1 h.2
  · rw [h.1] at h1
    cases h1

/-- The second loop of `Release` keeps the paths up to the first one whose file
cannot be read. -/
theorem BaseRecordIO.Release_loop_uris (DataType : Bytes) (md5Of : Bytes → Option Bytes)
    (stamp : Bytes → Bytes) (ks : List Bytes) (acc : List ResDownload) :
    (match forRange ( BaseRecordIO.Release_body DataType md5Of stamp) ks acc with
      | Flow.ret r => r
      | Flow.next lstRes => lstRes).map ResDownload.URI
      = acc.map ResDownload.URI ++ ks.takeWhile (fun k => (md5Of k).isSome) := by
  induction ks generalizing acc with
  | nil => simp [forRange]
  | cons k ks ih =>
    simp only [forRange, BaseRecordIO.Release_body]
    cases hk : md5Of k with
    | none => simp [List.takeWhile, hk]
    | some m =>
      simp only [List.takeWhile, hk, Option.isSome_some]
      rw [ih]
      simp

theorem BaseRecordIO.Release_uris (DataType : Bytes) (md5Of : Bytes → Option Bytes)
    (stamp : Bytes → Bytes) (reg : Registry) :
    ( BaseRecordIO.Release DataType md5Of stamp reg).map ResDownload.URI
      = (sortStrings (Registry.keys reg)).takeWhile (fun k => (md5Of k).isSome) := by
  have := BaseRecordIO.Release_loop_uris DataType md5Of stamp (sortStrings (Registry.keys reg)) []
  simpa [ BaseRecordIO.Release] using this

/-! ## BaseRecordIO.Release: claims -/

/-- C13: for a registry with the buckets "a" and "b", where the file "a" cannot be
opened and the file "b" can be read, `BaseRecordIO.Release` returns an empty
manifest: the loop returns at "a", the first path in ascending order, and the entry
of the unaffected bucket "b" is lost with it. -/
theorem BaseRecordIO.Release_stops_at_first_unreadable :
    BaseRecordIO.Release (ascii "sse.d1")
        (fun p => if p = ascii "a" then none else some (ascii "00")) (fun _ => ascii "t")
        [(ascii "b", { TarFile := some 0, GZipWriter := some 1, TarWriter := some 2 }),
         (ascii "a", { TarFile := some 3, GZipWriter := some 4, TarWriter := some 5 })] = [] ∧
      BaseRecordIO.Release (ascii "sse.d1")
        (fun _ => some (ascii "00")) (fun _ => ascii "t")
        [(ascii "b", { TarFile := some 0, GZipWriter := some 1, TarWriter := some 2 }),
         (ascii "a", { TarFile := some 3, GZipWriter := some 4, TarWriter := some 5 })]
        = [{ TYPE := ascii "sse.d1", URI := ascii "a", MD5 := ascii "00", UPDATE := ascii "t" },
           { TYPE := ascii "sse.d1", URI := ascii "b", MD5 := ascii "00", UPDATE := ascii "t" }] := by
  decide

/-- C14: for every registry with one handle per key, the paths of the manifest
returned by `BaseRecordIO.Release` are strictly ascending in the lexical order; a
registry with the same buckets in another order gives the same manifest; and when
every file can be read the manifest has exactly one entry per bucket. -/
theorem BaseRecordIO.Release_ascending (DataType : Bytes) (md5Of : Bytes → Option Bytes)
    (stamp : Bytes → Bytes) (reg reg1 : Registry) (hnd : (Registry.keys reg).Nodup)
    (hperm : reg.Perm reg1) :
    (( BaseRecordIO.Release DataType md5Of stamp reg).map ResDownload.URI).Pairwise
        (fun a b => bytesLt a b = true) ∧
      BaseRecordIO.Release DataType md5Of stamp reg1 = BaseRecordIO.Release DataType md5Of stamp reg ∧
      ((∀ k ∈ Registry.keys reg, (md5Of k).isSome = true) →
        (( BaseRecordIO.Release DataType md5Of stamp reg).map ResDownload.URI).Perm
          (Registry.keys reg)) := by
  refine ⟨?_, ?_, fun hall => ?_⟩
  · rw [ BaseRecordIO.Release_uris]
    exact (sortStrings_strict _ hnd).sublist (List.takeWhile_sublist _)
  · unfold BaseRecordIO.Release
    rw [sortStrings_eq_of_perm (Registry.keys reg1) (Registry.keys reg)
      ((hperm.map Prod.fst).symm)]
  · rw [ BaseRecordIO.Release_uris]
    have hall2 : ∀ k ∈ sortStrings (Registry.keys reg), (md5Of k).isSome = true :=
      fun k hk => hall k ((sortStrings_perm _).mem_iff.mp hk)
    rw [List.takeWhile_eq_self_iff.mpr hall2]
    exact sortStrings_perm _

/-- Witness of C14: the buckets "b" and "a", opened in this order or in the other. -/
theorem BaseRecordIO.Release_ascending_witness :
    (( BaseRecordIO.Release (ascii "sse.d1") (fun _ => some (ascii "00")) (fun _ => ascii "t")
        [(ascii "b", { TarFile := some 0, GZipWriter := some 1, TarWriter := some 2 }),
         (ascii "a", { TarFile := some 3, GZipWriter := some 4, TarWriter := some 5 })]).map
          ResDownload.URI).Pairwise (fun a b => bytesLt a b = true) :=
  ( BaseRecordIO.Release_ascending (ascii "sse.d1") (fun _ => some (ascii "00")) (fun _ => ascii "t")
    [(ascii "b", { TarFile := some 0, GZipWriter := some 1, TarWriter := some 2 }),
     (ascii "a", { TarFile := some 3, GZipWriter := some 4, TarWriter := some 5 })]
    [(ascii "a", { TarFile := some 3, GZipWriter := some 4, TarWriter := some 5 }),
     (ascii "b", { TarFile := some 0, GZipWriter := some 1, TarWriter := some 2 })]
    (by decide) (List.Perm.swap _ _ _)).1

/-! ## CodeInWhiteTable on well-formed file names -/

theorem lastIndexAnyFrom_of_none (chars post : Bytes) (i found : Int)
    (h : ∀ x ∈ post, x ∉ chars) : lastIndexAnyFrom chars post i found = found := by
  induction post generalizing i with
  | nil => rfl
  | cons c cs ih =>
    have hc : c ∉ chars := h c (by simp)
    simp only [lastIndexAnyFrom, hc, if_false]
    exact ih (i + 1) (fun x hx => h x (by simp [hx]))

theorem lastIndexAnyFrom_append (chars pre post : Bytes) (c : Nat) (i found : Int)
    (hc : c ∈ chars) (h : ∀ x ∈ post, x ∉ chars) :
    lastIndexAnyFrom chars (pre ++ c :: post) i found = i + pre.length := by
  induction pre generalizing i found with
  | nil =>
    simp only [List.nil_append, lastIndexAnyFrom, hc, if_true, List.length_nil]
    rw [lastIndexAnyFrom_of_none chars post _ _ h]
    simp
  | cons p ps ih =>
    have e : lastIndexAnyFrom chars ((p :: ps) ++ c :: post) i found
        = lastIndexAnyFrom chars (ps ++ c :: post) (i + 1) (if p ∈ chars then i else found) := rfl
    rw [e, ih]
    simp only [List.length_cons]
    push_cast
    ring

theorem lastIndexAny_append (chars pre post : Bytes) (c : Nat)
    (hc : c ∈ chars) (h : ∀ x ∈ post, x ∉ chars) :
    lastIndexAny (pre ++ c :: post) chars = pre.length := by
  unfold lastIndexAny
  rw [lastIndexAnyFrom_append chars pre post c 0 (-1) hc h]
  simp

theorem sliceStr_middle (A B C : Bytes) (lo hi : Int) (hlo : lo = A.length)
    (hhi : hi = (A.length : Int) + B.length) :
    sliceStr (A ++ (B ++ C)) lo hi = some B := by
  subst hlo hhi
  unfold sliceStr
  have h1 : (0 : Int) ≤ (A.length : Int) ∧ (A.length : Int) ≤ (A.length : Int) + B.length ∧
      (A.length : Int) + B.length ≤ ((A ++ (B ++ C)).length : Int) := by
    simp only [List.length_append]
    push_cast
    omega
  simp only [h1, and_self, if_true, Int.toNat_ofNat, add_sub_cancel_left, List.drop_left,
    List.take_left]

/-- On a file name `<path>MIN<code><sep><year>.<ext>` whose code, separator, year and
extension hold none of the letters M, I, N, whose year has four bytes and whose
extension has no dot, the common `CodeInWhiteTable` with a filter reads the year and
the code as written. -/
theorem minutesCodeInWhiteTable_minuteFileName (CodeInRange : Bytes → Bool) (nowYear : Int)
    (path code : Bytes) (sep : Nat) (year ext : Bytes) (hyear : year.length = 4)
    (hdot : 46 ∉ ext) (hcode : noMIN code) (hsep : noMIN [sep]) (hy : noMIN year)
    (hext : noMIN ext) :
    minutesCodeInWhiteTable (some CodeInRange) nowYear (minuteFileName path code sep year ext)
      = some (if (Atoi year).2 = false then false
              else if nowYear - (Atoi year).1 ≥ 2 then false else CodeInRange code) := by
  have hEnd : lastIndexAny (minuteFileName path code sep year ext) [46]
      = ((path ++ ([77, 73, 78] ++ (code ++ [sep]))).length : Int) + year.length := by
    have e : minuteFileName path code sep year ext
        = (path ++ ([77, 73, 78] ++ (code ++ (sep :: year)))) ++ 46 :: ext := by
      simp [minuteFileName]
    rw [e, lastIndexAny_append [46] _ ext 46 (by simp) (fun x hx => by
      simp only [List.mem_singleton]
      intro e2
      exact hdot (e2 ▸ hx))]
    simp only [List.length_append, List.length_cons, List.length_nil]
    push_cast
    ring
  have hBegin : lastIndexAny (minuteFileName path code sep year ext) [77, 73, 78]
      = ((path ++ [77, 73]).length : Int) := by
    have e : minuteFileName path code sep year ext
        = (path ++ [77, 73]) ++ 78 :: (code ++ (sep :: (year ++ (46 :: ext)))) := by
      simp [minuteFileName]
    rw [e, lastIndexAny_append [77, 73, 78] _ _ 78 (by simp)]
    intro x hx
    simp only [List.mem_append, List.mem_cons] at hx
    rcases hx with h | h | h | h | h
    · exact hcode x h
    · exact hsep x (by simp [h])
    · exact hy x h
    · subst h
      decide
    · exact hext x h
  have hs1 : sliceStr (minuteFileName path code sep year ext)
      (lastIndexAny (minuteFileName path code sep year ext) [46] - 4)
      (lastIndexAny (minuteFileName path code sep year ext) [46]) = some year := by
    have e : minuteFileName path code sep year ext
        = (path ++ ([77, 73, 78] ++ (code ++ [sep]))) ++ (year ++ (46 :: ext)) := by
      simp [minuteFileName]
    rw [hEnd]
    rw [e]
    apply sliceStr_middle
    · rw [hyear]
      push_cast
      ring
    · rfl
  have hs2 : sliceStr (minuteFileName path code sep year ext)
      (lastIndexAny (minuteFileName path code sep year ext) [77, 73, 78] + 1)
      (lastIndexAny (minuteFileName path code sep year ext) [46] - 5) = some code := by
    have e : minuteFileName path code sep year ext
        = (path ++ [77, 73, 78]) ++ (code ++ (sep :: (year ++ (46 :: ext)))) := by
      simp [minuteFileName]
    rw [hEnd, hBegin]
    rw [e]
    apply sliceStr_middle
    · simp only [List.length_append, List.length_cons, List.length_nil]
      push_cast
      ring
    · simp only [List.length_append, List.length_cons, List.length_nil, hyear]
      push_cast
      ring
  unfold minutesCodeInWhiteTable
  simp only [hs1]
  rcases hA : Atoi year with ⟨y, b⟩
  cases b
  · simp
  · simp only [hs2]
    by_cases h2 : nowYear - y ≥ 2
    · simp [h2]
    · simp [h2]

/-! ## CodeInWhiteTable: claims -/

/-- C17 as stated fails: in 2024, with a filter that accepts the code,
`Minutes1RecordIO.CodeInWhiteTable` accepts the file "data/MIN000001_2023.csv",
whose year differs from the current year. -/
theorem Minutes1RecordIO.CodeInWhiteTable_accepts_previous_year :
    Minutes1RecordIO.CodeInWhiteTable (some (fun _ => true)) 2024
        (minuteFileName (ascii "data/") (ascii "000001") 95 (ascii "2023") (ascii "csv"))
      = some true ∧
      minuteFileName (ascii "data/") (ascii "000001") 95 (ascii "2023") (ascii "csv")
        = ascii "data/MIN000001_2023.csv" ∧
      Atoi (ascii "2023") = (2023, true) ∧ (2023 : Int) ≠ 2024 := by
  decide

/-- C17, amended: for every file name `<path>MIN<code><sep><year>.<ext>` whose year
parses to `y`, and every range predicate, `Minutes1RecordIO.CodeInWhiteTable` returns
false when `y` is two or more years before the current year; for the previous
year, the current year or a later one it returns what the predicate says of the
code. -/
theorem Minutes1RecordIO.CodeInWhiteTable_age_rule (CodeInRange : Bytes → Bool) (nowYear : Int)
    (path code : Bytes) (sep : Nat) (year ext : Bytes) (y : Int) (hyear : year.length = 4)
    (hdot : 46 ∉ ext) (hcode : noMIN code) (hsep : noMIN [sep]) (hy : noMIN year)
    (hext : noMIN ext) (hA : Atoi year = (y, true)) :
    (nowYear - y ≥ 2 →
        Minutes1RecordIO.CodeInWhiteTable (some CodeInRange) nowYear
          (minuteFileName path code sep year ext) = some false) ∧
      (nowYear - y < 2 →
        Minutes1RecordIO.CodeInWhiteTable (some CodeInRange) nowYear
          (minuteFileName path code sep year ext) = some (CodeInRange code)) := by
  unfold Minutes1RecordIO.CodeInWhiteTable
  rw [minutesCodeInWhiteTable_minuteFileName CodeInRange nowYear path code sep year ext hyear hdot
    hcode hsep hy hext, hA]
  constructor
  · intro h
    simp [h]
  · intro h
    have h2 : ¬ (2 ≤ nowYear - y) := by omega
    simp [h2]

/-- Witness of C17, amended: the file "data/MIN000001_2022.csv" in 2024. -/
theorem Minutes1RecordIO.CodeInWhiteTable_age_rule_witness :
    Minutes1RecordIO.CodeInWhiteTable (some (fun _ => true)) 2024
      (minuteFileName (ascii "data/") (ascii "000001") 95 (ascii "2022") (ascii "csv"))
      = some false :=
  ( Minutes1RecordIO.CodeInWhiteTable_age_rule (fun _ => true) 2024 (ascii "data/")
    (ascii "000001") 95 (ascii "2022") (ascii "csv") 2022 (by decide) (by decide) (by decide)
    (by decide) (by decide) (by decide) (by decide)).1 (by decide)

/-- C18 as stated fails: in 2024, with no range predicate, `Minutes5RecordIO` and
`Minutes60RecordIO` accept the file "data/MIN000001_2000.csv", whose year is neither
2024 nor 2023. -/
theorem Minutes5RecordIO.CodeInWhiteTable_no_filter_any_year :
    Minutes5RecordIO.CodeInWhiteTable none 2024
        (minuteFileName (ascii "data/") (ascii "000001") 95 (ascii "2000") (ascii "csv"))
      = some true ∧
      Minutes60RecordIO.CodeInWhiteTable none 2024
        (minuteFileName (ascii "data/") (ascii "000001") 95 (ascii "2000") (ascii "csv"))
      = some true ∧
      Atoi (ascii "2000") = (2000, true) ∧ (2000 : Int) ≠ 2024 ∧ (2000 : Int) ≠ 2024 - 1 := by
  decide

/-- C18, amended: with no range predicate `Minutes5RecordIO.CodeInWhiteTable` and
`Minutes60RecordIO.CodeInWhiteTable` return true for every file name; with a range
predicate, if they return true then the four bytes before the last dot of the file
name parse to a year that is less than two years before the current year (the
previous year, the current year or a later one). -/
theorem Minutes5RecordIO.CodeInWhiteTable_year_rule (nowYear : Int) (sFileName : Bytes) :
    Minutes5RecordIO.CodeInWhiteTable none nowYear sFileName = some true ∧
      Minutes60RecordIO.CodeInWhiteTable none nowYear sFileName = some true ∧
      (∀ CodeInRange : Bytes → Bool,
        Minutes5RecordIO.CodeInWhiteTable (some CodeInRange) nowYear sFileName = some true →
        ∃ sYear y, sliceStr sFileName (lastIndexAny sFileName [46] - 4)
            (lastIndexAny sFileName [46]) = some sYear ∧
          Atoi sYear = (y, true) ∧ nowYear - y < 2) ∧
      (∀ CodeInRange : Bytes → Bool,
        Minutes60RecordIO.CodeInWhiteTable (some CodeInRange) nowYear sFileName = some true →
        ∃ sYear y, sliceStr sFileName (lastIndexAny sFileName [46] - 4)
            (lastIndexAny sFileName [46]) = some sYear ∧
          Atoi sYear = (y, true) ∧ nowYear - y < 2) := by
  have key : ∀ CodeInRange : Bytes → Bool,
      minutesCodeInWhiteTable (some CodeInRange) nowYear sFileName = some true →
      ∃ sYear y, sliceStr sFileName (lastIndexAny sFileName [46] - 4)
          (lastIndexAny sFileName [46]) = some sYear ∧
        Atoi sYear = (y, true) ∧ nowYear - y < 2 := by
    intro f h
    unfold minutesCodeInWhiteTable at h
    simp only at h
    cases hs : sliceStr sFileName (lastIndexAny sFileName [46] - 4) (lastIndexAny sFileName [46]) with
    | none =>
      rw [hs] at h
      cases h
    | some sYear =>
      rw [hs] at h
      simp only at h
      rcases hA : Atoi sYear with ⟨y, b⟩
      rw [hA] at h
      cases b
      · simp at h
      · simp only at h
        by_cases h2 : nowYear - y ≥ 2
        · simp [h2] at h
        · exact ⟨sYear, y, rfl, hA, by omega⟩
  exact ⟨rfl, rfl, key, key⟩

/-- C19: for every range predicate that rejects the code "000200", every current
year and every file name `<path>MIN000200<sep><year>.<ext>` whose separator, year and
extension hold none of the letters M, I, N, whose year has four bytes and whose
extension has no dot, `Minutes1RecordIO.CodeInWhiteTable` returns false. -/
theorem Minutes1RecordIO.CodeInWhiteTable_rejected_code (CodeInRange : Bytes → Bool)
    (nowYear : Int) (path : Bytes) (sep : Nat) (year ext : Bytes)
    (hrej : CodeInRange (ascii "000200") = false) (hyear : year.length = 4)
    (hdot : 46 ∉ ext) (hsep : noMIN [sep]) (hy : noMIN year) (hext : noMIN ext) :
    Minutes1RecordIO.CodeInWhiteTable (some CodeInRange) nowYear
      (minuteFileName path (ascii "000200") sep year ext) = some false := by
  unfold Minutes1RecordIO.CodeInWhiteTable
  rw [minutesCodeInWhiteTable_minuteFileName CodeInRange nowYear path (ascii "000200") sep year ext
    hyear hdot (by decide) hsep hy hext, hrej]
  simp

/-- Witness of C19: the file "data/MIN000200_2024.csv" in 2024 and a predicate that
accepts the codes from "000001" to "000100". -/
theorem Minutes1RecordIO.CodeInWhiteTable_rejected_code_witness :
    Minutes1RecordIO.CodeInWhiteTable
      (some (fun c => !bytesLt c (ascii "000001") && !bytesLt (ascii "000100") c)) 2024
      (minuteFileName (ascii "data/") (ascii "000200") 95 (ascii "2024") (ascii "csv"))
      = some false :=
  Minutes1RecordIO.CodeInWhiteTable_rejected_code
    (fun c => !bytesLt c (ascii "000001") && !bytesLt (ascii "000100") c) 2024 (ascii "data/")
    95 (ascii "2024") (ascii "csv") (by decide) (by decide) (by decide) (by decide) (by decide)
    (by decide)

/-! ## Minutes1RecordIO.LoadFromFile: the 14-day horizon -/

theorem nDaysMoreThan14_timeSub (t u : Int) :
    nDaysMoreThan14 (timeSub t u) = true ↔ 14 * nsPerDay < t - u := by
  unfold nDaysMoreThan14 timeSub nsPerDay
  norm_num
  split_ifs <;> omega

/-- A line older than 14 days only advances `nOffset`. -/
theorem Minutes1RecordIO.body_old (objToday : Time) (s : Day1State) (l : Bytes) (d : Int)
    (hA : Atoi (firstField l) = (d, true))
    (hold : 14 * nsPerDay < objToday.instant - objRecordDate objToday.loc d) :
    Minutes1RecordIO.body objToday s l
      = Flow.next { s with nOffset := s.nOffset + (l.length + 1) } := by
  have h0 : ¬ (firstField l).length ≤ 0 := by
    intro h0
    have : firstField l = [] := List.length_eq_zero.mp (Nat.le_zero.mp h0)
    rw [this, Atoi_nil] at hA
    simp at hA
  have ht : nDaysMoreThan14 (timeSub objToday.instant (objRecordDate objToday.loc d)) = true :=
    (nDaysMoreThan14_timeSub _ _).mpr hold
  unfold Minutes1RecordIO.body
  simp only [h0, if_false, hA, ht, if_true]

/-- On any other line the body is the body of the daily-bar loader. -/
theorem Minutes1RecordIO.body_eq_day1 (objToday : Time) (s : Day1State) (l : Bytes)
    (h : (Atoi (firstField l)).2 = false ∨
      objToday.instant - objRecordDate objToday.loc (Atoi (firstField l)).1 ≤ 14 * nsPerDay) :
    Minutes1RecordIO.body objToday s l = Day1RecordIO.body s l := by
  unfold Minutes1RecordIO.body Day1RecordIO.body
  by_cases h0 : (firstField l).length ≤ 0
  · simp only [h0, if_true]
  · simp only [h0, if_false]
    rcases hA : Atoi (firstField l) with ⟨d, b⟩
    rw [hA] at h
    cases b
    · rfl
    · have ht : ¬ nDaysMoreThan14 (timeSub objToday.instant (objRecordDate objToday.loc d)) = true := by
        rw [nDaysMoreThan14_timeSub]
        rcases h with h | h
        · simp at h
        · simp only at h
          omega
      simp only [ht, if_false, Bool.false_eq_true]

/-- The loop body of the daily-bar loader leaves the chunk as it is or appends the
line, and appends only a line whose date parses. -/
theorem Day1RecordIO.body_rstr (s : Day1State) (l : Bytes) :
    ( Day1RecordIO.chunkAndDate ( Day1RecordIO.body s l)).1 = s.rstr ∨
      (( Day1RecordIO.chunkAndDate ( Day1RecordIO.body s l)).1 = s.rstr ++ (l ++ [10]) ∧
        (Atoi (firstField l)).2 = true) := by
  by_cases hk : firstField l = [] ∨ (Atoi (firstField l)).2 = false
  · rw [ Day1RecordIO.body_skip s l hk]
    exact Or.inl rfl
  · have hA : Atoi (firstField l) = ((Atoi (firstField l)).1, true) := by
      rcases hx : Atoi (firstField l) with ⟨d, b⟩
      cases b
      · exact absurd (Or.inr (by rw [hx])) hk
      · rfl
    rw [ Day1RecordIO.body_date s l _ hA]
    generalize (if -100 = s.nReturnDate then (Atoi (firstField l)).1 else s.nReturnDate) = n
    split_ifs
    · exact Or.inl rfl
    · refine Or.inr ⟨rfl, ?_⟩
      rw [hA]

theorem Minutes1RecordIO.Fresh_body (objToday : Time) (s : Day1State) (l : Bytes) (hl : 10 ∉ l)
    (h : Minutes1RecordIO.Fresh objToday s.rstr) :
    Minutes1RecordIO.Fresh objToday
      ( Day1RecordIO.chunkAndDate ( Minutes1RecordIO.body objToday s l)).1 := by
  by_cases hold : (Atoi (firstField l)).2 = false ∨
      objToday.instant - objRecordDate objToday.loc (Atoi (firstField l)).1 ≤ 14 * nsPerDay
  · rw [ Minutes1RecordIO.body_eq_day1 objToday s l hold]
    rcases Day1RecordIO.body_rstr s l with e | ⟨e, hok⟩
    · rw [e]
      exact h
    · rw [e]
      obtain ⟨acc, hr, hacc⟩ := h
      refine ⟨acc ++ [l], ?_, ?_⟩
      · simp [joinLines_append, joinLines, hr]
      · intro x hx
        rcases List.mem_append.mp hx with hx | hx
        · exact hacc x hx
        · simp only [List.mem_singleton] at hx
          subst hx
          refine ⟨hl, (Atoi (firstField x)).1, ?_, ?_⟩
          · rw [← hok]
          · rcases hold with h1 | h1
            · rw [hok] at h1
              cases h1
            · exact h1
  · have hA : Atoi (firstField l) = ((Atoi (firstField l)).1, true) := by
      rcases hx : Atoi (firstField l) with ⟨d, b⟩
      cases b
      · exact absurd (Or.inl (by rw [hx])) hold
      · rfl
    rw [ Minutes1RecordIO.body_old objToday s l _ hA (by
      have := fun hle => hold (Or.inr hle)
      omega)]
    exact h

theorem Minutes1RecordIO.Fresh_forRange (objToday : Time) (ls : List Bytes) (s : Day1State)
    (hls : ∀ l ∈ ls, 10 ∉ l) (h : Minutes1RecordIO.Fresh objToday s.rstr) :
    Minutes1RecordIO.Fresh objToday
      ( Day1RecordIO.chunkAndDate (forRange ( Minutes1RecordIO.body objToday) ls s)).1 := by
  induction ls generalizing s with
  | nil => exact h
  | cons l ls ih =>
    have hb := Minutes1RecordIO.Fresh_body objToday s l (hls l (by simp)) h
    simp only [forRange]
    cases hx : Minutes1RecordIO.body objToday s l with
    | next s2 =>
      rw [hx] at hb
      exact ih s2 (fun x hm => hls x (by simp [hm])) hb
    | ret r =>
      rw [hx] at hb
      exact hb

theorem Minutes1RecordIO.LoadFromFile_result_pair (objToday : Time) (bytesData : Bytes) :
    (( Minutes1RecordIO.LoadFromFile objToday bytesData).1,
        ( Minutes1RecordIO.LoadFromFile objToday bytesData).2.1)
      = Day1RecordIO.chunkAndDate
          (forRange ( Minutes1RecordIO.body objToday) (splitOn 10 bytesData) Day1RecordIO.init) := by
  unfold Minutes1RecordIO.LoadFromFile
  cases forRange ( Minutes1RecordIO.body objToday) (splitOn 10 bytesData) Day1RecordIO.init <;> rfl

theorem Minutes1RecordIO.body_nOffset_free (objToday : Time) (s t : Day1State) (l : Bytes)
    (hr : s.rstr = t.rstr) (hd : s.nReturnDate = t.nReturnDate) :
    Day1RecordIO.chunkAndDate ( Minutes1RecordIO.body objToday s l)
        = Day1RecordIO.chunkAndDate ( Minutes1RecordIO.body objToday t l) ∧
      ( Minutes1RecordIO.body objToday s l).isRet = ( Minutes1RecordIO.body objToday t l).isRet := by
  by_cases hold : (Atoi (firstField l)).2 = false ∨
      objToday.instant - objRecordDate objToday.loc (Atoi (firstField l)).1 ≤ 14 * nsPerDay
  · rw [ Minutes1RecordIO.body_eq_day1 objToday s l hold,
      Minutes1RecordIO.body_eq_day1 objToday t l hold]
    exact Day1RecordIO.body_offset_irrelevant s t l hr hd
  · have hA : Atoi (firstField l) = ((Atoi (firstField l)).1, true) := by
      rcases hx : Atoi (firstField l) with ⟨d, b⟩
      cases b
      · exact absurd (Or.inl (by rw [hx])) hold
      · rfl
    have ho : 14 * nsPerDay < objToday.instant - objRecordDate objToday.loc (Atoi (firstField l)).1 := by
      have := fun hle => hold (Or.inr hle)
      omega
    rw [ Minutes1RecordIO.body_old objToday s l _ hA ho,
      Minutes1RecordIO.body_old objToday t l _ hA ho]
    simp [ Day1RecordIO.chunkAndDate, Flow.isRet, hr, hd]

theorem Minutes1RecordIO.forRange_nOffset_free (objToday : Time) (ls : List Bytes)
    (s t : Day1State) (hr : s.rstr = t.rstr) (hd : s.nReturnDate = t.nReturnDate) :
    Day1RecordIO.chunkAndDate (forRange ( Minutes1RecordIO.body objToday) ls s)
        = Day1RecordIO.chunkAndDate (forRange ( Minutes1RecordIO.body objToday) ls t) := by
  induction ls generalizing s t with
  | nil => simp [forRange, Day1RecordIO.chunkAndDate, hr, hd]
  | cons l ls ih =>
    have hb := Minutes1RecordIO.body_nOffset_free objToday s t l hr hd
    simp only [forRange]
    cases hs : Minutes1RecordIO.body objToday s l with
    | next s2 =>
      cases ht : Minutes1RecordIO.body objToday t l with
      | next t2 =>
        rw [hs, ht] at hb
        simp only [ Day1RecordIO.chunkAndDate, Prod.mk.injEq] at hb
        exact ih s2 t2 hb.1.1 hb.1.2
      | ret r =>
        rw [hs, ht] at hb
        simp [Flow.isRet] at hb
    | ret r =>
      cases ht : Minutes1RecordIO.body objToday t l with
      | next t2 =>
        rw [hs, ht] at hb
        simp [Flow.isRet] at hb
      | ret r2 =>
        rw [hs, ht] at hb
        exact hb.1

/-! ## Minutes1RecordIO.LoadFromFile: claims -/

/-- C20: for every buffer and every `objToday`, every line of the chunk returned by
`Minutes1RecordIO.LoadFromFile` has a leading field that parses to a date `d` with
`objToday` minus (`d` at 21:06:09 local time) at most 14 days; and a whole line
older than that, inserted at a line boundary of the buffer, changes neither the
chunk nor the date returned: it is skipped without ending the chunk. -/
theorem Minutes1RecordIO.LoadFromFile_horizon (objToday : Time) (bytesData : Bytes) :
    (∀ l ∈ chunkLines ( Minutes1RecordIO.LoadFromFile objToday bytesData).1,
        ∃ d, Atoi (firstField l) = (d, true) ∧ objToday.instant - objRecordDate objToday.loc d ≤ 14 * nsPerDay) ∧
      (∀ (pre : List Bytes) (old rest : Bytes) (d : Int),
        (∀ l ∈ pre, 10 ∉ l) → 10 ∉ old → Atoi (firstField old) = (d, true) →
        14 * nsPerDay < objToday.instant - objRecordDate objToday.loc d → bytesData = joinLines pre ++ rest →
        ( Minutes1RecordIO.LoadFromFile objToday (joinLines pre ++ (old ++ 10 :: rest))).1
            = ( Minutes1RecordIO.LoadFromFile objToday bytesData).1 ∧
          ( Minutes1RecordIO.LoadFromFile objToday (joinLines pre ++ (old ++ 10 :: rest))).2.1
            = ( Minutes1RecordIO.LoadFromFile objToday bytesData).2.1) := by
  constructor
  · intro l hl
    have hfresh := Minutes1RecordIO.Fresh_forRange objToday (splitOn 10 bytesData)
      Day1RecordIO.init (fun x hx => not_sep_of_mem_splitOn 10 bytesData x hx)
      ⟨[], rfl, fun x hx => absurd hx (List.not_mem_nil x)⟩
    have e := Minutes1RecordIO.LoadFromFile_result_pair objToday bytesData
    rw [← e] at hfresh
    obtain ⟨acc, hr, hacc⟩ := hfresh
    simp only at hr
    rw [hr, chunkLines_joinLines acc (fun x hx => (hacc x hx).1)] at hl
    exact (hacc l hl).2
  · intro pre old rest d hpre hold10 hA hage hbuf
    subst hbuf
    have h1 : splitOn 10 (joinLines pre ++ (old ++ 10 :: rest)) = pre ++ old :: splitOn 10 rest := by
      rw [splitOn_joinLines pre _ hpre, splitOn_append_sep 10 old rest hold10]
    have h2 : splitOn 10 (joinLines pre ++ rest) = pre ++ splitOn 10 rest :=
      splitOn_joinLines pre _ hpre
    have key : Day1RecordIO.chunkAndDate
          (forRange ( Minutes1RecordIO.body objToday) (pre ++ old :: splitOn 10 rest)
            Day1RecordIO.init)
        = Day1RecordIO.chunkAndDate
          (forRange ( Minutes1RecordIO.body objToday) (pre ++ splitOn 10 rest)
            Day1RecordIO.init) := by
      cases hp : forRange ( Minutes1RecordIO.body objToday) pre Day1RecordIO.init with
      | ret r =>
        rw [forRange_append_ret _ _ _ _ _ hp, forRange_append_ret _ _ _ _ _ hp]
      | next s =>
        rw [forRange_append _ _ _ _ _ hp, forRange_append _ _ _ _ _ hp]
        simp only [forRange, Minutes1RecordIO.body_old objToday s old d hA hage]
        exact Minutes1RecordIO.forRange_nOffset_free objToday _ _ _ rfl rfl
    have e1 := Minutes1RecordIO.LoadFromFile_result_pair objToday
      (joinLines pre ++ (old ++ 10 :: rest))
    have e2 := Minutes1RecordIO.LoadFromFile_result_pair objToday (joinLines pre ++ rest)
    rw [h1] at e1
    rw [h2] at e2
    have e := e1.trans (key.trans e2.symm)
    exact ⟨(Prod.mk.inj e).1, (Prod.mk.inj e).2⟩

/-- Witness of C20: at noon of 2024-01-17 in UTC the buffer with lines dated 20240101,
20240110, 20240110; the chunk is the two lines dated 20240110, and the line dated
20240101 is the old line inserted before them. -/
theorem Minutes1RecordIO.LoadFromFile_horizon_witness :
    (∃ d, Atoi (firstField (ascii "20240110,2")) = (d, true) ∧
        timeDate 2024 1 17 12 0 0 0 - objRecordDate Location.utc d ≤ 14 * nsPerDay) ∧
      ( Minutes1RecordIO.LoadFromFile (Time.utc (timeDate 2024 1 17 12 0 0 0))
          (joinLines [] ++ (ascii "20240101,1" ++ 10 :: ascii "20240110,2\n20240110,3\n"))).1
        = ( Minutes1RecordIO.LoadFromFile (Time.utc (timeDate 2024 1 17 12 0 0 0))
            (ascii "20240110,2\n20240110,3\n")).1 :=
  ⟨( Minutes1RecordIO.LoadFromFile_horizon (Time.utc (timeDate 2024 1 17 12 0 0 0))
      (ascii "20240110,2\n20240110,3\n")).1 (ascii "20240110,2") (by decide),
   (( Minutes1RecordIO.LoadFromFile_horizon (Time.utc (timeDate 2024 1 17 12 0 0 0))
      (ascii "20240110,2\n20240110,3\n")).2 [] (ascii "20240101,1")
      (ascii "20240110,2\n20240110,3\n") 20240101 (by decide) (by decide) (by decide)
      (by decide) (by decide)).1⟩

/-! ## Folder traversal -/

/-- The loop of `compressFolder` never ends with the flag false: the flags of
`compressFile` and of the recursive calls are not looked at. -/
theorem compressFolder.entries_ne_fail (P : Policy) (headerOk : Nat → Bytes → Bool)
    (sDestFile sSrcFolder sRecursivePath : Bytes) (ns : List Node) (a b : Archive) :
    compressFolder.entries P headerOk sDestFile sSrcFolder sRecursivePath ns a ≠ Run.fail b := by
  induction ns generalizing a with
  | nil => simp [compressFolder.entries]
  | cons n ns ih =>
    rw [compressFolder.entries]
    cases compressFolder.entry P headerOk sDestFile sSrcFolder sRecursivePath n a with
    | ok a1 => exact ih a1
    | fail a1 => exact ih a1
    | panic => simp
    | outOfFuel => simp

/-! ## Folder traversal: claims -/

/-- C15: a source folder "src" with the one daily-bar file "DAY600000.csv". In a
world where no bucket file can be created `GrapWriter` returns nil and `compressFile`
returns false on the file; in a world where `WriteHeader` fails `compressFile`
returns false as well; in both, `translateFolder` returns the flag true. -/
theorem translateFolder_true_after_file_failure :
    compressFile ( Day1RecordIO.policy readOnlyWorld (ascii "sse.d1") none) (fun _ _ => true)
        (ascii "out/SSE/DAY/DAY.") (ascii "src/DAY600000.csv") (ascii "src/DAY600000.csv")
        (Node.file (ascii "DAY600000.csv") (some (ascii "20240101,1\n")) 420 0)
        { mapFileHandle := [], disk := Disk.empty, entries := [] }
      = Run.fail { mapFileHandle := [], disk := Disk.empty, entries := [] } ∧
    translateFolder ( Day1RecordIO.policy readOnlyWorld (ascii "sse.d1") none) (fun _ _ => true)
        true (ascii "out/SSE/DAY/DAY.") (ascii "src") true
        [Node.file (ascii "DAY600000.csv") (some (ascii "20240101,1\n")) 420 0] Disk.empty
      = Run.ok { lstRes := [], releaseCalls := 1,
                 archive := { mapFileHandle := [], disk := Disk.empty, entries := [] } } ∧
    (compressFile ( Day1RecordIO.policy writableWorld (ascii "sse.d1") none) (fun _ _ => false)
        (ascii "out/SSE/DAY/DAY.") (ascii "src/DAY600000.csv") (ascii "src/DAY600000.csv")
        (Node.file (ascii "DAY600000.csv") (some (ascii "20240101,1\n")) 420 0)
        { mapFileHandle := [], disk := Disk.empty, entries := [] }).returnedFalse = true ∧
    (translateFolder ( Day1RecordIO.policy writableWorld (ascii "sse.d1") none)
        (fun _ _ => false) true (ascii "out/SSE/DAY/DAY.") (ascii "src") true
        [Node.file (ascii "DAY600000.csv") (some (ascii "20240101,1\n")) 420 0]
        Disk.empty).returnedTrue = true := by
  decide

/-- C16 as stated fails: when the source folder cannot be opened or listed,
`translateFolder` has initialized the policy and returns without calling
`Release`. -/
theorem translateFolder_no_release_on_unreadable_folder :
    ( Day1RecordIO.policy readOnlyWorld (ascii "sse.d1") none).Initialize = true ∧
    translateFolder ( Day1RecordIO.policy readOnlyWorld (ascii "sse.d1") none) (fun _ _ => true)
        true (ascii "out/SSE/DAY/DAY.") (ascii "src") false [] Disk.empty
      = Run.fail { lstRes := [], releaseCalls := 0,
                   archive := { mapFileHandle := [], disk := Disk.empty, entries := [] } } := by
  decide

/-! ## Replacing "MIN/" -/

theorem isPrefixOf_MIN (l : Bytes) :
    List.isPrefixOf [77, 73, 78, 47] l = true ↔ ∃ rest, l = 77 :: 73 :: 78 :: 47 :: rest := by
  rw [List.isPrefixOf_iff_prefix]
  constructor
  · rintro ⟨t, ht⟩
    exact ⟨t, by simpa using ht.symm⟩
  · rintro ⟨t, ht⟩
    exact ⟨t, by simp [ht]⟩

theorem stringsReplaceFrom_MIN_match (new rest : Bytes) :
    stringsReplaceFrom [77, 73, 78, 47] new 0 (77 :: 73 :: 78 :: 47 :: rest)
      = new ++ stringsReplaceFrom [77, 73, 78, 47] new 0 rest := by
  simp [stringsReplaceFrom, List.isPrefixOf]

theorem stringsReplaceFrom_MIN_skip (new : Bytes) (c : Nat) (cs : Bytes)
    (h : ¬ List.isPrefixOf [77, 73, 78, 47] (c :: cs) = true) :
    stringsReplaceFrom [77, 73, 78, 47] new 0 (c :: cs)
      = c :: stringsReplaceFrom [77, 73, 78, 47] new 0 cs := by
  rw [stringsReplaceFrom]
  simp only [h, if_false]
  simp

/-- A byte other than `M` at the head of the result was copied from the head of
the input, when the replacement starts with `M`. -/
theorem stringsReplaceFrom_MIN_head (new : Bytes) (hnew : ∃ tl, new = 77 :: tl) (t : Bytes)
    (x : Nat) (r : Bytes) (hx : x ≠ 77)
    (h : stringsReplaceFrom [77, 73, 78, 47] new 0 t = x :: r) :
    ∃ t1, t = x :: t1 ∧ r = stringsReplaceFrom [77, 73, 78, 47] new 0 t1 := by
  cases t with
  | nil => simp [stringsReplaceFrom] at h
  | cons c cs =>
    by_cases hp : List.isPrefixOf [77, 73, 78, 47] (c :: cs) = true
    · obtain ⟨rest, hr⟩ := (isPrefixOf_MIN _).mp hp
      obtain ⟨tl, htl⟩ := hnew
      rw [hr, stringsReplaceFrom_MIN_match, htl] at h
      simp only [List.cons_append, List.cons.injEq] at h
      exact absurd h.1.symm hx
    · rw [stringsReplaceFrom_MIN_skip new c cs hp] at h
      simp only [List.cons.injEq] at h
      exact ⟨cs, by rw [h.1], h.2.symm⟩

/-- Replacing "MIN/" by a string that starts with `M`, that the scan copies as it
is, and in which therefore no "MIN/" is found, is idempotent. -/
theorem stringsReplaceFrom_MIN_idem (new : Bytes) (hnew : ∃ tl, new = 77 :: tl)
    (hcopy : ∀ t, stringsReplaceFrom [77, 73, 78, 47] new 0 (new ++ t)
      = new ++ stringsReplaceFrom [77, 73, 78, 47] new 0 t) (s : Bytes) :
    stringsReplaceFrom [77, 73, 78, 47] new 0 (stringsReplaceFrom [77, 73, 78, 47] new 0 s)
      = stringsReplaceFrom [77, 73, 78, 47] new 0 s := by
  have key : ∀ (n : Nat) (s : Bytes), s.length = n →
      stringsReplaceFrom [77, 73, 78, 47] new 0 (stringsReplaceFrom [77, 73, 78, 47] new 0 s)
        = stringsReplaceFrom [77, 73, 78, 47] new 0 s := by
    intro n
    induction n using Nat.strong_induction_on with
    | _ n ih =>
      intro s hn
      cases s with
      | nil => simp [stringsReplaceFrom]
      | cons c cs =>
        by_cases hp : List.isPrefixOf [77, 73, 78, 47] (c :: cs) = true
        · obtain ⟨rest, hr⟩ := (isPrefixOf_MIN _).mp hp
          rw [hr, stringsReplaceFrom_MIN_match, hcopy]
          have hlen : rest.length < n := by
            rw [← hn, hr]
            simp only [List.length_cons]
            omega
          exact congrArg _ (ih rest.length hlen rest rfl)
        · rw [stringsReplaceFrom_MIN_skip new c cs hp]
          have hq : ¬ List.isPrefixOf [77, 73, 78, 47]
              (c :: stringsReplaceFrom [77, 73, 78, 47] new 0 cs) = true := by
            intro hq
            obtain ⟨r, hr⟩ := (isPrefixOf_MIN _).mp hq
            simp only [List.cons.injEq] at hr
            obtain ⟨hc, hr⟩ := hr
            obtain ⟨t1, e1, r1⟩ := stringsReplaceFrom_MIN_head new hnew cs 73 _ (by decide) hr
            obtain ⟨t2, e2, r2⟩ := stringsReplaceFrom_MIN_head new hnew t1 78 _ (by decide) r1.symm
            obtain ⟨t3, e3, _⟩ := stringsReplaceFrom_MIN_head new hnew t2 47 _ (by decide) r2.symm
            apply hp
            rw [isPrefixOf_MIN]
            exact ⟨t3, by rw [hc, e1, e2, e3]⟩
          rw [stringsReplaceFrom_MIN_skip new c _ hq]
          have hlen : cs.length < n := by
            rw [← hn]
            simp
          rw [ih cs.length hlen cs rfl]
  exact key s.length s rfl

/-! ## GenFilePath: claims -/

/-- C28: the path rewrite is idempotent: for every string `s`, applying
`GenFilePath` twice gives what applying it once gives, for `Minutes5RecordIO`
("MIN/" replaced by "MIN5/"), for `Minutes60RecordIO` ("MIN/" replaced by "MIN60/")
and for the identity rewrite of `BaseRecordIO`. -/
theorem GenFilePath_idempotent (s : Bytes) :
    Minutes5RecordIO.GenFilePath ( Minutes5RecordIO.GenFilePath s) = Minutes5RecordIO.GenFilePath s ∧
      Minutes60RecordIO.GenFilePath ( Minutes60RecordIO.GenFilePath s)
        = Minutes60RecordIO.GenFilePath s ∧
      BaseRecordIO.GenFilePath ( BaseRecordIO.GenFilePath s) = BaseRecordIO.GenFilePath s := by
  refine ⟨?_, ?_, rfl⟩
  · exact stringsReplaceFrom_MIN_idem (ascii "MIN5/") ⟨_, rfl⟩
      (fun t => by simp [ascii, stringsReplaceFrom, List.isPrefixOf]) s
  · exact stringsReplaceFrom_MIN_idem (ascii "MIN60/") ⟨_, rfl⟩
      (fun t => by simp [ascii, stringsReplaceFrom, List.isPrefixOf]) s

/-! ## Bounds: claims -/

/-- C26: on the buffer "1,a", line break, "2,b" (7 bytes, no line break at the end)
`Day1RecordIO.LoadFromFile` returns the consumed count 8, and the chunk loop of
`compressFile` then slices `bytesData[8:]`, which is out of range. The 1-minute
loader returns 22 for a buffer of 21 bytes, the 5- and 60-minute loaders 48 for a
buffer of 47 bytes. -/
theorem LoadFromFile_consumed_exceeds_buffer :
    Day1RecordIO.LoadFromFile (ascii "1,a\n2,b") = (ascii "1,a\n", 1, 8) ∧
      (ascii "1,a\n2,b").length = 7 ∧
      compressFile.loop Day1RecordIO.LoadFromFile recordEntry (ascii "1,a\n2,b") 9 0 []
        = Run.panic ∧
      Minutes1RecordIO.LoadFromFile (Time.utc (timeDate 2024 1 17 12 0 0 0)) (ascii "20240110,a\n20240111,b")
        = (ascii "20240110,a\n", 20240110, 22) ∧
      (ascii "20240110,a\n20240111,b").length = 21 ∧
      (( Minutes5RecordIO.LoadBars wholeFloats (fun _ => false)
          (sampleRecord ++ 10 :: ascii "20240102")).map (fun r => r.2))
        = some (20240101, 48) ∧
      (( Minutes60RecordIO.LoadBars wholeFloats (fun _ => false)
          (sampleRecord ++ 10 :: ascii "20240102")).map (fun r => r.2))
        = some (20240101, 48) ∧
      (sampleRecord ++ 10 :: ascii "20240102").length = 47 := by
  decide

/-- C27: with a range predicate supplied, `CodeInWhiteTable` of the minute policies
panics on a file name with no dot ("abc": the year slice is `[-5:-1]`) and on one
with fewer than four bytes before the last dot ("a.b": `[-3:1]`);
`Day1RecordIO.CodeInWhiteTable` panics on "abc" (`[0:-1]`) and on "1.DAY" (`[5:1]`);
and `compressFile`, which calls it on every file, panics with it. -/
theorem CodeInWhiteTable_panics (CodeInRange : Bytes → Bool) (nowYear : Int) (w : World)
    (a : Archive) :
    Minutes1RecordIO.CodeInWhiteTable (some CodeInRange) nowYear (ascii "abc") = none ∧
      Minutes1RecordIO.CodeInWhiteTable (some CodeInRange) nowYear (ascii "a.b") = none ∧
      Minutes5RecordIO.CodeInWhiteTable (some CodeInRange) nowYear (ascii "abc") = none ∧
      Minutes5RecordIO.CodeInWhiteTable (some CodeInRange) nowYear (ascii "a.b") = none ∧
      Minutes60RecordIO.CodeInWhiteTable (some CodeInRange) nowYear (ascii "abc") = none ∧
      Minutes60RecordIO.CodeInWhiteTable (some CodeInRange) nowYear (ascii "a.b") = none ∧
      Day1RecordIO.CodeInWhiteTable (some CodeInRange) (ascii "abc") = none ∧
      Day1RecordIO.CodeInWhiteTable (some CodeInRange) (ascii "1.DAY") = none ∧
      compressFile ( Day1RecordIO.policy w (ascii "sse.d1") (some CodeInRange)) (fun _ _ => true)
          (ascii "out/SSE/DAY/DAY.") (ascii "abc") (ascii "abc")
          (Node.file (ascii "abc") (some []) 420 0) a = Run.panic :=
  ⟨rfl, rfl, rfl, rfl, rfl, rfl, rfl, rfl, rfl⟩

/-! ## Compression levels: claims -/

theorem grapWriterLookup_levels_open (canCreate : Bytes → Bool) (level : Int) (reg : Registry)
    (d : Disk) (sFile : Bytes) (hmiss : Registry.find? reg sFile = none)
    (hc : canCreate sFile = true) :
    (grapWriterLookup canCreate level reg d sFile).2.1.levels = d.levels ++ [(sFile, level)] := by
  unfold grapWriterLookup
  rw [hmiss]
  simp only [CompressHandles.OpenFile, hc, Bool.true_eq_false, if_false]
  split_ifs <;> rfl

theorem grapWriterLookup_levels_hit (canCreate : Bytes → Bool) (level : Int) (reg : Registry)
    (d : Disk) (sFile : Bytes) (h : CompressHandles) (hhit : Registry.find? reg sFile = some h) :
    (grapWriterLookup canCreate level reg d sFile).2.1.levels = d.levels := by
  unfold grapWriterLookup
  rw [hhit]

/-- C22: when a bucket file is opened (the registry has no entry for the bucket's
file name and the file can be created), `Day1RecordIO.GrapWriter` gives
`gzip.NewWriterLevel` the level 1 (`gzip.BestSpeed`) and `BaseRecordIO.GrapWriter`
gives it the level -1 (`gzip.DefaultCompression`); the daily-bar policy uses the
former and the policies of the weight, 1-minute, 5-minute and 60-minute data use
the latter. -/
theorem GrapWriter_compression_level {F : Type} (fl : FloatOps F) (tooOld : Int → Bool)
    (w : World) (DataType : Bytes) (CodeRangeFilter : Option (Bytes → Bool)) (nowYear : Int)
    (reg : Registry) (d : Disk) (sFilePath : Bytes) (nDate : Int) :
    (Registry.find? reg ( Day1RecordIO.GrapWriter_sFile w.objToday sFilePath nDate) = none →
      w.canCreate ( Day1RecordIO.GrapWriter_sFile w.objToday sFilePath nDate) = true →
      (( Day1RecordIO.policy w DataType CodeRangeFilter).GrapWriter reg d sFilePath nDate).2.1.levels
        = d.levels ++ [( Day1RecordIO.GrapWriter_sFile w.objToday sFilePath nDate, 1)]) ∧
    (Registry.find? reg ( BaseRecordIO.GrapWriter_sFile w.objToday sFilePath nDate) = none →
      w.canCreate ( BaseRecordIO.GrapWriter_sFile w.objToday sFilePath nDate) = true →
      ( BaseRecordIO.GrapWriter w.canCreate w.objToday reg d sFilePath nDate).2.1.levels
        = d.levels ++ [( BaseRecordIO.GrapWriter_sFile w.objToday sFilePath nDate, -1)]) ∧
    ( WeightRecordIO.policy w DataType).GrapWriter
        = BaseRecordIO.GrapWriter w.canCreate w.objToday ∧
    ( Minutes1RecordIO.policy w DataType CodeRangeFilter nowYear).GrapWriter
        = BaseRecordIO.GrapWriter w.canCreate w.objToday ∧
    ( Minutes5RecordIO.policy fl tooOld w DataType CodeRangeFilter nowYear).GrapWriter
        = BaseRecordIO.GrapWriter w.canCreate w.objToday ∧
    ( Minutes60RecordIO.policy fl tooOld w DataType CodeRangeFilter nowYear).GrapWriter
        = BaseRecordIO.GrapWriter w.canCreate w.objToday :=
  ⟨fun hmiss hc => grapWriterLookup_levels_open _ _ _ _ _ hmiss hc,
   fun hmiss hc => grapWriterLookup_levels_open _ _ _ _ _ hmiss hc,
   rfl, rfl, rfl, rfl⟩

/-- C22, at an input: in a world where files can be created, with an empty
registry, the daily-bar policy opens the bucket file of 2024-01-02 at level 1 and
the 5-minute policy opens it at level -1. -/
theorem GrapWriter_compression_level_witness :
    (( Day1RecordIO.policy writableWorld [] none).GrapWriter [] Disk.empty (ascii "DAY/DAY.")
        20240102).2.1.levels = [(ascii "DAY/DAY.20240102", 1)] ∧
    (( Minutes5RecordIO.policy wholeFloats (fun _ => false) writableWorld [] none
        2024).GrapWriter [] Disk.empty (ascii "MIN5/MIN5.") 20240102).2.1.levels
      = [(ascii "MIN5/MIN5.20240102", -1)] := by
  have h := GrapWriter_compression_level wholeFloats (fun _ => false) writableWorld [] none 2024
    [] Disk.empty
  exact ⟨(h (ascii "DAY/DAY.") 20240102).1 (by decide) (by decide),
    by
      rw [(h (ascii "MIN5/MIN5.") 20240102).2.2.2.2.1]
      exact (h (ascii "MIN5/MIN5.") 20240102).2.1 (by decide) (by decide)⟩

/-! ## The minute loaders on one valid record -/

theorem tdiv_clock (hh mm ss ms : Int) (h0 : 0 ≤ hh) (h1 : 0 ≤ mm) (h2 : 0 ≤ ss) (h3 : ss < 60)
    (h4 : 0 ≤ ms) (h5 : ms < 1000) :
    ((((hh * 100 + mm) * 100 + ss) * 1000 + ms) : Int).tdiv 100000 = hh * 100 + mm := by
  rw [Int.tdiv_eq_ediv (by omega) (by decide)]
  omega

/-- One pass of the loop body on a record of the date being returned, when the
accumulator is unset or its time code has been reached: the accumulator's time
code becomes `(c + width) * scale` for the record's reduced time `c`, and when the
accumulator was unset the bar written at seeding carries that code. -/
theorem minutesBody_seed_time {F : Type} (fl : FloatOps F) (tooOld : Int → Bool)
    (unit width scale : Int) (nCount : Nat) (s : MinState F) (i : Nat) (bLine : Bytes)
    (nDate c : Int)
    (h0 : ¬ ((splitOn 44 bLine).headD []).length ≤ 0)
    (hd : Atoi ((splitOn 44 bLine).headD []) = (nDate, true))
    (hold : tooOld nDate = false)
    (hret : s.nReturnDate = -100 ∨ s.nReturnDate = nDate)
    (hl : ¬ (splitOn 44 bLine).length < 12)
    (hc : (Atoi ((splitOn 44 bLine).getD 1 [])).1.tdiv unit = c)
    (hgt : ¬ (c + width) * scale ≤ c * scale)
    (hseed : s.objMin.Time = 0 ∨ s.objMin.Time ≤ c * scale) :
    ∃ s1 : MinState F,
      minutesBody fl tooOld unit width scale nCount s (i, bLine) = Flow.next s1 ∧
      s1.objMin.Time = (c + width) * scale ∧
      (s.objMin.Time = 0 → ∃ b : Bar F, b.Date = nDate ∧ b.Time = (c + width) * scale ∧
        s1.rstr = if i = nCount - 1 then s.rstr ++ [b] ++ [s1.objMin] else s.rstr ++ [b]) := by
  have hr : (if -100 = s.nReturnDate then nDate else s.nReturnDate) = nDate := by
    rcases hret with h | h
    · simp [h]
    · simp [h]
  by_cases hz : s.objMin.Time = 0
  · simp only [minutesBody, h0, hd, hold, hr, hl, hc, hgt, hz, if_false, if_true,
      Bool.false_eq_true, Bool.true_eq_false, ne_eq, not_true_eq_false]
    by_cases hi : i = nCount - 1
    · simp only [hi, if_true]
      exact ⟨_, rfl, rfl, fun _ => ⟨_, rfl, rfl, rfl⟩⟩
    · simp only [hi, if_false]
      exact ⟨_, rfl, rfl, fun _ => ⟨_, rfl, rfl, rfl⟩⟩
  · have hle : s.objMin.Time ≤ c * scale := by
      rcases hseed with h | h
      · exact absurd h hz
      · exact h
    simp only [minutesBody, h0, hd, hold, hr, hl, hc, hz, hle, if_false, if_true,
      Bool.false_eq_true, Bool.true_eq_false, ne_eq, not_true_eq_false]
    exact ⟨_, rfl, rfl, fun h => h.elim⟩

/-! ## The time code of a 5-minute bar: claims -/

/-- C23: the single record at 09:58 gives 5-minute bars with the time code 96300,
which is no clock time, where the next 5-minute boundary is 10:00 (100000); the
single record at 09:31 gives the time code 93600 where the next 5-minute boundary
09:35 is 93500. On the same record at 09:58 the 60-minute loader gives the time code
100000, the next boundary of its bucket. -/
theorem Minutes5RecordIO.time_code_not_clock_time :
    (( Minutes5RecordIO.LoadBars wholeFloats (fun _ => false)
          (ascii "20240101,95800000,1,2,3,4,5,6,7,8,9,10")).map
        (fun r => r.1.map (fun b => b.Time)) = some [96300, 96300]) ∧
      ¬ ((96300 : Int) / 100 % 100 < 60) ∧
      ((((9 * 60 + 58) / 5 + 1) * 5 / 60 * 100 + ((9 * 60 + 58) / 5 + 1) * 5 % 60) * 100 : Int)
        = 100000 ∧
      (( Minutes5RecordIO.LoadBars wholeFloats (fun _ => false) sampleRecord).map
        (fun r => r.1.map (fun b => b.Time)) = some [93600, 93600]) ∧
      ((((9 * 60 + 31) / 5 + 1) * 5 / 60 * 100 + ((9 * 60 + 31) / 5 + 1) * 5 % 60) * 100 : Int)
        = 93500 ∧
      (( Minutes60RecordIO.LoadBars wholeFloats (fun _ => false)
          (ascii "20240101,95800000,1,2,3,4,5,6,7,8,9,10")).map
        (fun r => r.1.map (fun b => b.Time)) = some [100000, 100000]) := by
  decide

/-- What the loop of `Minutes5RecordIO.LoadFromFile` computes: a record of the
date being returned whose time field is HH:MM:SS.mmm and which seeds the
accumulator (the accumulator is unset, or its time code is at most HHMM00) gives
the accumulator the time code `(HH * 100 + MM + 5) * 100`: the minute of the record
itself plus five, written as HHMMSS without a carry into the hour. When the
accumulator was unset, the bar written at the seeding carries this code. -/
theorem Minutes5RecordIO.seeded_time_code {F : Type} (fl : FloatOps F) (tooOld : Int → Bool)
    (nCount : Nat) (s : MinState F) (i : Nat) (bLine : Bytes) (nDate hh mm ss ms : Int)
    (h0 : ¬ ((splitOn 44 bLine).headD []).length ≤ 0)
    (hd : Atoi ((splitOn 44 bLine).headD []) = (nDate, true))
    (hold : tooOld nDate = false)
    (hret : s.nReturnDate = -100 ∨ s.nReturnDate = nDate)
    (hl : ¬ (splitOn 44 bLine).length < 12)
    (ht : (Atoi ((splitOn 44 bLine).getD 1 [])).1 = ((hh * 100 + mm) * 100 + ss) * 1000 + ms)
    (hhh : 0 ≤ hh ∧ hh < 24) (hmm : 0 ≤ mm ∧ mm < 60) (hss : 0 ≤ ss ∧ ss < 60)
    (hms : 0 ≤ ms ∧ ms < 1000)
    (hseed : s.objMin.Time = 0 ∨ s.objMin.Time ≤ (hh * 100 + mm) * 100) :
    ∃ s1 : MinState F,
      minutesBody fl tooOld 100000 5 100 nCount s (i, bLine) = Flow.next s1 ∧
      s1.objMin.Time = (hh * 100 + mm + 5) * 100 ∧
      (s.objMin.Time = 0 → ∃ b : Bar F, b.Date = nDate ∧ b.Time = (hh * 100 + mm + 5) * 100 ∧
        s1.rstr = if i = nCount - 1 then s.rstr ++ [b] ++ [s1.objMin] else s.rstr ++ [b]) :=
  minutesBody_seed_time fl tooOld 100000 5 100 nCount s i bLine nDate (hh * 100 + mm) h0 hd hold
    hret hl (by rw [ht]; exact tdiv_clock hh mm ss ms hhh.1 hmm.1 hss.1 hss.2 hms.1 hms.2)
    (by omega) hseed

/-- At an input: the record `sampleRecord` of 09:31:00.000 met with the unset
accumulator as the only line of a buffer gives the time code 93600. -/
theorem Minutes5RecordIO.seeded_time_code_witness :
    ∃ s1 : MinState Int,
      minutesBody wholeFloats (fun _ => false) 100000 5 100 1 (MinState.init wholeFloats)
        (0, sampleRecord) = Flow.next s1 ∧
      s1.objMin.Time = (9 * 100 + 31 + 5) * 100 ∧
      ((MinState.init wholeFloats).objMin.Time = 0 → ∃ b : Bar Int,
        b.Date = 20240101 ∧ b.Time = (9 * 100 + 31 + 5) * 100 ∧
        s1.rstr = if 0 = 1 - 1 then (MinState.init wholeFloats).rstr ++ [b] ++ [s1.objMin]
          else (MinState.init wholeFloats).rstr ++ [b]) :=
  Minutes5RecordIO.seeded_time_code wholeFloats (fun _ => false) 1 (MinState.init wholeFloats) 0
    sampleRecord 20240101 9 31 0 0 (by decide) (by decide) rfl (Or.inl rfl) (by decide)
    (by decide) (by decide) (by decide) (by decide) (by decide) (Or.inl rfl)

/-! ## Folding a record into the accumulator: claims -/

theorem ite_gt_foldsToMax {F V : Type} [LinearOrder V] (fl : FloatOps F) (val : F → Option V)
    (hcmp : fl.ComparesBy val) (old incoming : F) :
    FoldsToMax val old incoming (if fl.gt incoming old = true then incoming else old) := by
  refine ⟨fun x y hx hy => ?_, fun hn => ?_, fun hn => ?_⟩
  · by_cases h : x < y
    · rw [if_pos ((hcmp incoming old).2 ⟨y, x, hy, hx, h⟩), hy, max_eq_right (le_of_lt h)]
    · have hg : ¬ fl.gt incoming old = true := by
        intro hg
        obtain ⟨y1, x1, hy1, hx1, hlt⟩ := (hcmp incoming old).1 hg
        rw [hy] at hy1
        rw [hx] at hx1
        cases hy1
        cases hx1
        exact h hlt
      rw [if_neg hg, hx, max_eq_left (not_lt.1 h)]
  · have hg : ¬ fl.gt incoming old = true := by
      intro hg
      obtain ⟨y1, x1, hy1, _, _⟩ := (hcmp incoming old).1 hg
      rw [hn] at hy1
      cases hy1
    rw [if_neg hg]
  · have hg : ¬ fl.gt incoming old = true := by
      intro hg
      obtain ⟨y1, x1, _, hx1, _⟩ := (hcmp incoming old).1 hg
      rw [hn] at hx1
      cases hx1
    rw [if_neg hg]

theorem nanFloats_comparesBy : nanFloats.ComparesBy (fun x : Option Int => x) := by
  intro a b
  cases a with
  | none => simp [nanFloats]
  | some x =>
    cases b with
    | none => simp [nanFloats]
    | some y => simp [nanFloats]

/-- One pass of the loop body on a record of the date being returned that falls
in the bucket of the accumulator: high and low are each replaced by the incoming
value when `>` holds of the incoming and the old value. -/
theorem minutesBody_fold_high_low {F : Type} (fl : FloatOps F) (tooOld : Int → Bool)
    (unit width scale : Int) (nCount : Nat) (s : MinState F) (i : Nat) (bLine : Bytes)
    (nDate : Int)
    (h0 : ¬ ((splitOn 44 bLine).headD []).length ≤ 0)
    (hd : Atoi ((splitOn 44 bLine).headD []) = (nDate, true))
    (hold : tooOld nDate = false)
    (hret : s.nReturnDate = -100 ∨ s.nReturnDate = nDate)
    (hl : ¬ (splitOn 44 bLine).length < 12)
    (hz : ¬ s.objMin.Time = 0)
    (hnot : ¬ s.objMin.Time ≤ (Atoi ((splitOn 44 bLine).getD 1 [])).1.tdiv unit * scale) :
    ∃ s1 : MinState F,
      minutesBody fl tooOld unit width scale nCount s (i, bLine) = Flow.next s1 ∧
      s1.objMin.High
        = (if fl.gt (fl.parseFloat ((splitOn 44 bLine).getD 3 [])) s.objMin.High = true
            then fl.parseFloat ((splitOn 44 bLine).getD 3 []) else s.objMin.High) ∧
      s1.objMin.Low
        = (if fl.gt (fl.parseFloat ((splitOn 44 bLine).getD 4 [])) s.objMin.Low = true
            then fl.parseFloat ((splitOn 44 bLine).getD 4 []) else s.objMin.Low) := by
  have hr : (if -100 = s.nReturnDate then nDate else s.nReturnDate) = nDate := by
    rcases hret with h | h
    · simp [h]
    · simp [h]
  simp only [minutesBody, h0, hd, hold, hr, hl, hz, hnot, if_false, if_true,
    Bool.false_eq_true, Bool.true_eq_false, ne_eq, not_true_eq_false]
  exact ⟨_, rfl, rfl, rfl⟩

/-- C25 as stated fails: with the record of high 2 and low 3 followed by a record of
the same bucket whose high and low are NaN, the last bar keeps the high 2 and the
low 3; with the two highs and lows met in the other order, NaN first, the last bar
keeps NaN. No maximum of 2 and NaN is both, so the fold is not the maximum. -/
theorem LoadBars_fold_NaN_depends_on_order :
    (( Minutes5RecordIO.LoadBars nanFloats (fun _ => false)
          (sampleRecord ++ 10 :: sampleRecordNaN)).map
        (fun r => r.1.map (fun b => (b.High, b.Low)))
      = some [(some 2, some 3), (some 2, some 3)]) ∧
    (( Minutes5RecordIO.LoadBars nanFloats (fun _ => false)
          (sampleRecordNaN1 ++ 10 :: ascii "20240101,93200000,1,2,3,4,5,6,7,8,9,10")).map
        (fun r => r.1.map (fun b => (b.High, b.Low)))
      = some [(none, none), (none, none)]) ∧
    (( Minutes60RecordIO.LoadBars nanFloats (fun _ => false)
          (sampleRecord ++ 10 :: sampleRecordNaN)).map
        (fun r => r.1.map (fun b => (b.High, b.Low)))
      = some [(some 2, some 3), (some 2, some 3)]) ∧
    (( Minutes60RecordIO.LoadBars nanFloats (fun _ => false)
          (sampleRecordNaN1 ++ 10 :: ascii "20240101,93200000,1,2,3,4,5,6,7,8,9,10")).map
        (fun r => r.1.map (fun b => (b.High, b.Low)))
      = some [(none, none), (none, none)]) := by
  decide

/-- C25, amended: when the loop of `Minutes5RecordIO.LoadFromFile` (constants 100000,
5, 100) or of `Minutes60RecordIO.LoadFromFile` (constants 10000000, 1, 10000) folds a
record of the date being returned into a set accumulator whose time code the record
has not reached, and the float comparison `>` compares the values `val` of the
floats (`none` for NaN), then the value of the accumulator's high becomes the
maximum of the values of its old high and the incoming high when neither is NaN,
and the value of its low becomes the maximum of the values of its old low and the
incoming low when neither is NaN; an incoming NaN leaves the accumulator as it is,
and a NaN in the accumulator stays. -/
theorem minutesBody_fold_max_of_values {F V : Type} [LinearOrder V] (fl : FloatOps F)
    (val : F → Option V) (hcmp : fl.ComparesBy val) (tooOld : Int → Bool)
    (nCount : Nat) (s : MinState F) (i : Nat) (bLine : Bytes) (nDate : Int)
    (h0 : ¬ ((splitOn 44 bLine).headD []).length ≤ 0)
    (hd : Atoi ((splitOn 44 bLine).headD []) = (nDate, true))
    (hold : tooOld nDate = false)
    (hret : s.nReturnDate = -100 ∨ s.nReturnDate = nDate)
    (hl : ¬ (splitOn 44 bLine).length < 12)
    (hz : ¬ s.objMin.Time = 0) :
    (¬ s.objMin.Time ≤ (Atoi ((splitOn 44 bLine).getD 1 [])).1.tdiv 100000 * 100 →
      ∃ s1 : MinState F,
        minutesBody fl tooOld 100000 5 100 nCount s (i, bLine) = Flow.next s1 ∧
        FoldsToMax val s.objMin.High (fl.parseFloat ((splitOn 44 bLine).getD 3 []))
          s1.objMin.High ∧
        FoldsToMax val s.objMin.Low (fl.parseFloat ((splitOn 44 bLine).getD 4 []))
          s1.objMin.Low) ∧
    (¬ s.objMin.Time ≤ (Atoi ((splitOn 44 bLine).getD 1 [])).1.tdiv 10000000 * 10000 →
      ∃ s1 : MinState F,
        minutesBody fl tooOld 10000000 1 10000 nCount s (i, bLine) = Flow.next s1 ∧
        FoldsToMax val s.objMin.High (fl.parseFloat ((splitOn 44 bLine).getD 3 []))
          s1.objMin.High ∧
        FoldsToMax val s.objMin.Low (fl.parseFloat ((splitOn 44 bLine).getD 4 []))
          s1.objMin.Low) := by
  constructor
  · intro hnot
    obtain ⟨s1, h1, h2, h3⟩ := minutesBody_fold_high_low fl tooOld 100000 5 100 nCount s i bLine
      nDate h0 hd hold hret hl hz hnot
    exact ⟨s1, h1, h2 ▸ ite_gt_foldsToMax fl val hcmp _ _, h3 ▸ ite_gt_foldsToMax fl val hcmp _ _⟩
  · intro hnot
    obtain ⟨s1, h1, h2, h3⟩ := minutesBody_fold_high_low fl tooOld 10000000 1 10000 nCount s i
      bLine nDate h0 hd hold hret hl hz hnot
    exact ⟨s1, h1, h2 ▸ ite_gt_foldsToMax fl val hcmp _ _, h3 ▸ ite_gt_foldsToMax fl val hcmp _ _⟩

/-- C25, amended, at an input: the state the 5-minute loop is in after the record
of high 2 and low 3, and the record of high 5 and low 1 of the same bucket as the
second of three lines; the high becomes 5 and the low stays 3, the maximum, where
the minimum is 1. The loader run on the two records returns this high and low in
its last bar. -/
theorem minutesBody_fold_max_of_values_witness :
    (∃ s1 : MinState (Option Int),
      minutesBody nanFloats (fun _ => false) 100000 5 100 3
        (minutesStateAfter nanFloats (fun _ => false) 100000 5 100 (sampleRecord ++ [10]))
        (1, sampleRecord2) = Flow.next s1 ∧
      s1.objMin.High = some 5 ∧ s1.objMin.Low = some 3) ∧
    (( Minutes5RecordIO.LoadBars nanFloats (fun _ => false)
          (sampleRecord ++ 10 :: sampleRecord2)).map
        (fun r => r.1.map (fun b => (b.High, b.Low)))
      = some [(some 2, some 3), (some 5, some 3)]) := by
  obtain ⟨s1, h1, h2, h3⟩ := (minutesBody_fold_max_of_values nanFloats (fun x => x)
    nanFloats_comparesBy (fun _ => false) 3
    (minutesStateAfter nanFloats (fun _ => false) 100000 5 100 (sampleRecord ++ [10]))
    1 sampleRecord2 20240101 (by decide) (by decide) rfl (Or.inr (by decide)) (by decide)
    (by decide)).1 (by decide)
  exact ⟨⟨s1, h1, (h2.1 2 5 (by decide) (by decide)).trans (by decide),
    (h3.1 3 1 (by decide) (by decide)).trans (by decide)⟩, by decide⟩

/-! ## Bars and buckets: claims -/

theorem minutesLoad_single_record {F : Type} (fl : FloatOps F) (tooOld : Int → Bool)
    (unit width scale : Int) (hpos : ∀ c : Int, ¬ (c + width) * scale ≤ c * scale)
    (bLine : Bytes) (nDate : Int)
    (hnl : splitOn 10 bLine = [bLine])
    (h0 : ¬ ((splitOn 44 bLine).headD []).length ≤ 0)
    (hd : Atoi ((splitOn 44 bLine).headD []) = (nDate, true))
    (hold : tooOld nDate = false)
    (hl : ¬ (splitOn 44 bLine).length < 12) :
    ∃ b1 b2 : Bar F,
      minutesLoad fl tooOld unit width scale bLine = some ([b1, b2], nDate, bLine.length) ∧
      b1.Date = nDate ∧ b2.Date = nDate ∧ b1.Time = b2.Time := by
  simp only [minutesLoad, minutesLoop, hnl, indexed, forRange, minutesBody, h0, hd, hold, hl,
    hpos, MinState.init, if_false, if_true, Bool.false_eq_true, Bool.true_eq_false, ne_eq,
    not_true_eq_false, List.length_singleton]
  exact ⟨_, _, rfl, rfl, rfl, rfl⟩

/-- C24: a buffer that is one in-horizon record with its twelve fields and no line
break falls in one bucket, and `Minutes5RecordIO.LoadFromFile` and
`Minutes60RecordIO.LoadFromFile` each write two bars for it, both of the record's
date and of one time code: the bar written when the accumulator is seeded, before
any later record or the end of the input has closed the bucket, and the bar of the
final flush. -/
theorem LoadBars_single_record_two_bars {F : Type} (fl : FloatOps F) (tooOld : Int → Bool)
    (bLine : Bytes) (nDate : Int)
    (hnl : splitOn 10 bLine = [bLine])
    (h0 : ¬ ((splitOn 44 bLine).headD []).length ≤ 0)
    (hd : Atoi ((splitOn 44 bLine).headD []) = (nDate, true))
    (hold : tooOld nDate = false)
    (hl : ¬ (splitOn 44 bLine).length < 12) :
    (∃ b1 b2 : Bar F,
      Minutes5RecordIO.LoadBars fl tooOld bLine = some ([b1, b2], nDate, bLine.length) ∧
      b1.Date = nDate ∧ b2.Date = nDate ∧ b1.Time = b2.Time) ∧
    (∃ b1 b2 : Bar F,
      Minutes60RecordIO.LoadBars fl tooOld bLine = some ([b1, b2], nDate, bLine.length) ∧
      b1.Date = nDate ∧ b2.Date = nDate ∧ b1.Time = b2.Time) :=
  ⟨minutesLoad_single_record fl tooOld 100000 5 100 (fun c => by omega) bLine nDate hnl h0 hd
      hold hl,
   minutesLoad_single_record fl tooOld 10000000 1 10000 (fun c => by omega) bLine nDate hnl h0
      hd hold hl⟩

/-- C24, at an input: the record `sampleRecord` alone gives two bars with either
loader. -/
theorem LoadBars_single_record_two_bars_witness :
    (∃ b1 b2 : Bar Int,
      Minutes5RecordIO.LoadBars wholeFloats (fun _ => false) sampleRecord
        = some ([b1, b2], 20240101, sampleRecord.length) ∧
      b1.Date = 20240101 ∧ b2.Date = 20240101 ∧ b1.Time = b2.Time) ∧
    (∃ b1 b2 : Bar Int,
      Minutes60RecordIO.LoadBars wholeFloats (fun _ => false) sampleRecord
        = some ([b1, b2], 20240101, sampleRecord.length) ∧
      b1.Date = 20240101 ∧ b2.Date = 20240101 ∧ b1.Time = b2.Time) :=
  LoadBars_single_record_two_bars wholeFloats (fun _ => false) sampleRecord 20240101
    (by decide) (by decide) (by decide) rfl (by decide)

/-! ## Reading a chunk of bars again: claims -/

/-- C21, counterexample: the buffer holding `sampleRecord` and a line break gives
the chunk of one bar with time code 93600; `Minutes5RecordIO.LoadFromFile` applied
to this chunk gives a chunk of one bar with time code 500. -/
theorem Minutes5RecordIO.LoadFromFile_not_idempotent :
    Minutes5RecordIO.LoadFromFile sixDecimalFloats (fun _ => false) (sampleRecord ++ [10])
      = some (ascii
          "20240101,93600,1.000000,2.000000,3.000000,4.000000,5.000000,6.000000,7,8,9,10.000000\n",
          20240101, 39) ∧
    Minutes5RecordIO.LoadFromFile sixDecimalFloats (fun _ => false) (ascii
        "20240101,93600,1.000000,2.000000,3.000000,4.000000,5.000000,6.000000,7,8,9,10.000000\n")
      = some (ascii
          "20240101,500,1.000000,2.000000,3.000000,4.000000,5.000000,6.000000,7,8,9,10.000000\n",
          20240101, 85) := by
  decide

/-! ## Reading back what `%d` wrote -/

theorem natDigits_le (fuel n : Nat) : ∀ c ∈ natDigits fuel n, c ≤ 57 := by
  induction fuel generalizing n with
  | zero => simp [natDigits]
  | succ fuel ih =>
    unfold natDigits
    split_ifs with h
    · intro c hc
      simp at hc
      omega
    · intro c hc
      rcases List.mem_append.mp hc with h1 | h1
      · exact ih _ c h1
      · simp at h1
        omega

theorem parseUintLoop_append (l : Bytes) (c acc : Nat) :
    parseUintLoop (l ++ [c]) acc =
      match parseUintLoop l acc with
      | UintResult.ok m => parseUintLoop [c] m
      | UintResult.syntaxErr => UintResult.syntaxErr
      | UintResult.rangeErr => UintResult.rangeErr := by
  induction l generalizing acc with
  | nil => simp [parseUintLoop]
  | cons d ds ih =>
    have e1 : ∀ t : Bytes, parseUintLoop (d :: t) acc =
        if d < 48 ∨ 57 < d then UintResult.syntaxErr
        else if acc ≥ 2 ^ 64 / 10 + 1 then UintResult.rangeErr
        else if acc * 10 + (d - 48) ≥ 2 ^ 64 then UintResult.rangeErr
        else parseUintLoop t (acc * 10 + (d - 48)) := fun _ => rfl
    rw [List.cons_append, e1, e1]
    split_ifs <;> first | rfl | exact ih _

theorem parseUintLoop_natDigits (fuel n : Nat) (hf : n < fuel) (hn : n < 2 ^ 64) :
    parseUintLoop (natDigits fuel n) 0 = UintResult.ok n := by
  induction fuel generalizing n with
  | zero => omega
  | succ fuel ih =>
    unfold natDigits
    split_ifs with h10
    · have h1 : ¬ (48 + n < 48 ∨ 57 < 48 + n) := by omega
      have h2 : ¬ (0 ≥ 2 ^ 64 / 10 + 1) := by decide
      have h3 : ¬ (0 * 10 + (48 + n - 48) ≥ 2 ^ 64) := by omega
      have h4 : 0 * 10 + (48 + n - 48) = n := by omega
      have h5 : ¬ (n ≥ 2 ^ 64) := by omega
      simp only [parseUintLoop, h1, h2, h3, h4, h5, if_false]
    · rw [parseUintLoop_append, ih (n / 10) (by omega) (by omega)]
      have h1 : ¬ (48 + n % 10 < 48 ∨ 57 < 48 + n % 10) := by omega
      have h2 : ¬ (n / 10 ≥ 2 ^ 64 / 10 + 1) := by omega
      have h3 : ¬ (n / 10 * 10 + (48 + n % 10 - 48) ≥ 2 ^ 64) := by omega
      have h4 : n / 10 * 10 + (48 + n % 10 - 48) = n := by omega
      have h5 : ¬ (n ≥ 2 ^ 64) := by omega
      simp only [parseUintLoop, h1, h2, h3, h4, h5, if_false]

theorem ParseInt_fmtInt (n : Int) (h1 : -(2 ^ 63) ≤ n) (h2 : n < 2 ^ 63) :
    ParseInt (fmtInt n) = (n, true) := by
  have hk := parseUintLoop_natDigits (n.natAbs + 1) n.natAbs (by omega) (by omega)
  have hne := natDigits_ne_nil n.natAbs n.natAbs
  have hge := natDigits_ge (n.natAbs + 1) n.natAbs
  unfold fmtInt
  generalize natDigits (n.natAbs + 1) n.natAbs = ds at hk hne hge
  split_ifs with hneg
  · have hu : ParseUint ds = UintResult.ok n.natAbs := by simp [ParseUint, hne, hk]
    have hb : ¬ (9223372036854775808 < n.natAbs) := by omega
    have hv : -|n| = n := by rw [abs_of_neg hneg]; omega
    simp [ParseInt, hu, hb, hv]
  · cases ds with
    | nil => exact absurd rfl hne
    | cons c cs =>
      have hc : 48 ≤ c := hge c (by simp)
      have hu : ParseUint (c :: cs) = UintResult.ok n.natAbs := by simp [ParseUint, hk]
      have h43 : ¬ c = 43 := by omega
      have h45 : ¬ c = 45 := by omega
      have hb : ¬ (9223372036854775808 ≤ n.natAbs) := by omega
      have hv : |n| = n := abs_of_nonneg (by omega)
      simp [ParseInt, hu, h43, h45, hb, hv]

theorem fmtInt_mem (n : Int) : ∀ c ∈ fmtInt n, c = 45 ∨ 48 ≤ c := by
  intro c hc
  unfold fmtInt at hc
  split_ifs at hc
  · rcases List.mem_cons.mp hc with h | h
    · exact Or.inl h
    · exact Or.inr (natDigits_ge _ _ c h)
  · exact Or.inr (natDigits_ge _ _ c hc)

theorem fmtInt_no_sep (n : Int) : 44 ∉ fmtInt n ∧ 10 ∉ fmtInt n := by
  constructor
  · intro h
    rcases fmtInt_mem n 44 h with h1 | h1 <;> omega
  · intro h
    rcases fmtInt_mem n 10 h with h1 | h1 <;> omega

theorem fmtInt_length_pos (n : Int) : ¬ (fmtInt n).length ≤ 0 := by
  unfold fmtInt
  have hne := natDigits_ne_nil n.natAbs n.natAbs
  split_ifs
  · simp
  · intro h
    exact hne (List.length_eq_zero.mp (by omega))

/-! ## The lines of a chunk of bars -/

theorem Bar.render_eq_line {F : Type} (fl : FloatOps F) (b : Bar F) :
    Bar.render fl b = Bar.line fl b ++ [10] := by
  simp [Bar.render, Bar.line, List.append_assoc]

theorem Bar.line_no_newline {F : Type} (fl : FloatOps F)
    (hfmt : ∀ x, 44 ∉ fl.fmt x ∧ 10 ∉ fl.fmt x) (b : Bar F) : 10 ∉ Bar.line fl b := by
  have h10f : ∀ x, 10 ∉ fl.fmt x := fun x => (hfmt x).2
  have h10i : ∀ n, 10 ∉ fmtInt n := fun n => (fmtInt_no_sep n).2
  simp [Bar.line, h10f, h10i]

theorem Bar.splitOn_line {F : Type} (fl : FloatOps F)
    (hfmt : ∀ x, 44 ∉ fl.fmt x ∧ 10 ∉ fl.fmt x) (b : Bar F) :
    splitOn 44 ( Bar.line fl b)
      = [fmtInt b.Date, fmtInt b.Time, fl.fmt b.Open, fl.fmt b.High, fl.fmt b.Low,
          fl.fmt b.Close, fl.fmt b.Settle, fl.fmt b.Amount, fmtInt b.Volume,
          fmtInt b.OpenInterest, fmtInt b.NumTrades, fl.fmt b.Voip] := by
  have hf : ∀ x, 44 ∉ fl.fmt x := fun x => (hfmt x).1
  have hi : ∀ n, 44 ∉ fmtInt n := fun n => (fmtInt_no_sep n).1
  unfold Bar.line
  rw [splitOn_append_sep _ _ _ (hi _), splitOn_append_sep _ _ _ (hi _),
    splitOn_append_sep _ _ _ (hf _), splitOn_append_sep _ _ _ (hf _),
    splitOn_append_sep _ _ _ (hf _), splitOn_append_sep _ _ _ (hf _),
    splitOn_append_sep _ _ _ (hf _), splitOn_append_sep _ _ _ (hf _),
    splitOn_append_sep _ _ _ (hi _), splitOn_append_sep _ _ _ (hi _),
    splitOn_append_sep _ _ _ (hi _), splitOn_no_sep _ _ (hf _)]

theorem splitOn_renderBars {F : Type} (fl : FloatOps F)
    (hfmt : ∀ x, 44 ∉ fl.fmt x ∧ 10 ∉ fl.fmt x) (bs : List (Bar F)) :
    splitOn 10 (renderBars fl bs) = bs.map ( Bar.line fl) ++ [[]] := by
  induction bs with
  | nil => simp [renderBars, splitOn]
  | cons b bs ih =>
    rw [renderBars, Bar.render_eq_line, List.append_assoc, List.singleton_append,
      splitOn_append_sep _ _ _ ( Bar.line_no_newline fl hfmt b), ih]
    simp

theorem minutesBody_keepsPrefix {F : Type} (fl : FloatOps F) (tooOld : Int → Bool)
    (unit width scale : Int) (nCount : Nat) (pre : List (Bar F)) (s : MinState F) (i : Nat)
    (bLine : Bytes)
    (hL : ((splitOn 44 bLine).headD []).length ≤ 0 ∨ ¬ (splitOn 44 bLine).length < 12)
    (hp : List.IsPrefix pre s.rstr) :
    keepsPrefix pre (minutesBody fl tooOld unit width scale nCount s (i, bLine)) := by
  by_cases h0 : ((splitOn 44 bLine).headD []).length ≤ 0
  · simp only [minutesBody, h0, if_true, keepsPrefix]
    exact hp
  · have hl : ¬ (splitOn 44 bLine).length < 12 := hL.resolve_left h0
    by_cases hd : (Atoi ((splitOn 44 bLine).headD [])).2 = false
    · simp only [minutesBody, h0, hd, if_true, if_false, keepsPrefix]
      exact hp
    · by_cases hold : tooOld (Atoi ((splitOn 44 bLine).headD [])).1 = true
      · simp only [minutesBody, h0, hd, hold, if_true, if_false, keepsPrefix]
        exact hp
      · by_cases hret : (if -100 = s.nReturnDate then (Atoi ((splitOn 44 bLine).headD [])).1
            else s.nReturnDate) = (Atoi ((splitOn 44 bLine).headD [])).1
        · simp only [minutesBody, h0, hd, hold, hret, hl, if_true, if_false, ne_eq,
            not_true_eq_false, keepsPrefix]
          split_ifs <;>
            first
              | exact hp
              | exact hp.trans (List.prefix_append _ _)
              | exact hp.trans ((List.prefix_append _ _).trans (List.prefix_append _ _))
              | exact hp.trans (((List.prefix_append _ _).trans (List.prefix_append _ _)).trans
                  (List.prefix_append _ _))
        · simp only [minutesBody, h0, hd, hold, hret, if_true, if_false, ne_eq,
            not_false_eq_true, keepsPrefix]
          exact hp

theorem forRange_keepsPrefix {F : Type} (fl : FloatOps F) (tooOld : Int → Bool)
    (unit width scale : Int) (nCount : Nat) (pre : List (Bar F)) (lines : List Bytes)
    (hlines : ∀ bLine ∈ lines,
      ((splitOn 44 bLine).headD []).length ≤ 0 ∨ ¬ (splitOn 44 bLine).length < 12) :
    ∀ (k : Nat) (s : MinState F), List.IsPrefix pre s.rstr →
      keepsPrefix pre
        (forRange (minutesBody fl tooOld unit width scale nCount) (indexed k lines) s) := by
  induction lines with
  | nil =>
    intro k s hp
    simpa [indexed, forRange, keepsPrefix] using hp
  | cons bLine rest ih =>
    intro k s hp
    have hb := minutesBody_keepsPrefix fl tooOld unit width scale nCount pre s k bLine
      (hlines bLine (List.mem_cons_self _ _)) hp
    simp only [indexed, forRange]
    cases hbody : minutesBody fl tooOld unit width scale nCount s (k, bLine) with
    | next s1 =>
      rw [hbody] at hb
      exact ih (fun l hl => hlines l (List.mem_cons_of_mem _ hl)) (k + 1) s1 hb
    | ret r =>
      rw [hbody] at hb
      exact hb

theorem tdiv_time_code_fixed (T : Int) (h : (T.tdiv 100000 + 5) * 100 = T) : T = 500 := by
  rcases le_or_lt 0 T with h0 | h0
  · rw [Int.tdiv_eq_ediv h0 (by decide)] at h
    omega
  · have e : T.tdiv 100000 = -((-T) / 100000) := by
      rw [← Int.tdiv_eq_ediv (by omega) (by decide), Int.neg_tdiv, neg_neg]
    rw [e] at h
    omega

theorem renderBars_lines_good {F : Type} (fl : FloatOps F)
    (hfmt : ∀ x, 44 ∉ fl.fmt x ∧ 10 ∉ fl.fmt x) (bs : List (Bar F)) :
    ∀ bLine ∈ bs.map ( Bar.line fl) ++ [[]],
      ((splitOn 44 bLine).headD []).length ≤ 0 ∨ ¬ (splitOn 44 bLine).length < 12 := by
  intro bLine hmem
  rcases List.mem_append.mp hmem with h | h
  · obtain ⟨b2, _, rfl⟩ := List.mem_map.mp h
    right
    rw [ Bar.splitOn_line fl hfmt b2]
    simp only [List.length_cons, List.length_nil]
    omega
  · left
    rw [List.mem_singleton.mp h]
    exact Nat.le_of_eq rfl

/-- The first line of a chunk of bars met by a minute loader with its state before
the loop, when the line is not the last piece of the buffer: the bar written at
seeding has the date of the line and the time code made from the line's time
code. -/
theorem minutesBody_first_line {F : Type} (fl : FloatOps F)
    (hfmt : ∀ x, 44 ∉ fl.fmt x ∧ 10 ∉ fl.fmt x) (tooOld : Int → Bool)
    (unit width scale : Int) (hpos : ∀ c : Int, ¬ (c + width) * scale ≤ c * scale)
    (b : Bar F) (N : Nat) (hN0 : ¬ (0 = N - 1))
    (hD : -(2 ^ 63) ≤ b.Date ∧ b.Date < 2 ^ 63) (hT : -(2 ^ 63) ≤ b.Time ∧ b.Time < 2 ^ 63)
    (hold : tooOld b.Date = false) :
    ∃ (s1 : MinState F) (b1 : Bar F),
      minutesBody fl tooOld unit width scale N (MinState.init fl) (0, Bar.line fl b)
        = Flow.next s1 ∧
      s1.rstr = [b1] ∧ b1.Date = b.Date ∧ b1.Time = (b.Time.tdiv unit + width) * scale := by
  have hline := Bar.splitOn_line fl hfmt b
  have h0 : ¬ ((splitOn 44 ( Bar.line fl b)).headD []).length ≤ 0 := by
    rw [hline]
    exact fmtInt_length_pos _
  have hd : Atoi ((splitOn 44 ( Bar.line fl b)).headD []) = (b.Date, true) := by
    rw [hline]
    exact ParseInt_fmtInt _ hD.1 hD.2
  have hl : ¬ (splitOn 44 ( Bar.line fl b)).length < 12 := by
    rw [hline]
    simp only [List.length_cons, List.length_nil]
    omega
  have hc : (Atoi ((splitOn 44 ( Bar.line fl b)).getD 1 [])).1.tdiv unit = b.Time.tdiv unit := by
    rw [hline]
    exact congrArg (fun p => p.1.tdiv unit) (ParseInt_fmtInt _ hT.1 hT.2)
  obtain ⟨s1, hs1, _, hseed⟩ := minutesBody_seed_time fl tooOld unit width scale N
    (MinState.init fl) 0 ( Bar.line fl b) b.Date (b.Time.tdiv unit) h0 hd hold (Or.inl rfl) hl hc
    (hpos _) (Or.inl rfl)
  obtain ⟨b1, hb1D, hb1T, hr⟩ := hseed rfl
  rw [if_neg hN0] at hr
  exact ⟨s1, b1, hs1, hr, hb1D, hb1T⟩

/-- A chunk of bars read by a minute loader: when the first bar has a date and a
time code in the `int64` range and the date is in the horizon, the chunk returned
starts with a bar of this date whose time code comes from the first bar's time
code taken as a time field. -/
theorem minutesLoad_renderBars_first {F : Type} (fl : FloatOps F)
    (hfmt : ∀ x, 44 ∉ fl.fmt x ∧ 10 ∉ fl.fmt x) (tooOld : Int → Bool)
    (unit width scale : Int) (hpos : ∀ c : Int, ¬ (c + width) * scale ≤ c * scale)
    (b : Bar F) (bs : List (Bar F))
    (hD : -(2 ^ 63) ≤ b.Date ∧ b.Date < 2 ^ 63) (hT : -(2 ^ 63) ≤ b.Time ∧ b.Time < 2 ^ 63)
    (hold : tooOld b.Date = false) :
    ∃ (b1 : Bar F) (rest : List (Bar F)) (nDate : Int) (nOffset : Nat),
      minutesLoad fl tooOld unit width scale (renderBars fl (b :: bs))
        = some (b1 :: rest, nDate, nOffset) ∧
      b1.Date = b.Date ∧ b1.Time = (b.Time.tdiv unit + width) * scale := by
  have hsplit := splitOn_renderBars fl hfmt (b :: bs)
  generalize hN : (splitOn 10 (renderBars fl (b :: bs))).length = N
  have hN0 : ¬ (0 = N - 1) := by
    rw [← hN, hsplit]
    simp only [List.map_cons, List.cons_append, List.length_cons, List.length_append,
      List.length_map, List.length_nil]
    omega
  obtain ⟨s1, b1, hs1, hr, hb1D, hb1T⟩ := minutesBody_first_line fl hfmt tooOld unit width scale
    hpos b N hN0 hD hT hold
  have hkeep := forRange_keepsPrefix fl tooOld unit width scale N [b1]
    (bs.map ( Bar.line fl) ++ [[]]) (renderBars_lines_good fl hfmt bs) 1 s1
    (hr ▸ List.prefix_refl _)
  have hloop : minutesLoop fl tooOld unit width scale (renderBars fl (b :: bs))
      = forRange (minutesBody fl tooOld unit width scale N)
          (indexed 1 (bs.map ( Bar.line fl) ++ [[]])) s1 := by
    unfold minutesLoop
    rw [hN, hsplit]
    simp only [List.map_cons, List.cons_append, indexed, forRange, hs1]
    rfl
  unfold minutesLoad
  rw [hloop]
  generalize forRange (minutesBody fl tooOld unit width scale N)
    (indexed 1 (bs.map ( Bar.line fl) ++ [[]])) s1 = res at hkeep
  cases res with
  | next s =>
    obtain ⟨ext, hext⟩ := hkeep
    refine ⟨b1, ext, s.nReturnDate, (renderBars fl (b :: bs)).length, ?_, hb1D, hb1T⟩
    show some (s.rstr, s.nReturnDate, (renderBars fl (b :: bs)).length) = _
    rw [← hext]
    rfl
  | ret r =>
    cases r with
    | none => exact hkeep.elim
    | some r =>
      obtain ⟨bars, d, n⟩ := r
      obtain ⟨ext, hext⟩ := hkeep
      refine ⟨b1, ext, d, n, ?_, hb1D, hb1T⟩
      show some (bars, d, n) = _
      have hbars : bars = b1 :: ext := hext.symm
      rw [hbars]

theorem renderBars_first_time {F : Type} (fl : FloatOps F)
    (hfmt : ∀ x, 44 ∉ fl.fmt x ∧ 10 ∉ fl.fmt x) (b1 b : Bar F) (rest bs : List (Bar F))
    (h : renderBars fl (b1 :: rest) = renderBars fl (b :: bs)) : b1.Time = b.Time := by
  have h1 := congrArg (splitOn 10) h
  rw [splitOn_renderBars fl hfmt, splitOn_renderBars fl hfmt] at h1
  simp only [List.map_cons, List.cons_append, List.cons.injEq] at h1
  have h2 := congrArg (splitOn 44) h1.1
  rw [ Bar.splitOn_line fl hfmt, Bar.splitOn_line fl hfmt] at h2
  simp only [List.cons.injEq] at h2
  exact fmtInt_injective _ _ h2.2.1

theorem sixDecimalFloats_fmt (x : Int) :
    44 ∉ sixDecimalFloats.fmt x ∧ 10 ∉ sixDecimalFloats.fmt x := by
  have h1 := fmtInt_no_sep x
  have h2 : 44 ∉ ascii ".000000" ∧ 10 ∉ ascii ".000000" := by decide
  simp only [sixDecimalFloats, List.mem_append, not_or]
  exact ⟨⟨h1.1, h2.1⟩, ⟨h1.2, h2.2⟩⟩

/-- C21 (amended): `Minutes5RecordIO.LoadFromFile` does not reproduce a chunk of its
own bars. For every chunk of rendered bars whose first bar has a date in the
horizon and a date and time code T in the `int64` range (the `%f` rendering
holding no comma and no line break), it returns a chunk whose first bar has the
same date and the time code `(T / 100000 + 5) * 100`, T being read as a time field
HHMMSSmmm; unless T is 500 the chunk returned differs from the chunk read. -/
theorem Minutes5RecordIO.LoadFromFile_rereads_chunk {F : Type} (fl : FloatOps F)
    (hfmt : ∀ x, 44 ∉ fl.fmt x ∧ 10 ∉ fl.fmt x) (tooOld : Int → Bool)
    (b : Bar F) (bs : List (Bar F))
    (hD : -(2 ^ 63) ≤ b.Date ∧ b.Date < 2 ^ 63) (hT : -(2 ^ 63) ≤ b.Time ∧ b.Time < 2 ^ 63)
    (hold : tooOld b.Date = false) :
    ∃ (b1 : Bar F) (rest : List (Bar F)) (nDate : Int) (nOffset : Nat),
      Minutes5RecordIO.LoadBars fl tooOld (renderBars fl (b :: bs))
        = some (b1 :: rest, nDate, nOffset) ∧
      Minutes5RecordIO.LoadFromFile fl tooOld (renderBars fl (b :: bs))
        = some (renderBars fl (b1 :: rest), nDate, nOffset) ∧
      b1.Date = b.Date ∧ b1.Time = (b.Time.tdiv 100000 + 5) * 100 ∧
      (b.Time ≠ 500 → renderBars fl (b1 :: rest) ≠ renderBars fl (b :: bs)) := by
  obtain ⟨b1, rest, nDate, nOffset, h1, h2, h3⟩ := minutesLoad_renderBars_first fl hfmt tooOld
    100000 5 100 (fun c => by omega) b bs hD hT hold
  refine ⟨b1, rest, nDate, nOffset, h1, ?_, h2, h3, ?_⟩
  · unfold Minutes5RecordIO.LoadFromFile Minutes5RecordIO.LoadBars
    rw [h1]
    rfl
  · intro hne heq
    have ht := renderBars_first_time fl hfmt b1 b rest bs heq
    rw [h3] at ht
    exact hne (tdiv_time_code_fixed _ ht)

/-- C21 (amended), at an input: the chunk of the one bar of 2024-01-01 with time
code 93600 is returned as a chunk whose first bar has the time code 500. -/
theorem Minutes5RecordIO.LoadFromFile_rereads_chunk_witness :
    ∃ (b1 : Bar Int) (rest : List (Bar Int)) (nDate : Int) (nOffset : Nat),
      Minutes5RecordIO.LoadBars sixDecimalFloats (fun _ => false)
          (renderBars sixDecimalFloats [sampleAccumulator.objMin])
        = some (b1 :: rest, nDate, nOffset) ∧
      Minutes5RecordIO.LoadFromFile sixDecimalFloats (fun _ => false)
          (renderBars sixDecimalFloats [sampleAccumulator.objMin])
        = some (renderBars sixDecimalFloats (b1 :: rest), nDate, nOffset) ∧
      b1.Date = 20240101 ∧ b1.Time = 500 ∧
      renderBars sixDecimalFloats (b1 :: rest)
        ≠ renderBars sixDecimalFloats [sampleAccumulator.objMin] := by
  obtain ⟨b1, rest, nDate, nOffset, h1, h2, h3, h4, h5⟩ :=
    Minutes5RecordIO.LoadFromFile_rereads_chunk sixDecimalFloats sixDecimalFloats_fmt
      (fun _ => false) sampleAccumulator.objMin [] (by decide) (by decide) rfl
  exact ⟨b1, rest, nDate, nOffset, h1, h2, h3, h4.trans (by decide), h5 (by decide)⟩

/-! ## The chunk loop ends -/

theorem compressFile.forLoop_ne_outOfFuel (P : Policy) (hprog : P.Progresses)
    (headerOk : Nat → Bytes → Bool) (sDestFile sRecursivePath : Bytes) (mode : Nat)
    (modTime : Int) (bytesData : Bytes) :
    ∀ (fuel nIndex : Nat) (a : Archive), 1 ≤ fuel → bytesData.length + 2 ≤ fuel + nIndex →
      compressFile.forLoop P headerOk sDestFile sRecursivePath mode modTime bytesData fuel nIndex a
        ≠ Run.outOfFuel := by
  intro fuel
  induction fuel with
  | zero => intro nIndex a h1; omega
  | succ fuel ih =>
    intro nIndex a _ hlen
    rw [compressFile.forLoop]
    split_ifs with hidx
    · simp
    · cases hload : P.LoadFromFile (bytesData.drop nIndex) with
      | none => simp
      | some r =>
        obtain ⟨bData, nDate, nOffset⟩ := r
        simp only []
        split_ifs with hempty
        · simp
        · have hpos : 0 < nOffset := hprog _ _ _ _ hload (by omega)
          rcases hg : P.GrapWriter a.mapFileHandle a.disk (P.GenFilePath sDestFile) nDate with
            ⟨reg, disk, w⟩
          cases w with
          | none => simp
          | some pTarWriter =>
            simp only []
            split_ifs
            · simp
            · exact ih _ _ (by omega) (by omega)

theorem compressFile_ne_outOfFuel (P : Policy) (hprog : P.Progresses)
    (headerOk : Nat → Bytes → Bool) (sDestFile sSrcFile sRecursivePath : Bytes)
    (oFileInfo : Node) (a : Archive) :
    compressFile P headerOk sDestFile sSrcFile sRecursivePath oFileInfo a ≠ Run.outOfFuel := by
  cases oFileInfo with
  | dir name readable entries => simp [compressFile]
  | file name data mode modTime =>
    simp only [compressFile]
    cases P.CodeInWhiteTable sSrcFile with
    | none => simp
    | some b =>
      cases b with
      | false => simp
      | true =>
        cases data with
        | none => simp
        | some bytesData =>
          exact compressFile.forLoop_ne_outOfFuel P hprog headerOk sDestFile sRecursivePath mode
            modTime bytesData _ _ _ (by omega) (by omega)

mutual
theorem compressFolder.entry_ne_outOfFuel (P : Policy) (hprog : P.Progresses)
    (headerOk : Nat → Bytes → Bool) (sDestFile : Bytes) :
    ∀ (n : Node) (sSrcFolder sRecursivePath : Bytes) (a : Archive),
      compressFolder.entry P headerOk sDestFile sSrcFolder sRecursivePath n a ≠ Run.outOfFuel
  | Node.file name data mode modTime, sSrcFolder, sRecursivePath, a => by
    rw [compressFolder.entry]
    have h := compressFile_ne_outOfFuel P hprog headerOk sDestFile (pathJoin sSrcFolder name)
      (pathJoin sRecursivePath name) (Node.file name data mode modTime) a
    cases hx : compressFile P headerOk sDestFile (pathJoin sSrcFolder name)
        (pathJoin sRecursivePath name) (Node.file name data mode modTime) a with
    | ok a1 => simp
    | fail a1 => simp
    | panic => simp
    | outOfFuel => exact absurd hx h
  | Node.dir name readable entries, sSrcFolder, sRecursivePath, a => by
    rw [compressFolder.entry]
    have h := compressFolder.entries_ne_outOfFuel P hprog headerOk sDestFile entries
      (pathJoin sSrcFolder name) (pathJoin sRecursivePath name) a
    cases readable with
    | false => simp
    | true =>
      simp only [if_true]
      cases hx : compressFolder.entries P headerOk sDestFile (pathJoin sSrcFolder name)
          (pathJoin sRecursivePath name) entries a with
      | ok a1 => simp
      | fail a1 => simp
      | panic => simp
      | outOfFuel => exact absurd hx h
theorem compressFolder.entries_ne_outOfFuel (P : Policy) (hprog : P.Progresses)
    (headerOk : Nat → Bytes → Bool) (sDestFile : Bytes) :
    ∀ (ns : List Node) (sSrcFolder sRecursivePath : Bytes) (a : Archive),
      compressFolder.entries P headerOk sDestFile sSrcFolder sRecursivePath ns a ≠ Run.outOfFuel
  | [], sSrcFolder, sRecursivePath, a => by simp [compressFolder.entries]
  | n :: rest, sSrcFolder, sRecursivePath, a => by
    rw [compressFolder.entries]
    have h := compressFolder.entry_ne_outOfFuel P hprog headerOk sDestFile n sSrcFolder
      sRecursivePath a
    cases hx : compressFolder.entry P headerOk sDestFile sSrcFolder sRecursivePath n a with
    | ok a1 =>
      exact compressFolder.entries_ne_outOfFuel P hprog headerOk sDestFile rest sSrcFolder
        sRecursivePath a1
    | fail a1 =>
      exact compressFolder.entries_ne_outOfFuel P hprog headerOk sDestFile rest sSrcFolder
        sRecursivePath a1
    | panic => simp
    | outOfFuel => exact absurd hx h
end

/-! ## The loaders consume what they return -/

theorem forRange_ret_of_body {α σ ρ : Type} (body : σ → α → Flow σ ρ) (Q : ρ → Prop)
    (hb : ∀ s x r, body s x = Flow.ret r → Q r) :
    ∀ (xs : List α) (s : σ) (r : ρ), forRange body xs s = Flow.ret r → Q r := by
  intro xs
  induction xs with
  | nil =>
    intro s r h
    simp [forRange] at h
  | cons x xs ih =>
    intro s r h
    simp only [forRange] at h
    cases hx : body s x with
    | next s1 =>
      rw [hx] at h
      exact ih s1 r h
    | ret r1 =>
      rw [hx] at h
      cases h
      exact hb s x r hx

theorem Day1RecordIO.body_ret_pos (s : Day1State) (l : Bytes) (r : Bytes × Int × Nat)
    (h : Day1RecordIO.body s l = Flow.ret r) : 0 < r.2.2 := by
  by_cases hk : firstField l = [] ∨ (Atoi (firstField l)).2 = false
  · rw [ Day1RecordIO.body_skip s l hk] at h
    cases h
  · have hA : Atoi (firstField l) = ((Atoi (firstField l)).1, true) := by
      rcases hx : Atoi (firstField l) with ⟨d, b⟩
      cases b
      · exact absurd (Or.inr (by rw [hx])) hk
      · rfl
    rw [ Day1RecordIO.body_date s l _ hA] at h
    split_ifs at h <;> (cases h; exact Nat.succ_pos _)

theorem Minutes1RecordIO.body_ret_positive (objToday : Time) (s : Day1State) (l : Bytes)
    (r : Bytes × Int × Nat) (h : Minutes1RecordIO.body objToday s l = Flow.ret r) :
    0 < r.2.2 := by
  by_cases hk : (Atoi (firstField l)).2 = false ∨
      objToday.instant - objRecordDate objToday.loc (Atoi (firstField l)).1 ≤ 14 * nsPerDay
  · rw [ Minutes1RecordIO.body_eq_day1 objToday s l hk] at h
    exact Day1RecordIO.body_ret_pos s l r h
  · have hA : Atoi (firstField l) = ((Atoi (firstField l)).1, true) := by
      rcases hx : Atoi (firstField l) with ⟨d, b⟩
      cases b
      · exact absurd (Or.inl (by rw [hx])) hk
      · rfl
    rw [ Minutes1RecordIO.body_old objToday s l _ hA (by
      have := fun e => hk (Or.inr e)
      omega)] at h
    cases h

theorem minutesBody_ret_pos {F : Type} (fl : FloatOps F) (tooOld : Int → Bool)
    (unit width scale : Int) (nCount : Nat) (s : MinState F) (ib : Nat × Bytes)
    (r : List (Bar F) × Int × Nat)
    (h : minutesBody fl tooOld unit width scale nCount s ib = Flow.ret (some r)) :
    0 < r.2.2 := by
  by_cases h0 : ((splitOn 44 ib.2).headD []).length ≤ 0
  · simp only [minutesBody, h0, if_true] at h
    cases h
  · by_cases hd : (Atoi ((splitOn 44 ib.2).headD [])).2 = false
    · simp only [minutesBody, h0, hd, if_true, if_false, Bool.true_eq_false, Bool.false_eq_true] at h
      cases h
    · by_cases hold : tooOld (Atoi ((splitOn 44 ib.2).headD [])).1 = true
      · simp only [minutesBody, h0, hd, hold, if_true, if_false, Bool.true_eq_false, Bool.false_eq_true] at h
        cases h
      · by_cases hret : (if -100 = s.nReturnDate then (Atoi ((splitOn 44 ib.2).headD [])).1
            else s.nReturnDate) = (Atoi ((splitOn 44 ib.2).headD [])).1
        · by_cases hl : (splitOn 44 ib.2).length < 12
          · simp only [minutesBody, h0, hd, hold, hret, hl, if_true, if_false, Bool.true_eq_false, Bool.false_eq_true, ne_eq,
              not_true_eq_false] at h
            cases h
          · simp only [minutesBody, h0, hd, hold, hret, hl, if_true, if_false, Bool.true_eq_false, Bool.false_eq_true, ne_eq,
              not_true_eq_false] at h
            cases h
        · simp only [minutesBody, h0, hd, hold, hret, if_true, if_false, Bool.true_eq_false, Bool.false_eq_true, ne_eq,
            not_false_eq_true, Flow.ret.injEq, Option.some.injEq] at h
          rw [← h]
          exact Nat.succ_pos _

theorem Day1RecordIO.LoadFromFile_progress (bytesData : Bytes)
    (hpos : 0 < ( Day1RecordIO.LoadFromFile bytesData).1.length) :
    0 < ( Day1RecordIO.LoadFromFile bytesData).2.2 := by
  unfold Day1RecordIO.LoadFromFile at hpos ⊢
  cases hres : forRange Day1RecordIO.body (splitOn 10 bytesData) Day1RecordIO.init with
  | ret r =>
    exact forRange_ret_of_body Day1RecordIO.body (fun r => 0 < r.2.2)
      Day1RecordIO.body_ret_pos _ _ r hres
  | next s =>
    rw [hres] at hpos
    cases bytesData with
    | nil =>
      have h0 : forRange Day1RecordIO.body (splitOn 10 []) Day1RecordIO.init
          = Flow.next { rstr := [], nReturnDate := -100, nOffset := 1 } := rfl
      rw [h0] at hres
      cases hres
      exact absurd hpos (by decide)
    | cons c cs => exact Nat.succ_pos _

theorem Minutes1RecordIO.LoadFromFile_consumes (objToday : Time) (bytesData : Bytes)
    (hpos : 0 < ( Minutes1RecordIO.LoadFromFile objToday bytesData).1.length) :
    0 < ( Minutes1RecordIO.LoadFromFile objToday bytesData).2.2 := by
  unfold Minutes1RecordIO.LoadFromFile at hpos ⊢
  cases hres : forRange ( Minutes1RecordIO.body objToday) (splitOn 10 bytesData)
      Day1RecordIO.init with
  | ret r =>
    exact forRange_ret_of_body ( Minutes1RecordIO.body objToday) (fun r => 0 < r.2.2)
      ( Minutes1RecordIO.body_ret_positive objToday) _ _ r hres
  | next s =>
    rw [hres] at hpos
    cases bytesData with
    | nil =>
      have h0 : forRange ( Minutes1RecordIO.body objToday) (splitOn 10 []) Day1RecordIO.init
          = Flow.next { rstr := [], nReturnDate := -100, nOffset := 1 } := rfl
      rw [h0] at hres
      cases hres
      exact absurd hpos (by decide)
    | cons c cs => exact Nat.succ_pos _

theorem minutesLoad_progress {F : Type} (fl : FloatOps F) (tooOld : Int → Bool)
    (unit width scale : Int) (bytesData : Bytes) (r : List (Bar F) × Int × Nat)
    (h : minutesLoad fl tooOld unit width scale bytesData = some r) (hne : r.1 ≠ []) :
    0 < r.2.2 := by
  unfold minutesLoad at h
  cases hres : minutesLoop fl tooOld unit width scale bytesData with
  | ret x =>
    rw [hres] at h
    simp only [] at h
    subst h
    unfold minutesLoop at hres
    exact forRange_ret_of_body _
      (fun x : Option (List (Bar F) × Int × Nat) => ∀ r, x = some r → 0 < r.2.2)
      (fun s ib x hx r hr => minutesBody_ret_pos fl tooOld unit width scale _ s ib r (hr ▸ hx))
      _ _ _ hres r rfl
  | next s =>
    rw [hres] at h
    simp only [Option.some.injEq] at h
    subst h
    cases bytesData with
    | nil =>
      have h0 : minutesLoop fl tooOld unit width scale ([] : Bytes)
          = Flow.next { MinState.init fl with nOffset := 1 } := rfl
      rw [h0] at hres
      cases hres
      exact absurd rfl hne
    | cons c cs => exact Nat.succ_pos _

theorem renderBars_length_pos {F : Type} (fl : FloatOps F) (bars : List (Bar F))
    (h : 0 < (renderBars fl bars).length) : bars ≠ [] := by
  intro e
  subst e
  simp [renderBars] at h

/-- The five policies `XCompress` builds have loaders that consume at least one byte
with every chunk that is not empty. -/
theorem XCompress_policies_progress {F : Type} (fl : FloatOps F) (tooOld : Int → Bool)
    (w : World) (DataType : Bytes) (CodeRangeFilter : Option (Bytes → Bool)) (nowYear : Int) :
    ( WeightRecordIO.policy w DataType).Progresses ∧
      ( Day1RecordIO.policy w DataType CodeRangeFilter).Progresses ∧
      ( Minutes1RecordIO.policy w DataType CodeRangeFilter nowYear).Progresses ∧
      ( Minutes5RecordIO.policy fl tooOld w DataType CodeRangeFilter nowYear).Progresses ∧
      ( Minutes60RecordIO.policy fl tooOld w DataType CodeRangeFilter nowYear).Progresses := by
  refine ⟨?_, ?_, ?_, ?_, ?_⟩
  · intro x bData nDate nOffset h hpos
    simp only [ WeightRecordIO.policy, WeightRecordIO.LoadFromFile, Option.some.injEq,
      Prod.mk.injEq] at h
    obtain ⟨h1, _, h3⟩ := h
    rw [← h3, h1]
    exact hpos
  · intro x bData nDate nOffset h hpos
    simp only [ Day1RecordIO.policy, Option.some.injEq] at h
    have hp := Day1RecordIO.LoadFromFile_progress x
    rw [h] at hp
    exact hp hpos
  · intro x bData nDate nOffset h hpos
    simp only [ Minutes1RecordIO.policy, Option.some.injEq] at h
    have hp := Minutes1RecordIO.LoadFromFile_consumes w.objToday x
    rw [h] at hp
    exact hp hpos
  · intro x bData nDate nOffset h hpos
    simp only [ Minutes5RecordIO.policy, Minutes5RecordIO.LoadFromFile, Minutes5RecordIO.LoadBars,
      Option.map_eq_some'] at h
    obtain ⟨r, hr, he⟩ := h
    simp only [Prod.mk.injEq] at he
    obtain ⟨h1, _, h3⟩ := he
    rw [← h3]
    exact minutesLoad_progress fl tooOld _ _ _ x r hr
      (renderBars_length_pos fl r.1 (by rw [h1]; exact hpos))
  · intro x bData nDate nOffset h hpos
    simp only [ Minutes60RecordIO.policy, Minutes60RecordIO.LoadFromFile,
      Minutes60RecordIO.LoadBars, Option.map_eq_some'] at h
    obtain ⟨r, hr, he⟩ := h
    simp only [Prod.mk.injEq] at he
    obtain ⟨h1, _, h3⟩ := he
    rw [← h3]
    exact minutesLoad_progress fl tooOld _ _ _ x r hr
      (renderBars_length_pos fl r.1 (by rw [h1]; exact hpos))

/-! ## Release after the traversal: claims -/

/-- C16, amended: for a policy whose loader consumes at least one byte with every
chunk that is not empty, as the five policies of `XCompress` do, a run of
`translateFolder` that initialized the policy ends, and `Release` is called exactly
once when the source folder could be opened and listed, whatever happened to the
files and sub-folders in it, unless the run panics; when the source folder could not
be opened or listed `Release` is not called, the flag is false and no bucket has
been opened. -/
theorem translateFolder_release_calls (P : Policy) (hprog : P.Progresses)
    (headerOk : Nat → Bytes → Bool)
    (sDestFile sSrcFolder : Bytes) (readable : Bool) (entries : List Node) (disk : Disk)
    (hinit : P.Initialize = true) :
    (readable = true →
        (∃ r, translateFolder P headerOk true sDestFile sSrcFolder readable entries disk = Run.ok r ∧
          r.releaseCalls = 1) ∨
        translateFolder P headerOk true sDestFile sSrcFolder readable entries disk = Run.panic) ∧
      (readable = false →
        translateFolder P headerOk true sDestFile sSrcFolder readable entries disk
          = Run.fail { lstRes := [], releaseCalls := 0,
                       archive := { mapFileHandle := [], disk := disk, entries := [] } }) := by
  constructor
  · intro hr
    subst hr
    simp only [translateFolder, hinit, compressFolder, if_true, Bool.true_eq_false, if_false]
    cases hx : compressFolder.entries P headerOk (P.GenFilePath sDestFile) sSrcFolder
        (pathBase sSrcFolder) entries { mapFileHandle := [], disk := disk, entries := [] } with
    | ok a => exact Or.inl ⟨_, rfl, rfl⟩
    | fail a => exact absurd hx (compressFolder.entries_ne_fail _ _ _ _ _ _ _ _)
    | panic => exact Or.inr rfl
    | outOfFuel => exact absurd hx (compressFolder.entries_ne_outOfFuel P hprog _ _ _ _ _ _)
  · intro hr
    subst hr
    simp [translateFolder, hinit, compressFolder]

/-- Witness of C16, amended: the daily-bar policy on the folder "src" with one
file, in a world where no bucket file can be created: the run returns and has
called `Release` once. -/
theorem translateFolder_release_calls_witness :
    ∃ r, translateFolder ( Day1RecordIO.policy readOnlyWorld (ascii "sse.d1") none)
        (fun _ _ => true) true (ascii "out/SSE/DAY/DAY.") (ascii "src") true
        [Node.file (ascii "DAY600000.csv") (some (ascii "20240101,1\n")) 420 0] Disk.empty
          = Run.ok r ∧ r.releaseCalls = 1 :=
  ((translateFolder_release_calls ( Day1RecordIO.policy readOnlyWorld (ascii "sse.d1") none)
    (XCompress_policies_progress wholeFloats (fun _ => false) readOnlyWorld (ascii "sse.d1") none
      2024).2.1
    (fun _ _ => true) (ascii "out/SSE/DAY/DAY.") (ascii "src") true
    [Node.file (ascii "DAY600000.csv") (some (ascii "20240101,1\n")) 420 0] Disk.empty
    (by decide)).1 (by decide)).resolve_right (by decide)

end FileSync
